import Mathlib

/-!
# PBX telephone exchange: a sequential embedding of `tu.c` and `pbx.c`

The C program keeps every telephone unit (TU) on the heap and lets TUs point at
each other through `peer`.  The embedding makes the heap explicit:

* a TU pointer is an address (`Nat`); `NULL` is `none`;
* `World.tus a = some n` says that address `a` holds a live TU whose
  `tu->head` is `n`; `none` says that nothing usable lives there (never
  allocated, or released by `free`);
* every call of `Rio_writen(fd, buf, size)` appends `(fd, buf)` to `World.out`,
  so `out` is the trace of everything written to every descriptor, in order;
* an operation returns `none` when the C code would not return normally on
  that input: it dereferences `NULL` or released memory, reads an
  uninitialised local, or waits (`P`) on a semaphore that the same thread
  already holds.  Otherwise it returns `some (r, w)`: the C return value and
  the world afterwards;
* what `malloc` and `calloc` deliver is an argument of the operation that
  allocates (`tu_init`, `pbx_register`), so that their failure branches are
  part of the embedding.

Each operation runs alone from start to end (one thread at a time), so the
semaphores `tu_lock`, `tu_read_cnt_mutex` and `pbx_lock` are always free when an
operation starts; the only lock effect that remains visible is the
self-deadlock mentioned above.  `ref_cnt` and `connfd` are C `int`s; they are
modelled as `Int` because no operation moves them anywhere near the limits of
`int` (a reference count changes by one per operation).

Two places look at threads that run at the same time: `tu_dial` is also given
in the two parts between which it holds no semaphore (`tu_dial_ring_check`,
`tu_dial_ring_commit`), and the semaphore statements of `tu_dial` and
`tu_pickup` are given as lists that a schedule runs step by step (`LockOp`,
`sched_run`).  The command dispatcher of `server.c` and the option handling of
`main.c` have sections of their own.
-/

namespace PbxSim

/-- The seven TU states (the enumeration indexing `tu_state_names`).  In the C
code `tu->head->state` is a `char *` that always points at one entry of
`tu_state_names`, and states are compared with `strcmp`; since the seven names
are pairwise different (`tu_state_names_injective`), comparing the names is
the same as comparing the enumeration values. -/
inductive TU_STATE where
  | TU_ON_HOOK
  | TU_RINGING
  | TU_DIAL_TONE
  | TU_RING_BACK
  | TU_BUSY_SIGNAL
  | TU_CONNECTED
  | TU_ERROR
deriving DecidableEq, Repr

open TU_STATE

/-- Modelled from the spec: the table `tu_state_names` is declared in `pbx.h`,
which is not among the sources; the names are the ones of the wire protocol
table (section 6 of the specification). -/
def tu_state_names : TU_STATE → String
  | TU_ON_HOOK => "ON_HOOK"
  | TU_RINGING => "RINGING"
  | TU_DIAL_TONE => "DIAL_TONE"
  | TU_RING_BACK => "RING_BACK"
  | TU_BUSY_SIGNAL => "BUSY_SIGNAL"
  | TU_CONNECTED => "CONNECTED"
  | TU_ERROR => "ERROR"

/-- The C `struct tu_node`: what `tu->head` points at. -/
structure tu_node where
  ref_cnt : Int
  connfd : Int
  state : TU_STATE
  peer : Option Nat
deriving DecidableEq, Repr

/-- The C `struct pbx_node`, without the `next` link (the list is a `List`). -/
structure pbx_node where
  tu : Nat
  ext : Int
deriving DecidableEq, Repr

/-- The C `struct pbx`: the linked list starting at `head`, and `node_count`. -/
structure PBX where
  head : List pbx_node
  node_count : Int
deriving DecidableEq, Repr

/-- The heap of TUs, the one global `pbx`, and the trace of `Rio_writen`.
`released` is a record kept for the proofs only: whenever `free` releases a
live TU, the address and what `tu->head` held at that moment are appended, so
that the last state of a TU can still be looked at after its heap cell is
gone. -/
structure World where
  tus : Nat → Option tu_node
  pbx : PBX
  out : List (Int × String)
  released : List (Nat × tu_node) := []

/-- The csapp routine `Rio_writen(fd, buf, size)`: the bytes go to `fd`. -/
def Rio_writen (w : World) (fd : Int) (buf : String) : World :=
  { w with out := w.out ++ [(fd, buf)] }

/-- A store through `a->head`: `none` when `a` is not a live TU. -/
def World.upd (w : World) (a : Nat) (f : tu_node → tu_node) : Option World :=
  match w.tus a with
  | some n => some { w with tus := Function.update w.tus a (some (f n)) }
  | none => none

/-- Taking the write locks of two TUs (`P(&a->tu_lock); P(&b->tu_lock)` in
either order).  With `a = b` the second `P` waits on a semaphore the caller
holds itself, and never returns. -/
def lock_pair (a b : Nat) : Option Unit :=
  if a = b then none else some ()

/-- The C `tu_ref`: `tu->head->ref_cnt += 1`. -/
def tu_ref (w : World) (tu : Nat) : Option World :=
  w.upd tu (fun h => { h with ref_cnt := h.ref_cnt + 1 })

/-- The C `tu_unref`: `tu->head->ref_cnt -= 1` (nothing is freed here). -/
def tu_unref (w : World) (tu : Nat) : Option World :=
  w.upd tu (fun h => { h with ref_cnt := h.ref_cnt - 1 })

/-- The C `tu_fileno`: `tu->head->connfd`. -/
def tu_fileno (w : World) (tu : Nat) : Option Int :=
  (w.tus tu).map (fun h => h.connfd)

/-- The C `tu_extension`: also `tu->head->connfd`. -/
def tu_extension (w : World) (tu : Nat) : Option Int :=
  (w.tus tu).map (fun h => h.connfd)

/-- The C `tu_set_extension`. -/
def tu_set_extension (w : World) (tu : Nat) (ext : Int) : Option (Int × World) := do
  let w ← w.upd tu (fun h => { h with connfd := ext })
  if ext = -1 then
    pure (0, w)
  else
    pure (0, Rio_writen w ext (tu_state_names TU_ON_HOOK ++ " " ++ toString ext ++ "\n"))

/-- The locals `fileno_peer_tu` of `tu_dial`: assigned only when the TU has a
peer (whose head is then read), left uninitialised otherwise.  The outer
`Option` is the dereference, the inner one the initialisation. -/
def read_peer_fileno (w : World) (n : tu_node) : Option (Option Int) :=
  match n.peer with
  | some p => (w.tus p).map (fun h => some h.connfd)
  | none => some none

/-- The notification text built in the "no effect" branches of `tu_dial`. -/
def dial_notice (n : tu_node) (fileno_tu : Int) (fileno_peer_tu : Option Int) :
    Option String :=
  if n.state = TU_CONNECTED then
    fileno_peer_tu.map (fun fd => tu_state_names n.state ++ " " ++ toString fd ++ "\n")
  else if n.state = TU_ON_HOOK then
    some (tu_state_names n.state ++ " " ++ toString fileno_tu ++ "\n")
  else
    some (tu_state_names n.state ++ "\n")

/-- The C `tu_dial`. -/
def tu_dial (w : World) (tu : Nat) (target : Option Nat) : Option (Int × World) := do
  let n ← w.tus tu
  match target with
  | none =>
    if n.state = TU_DIAL_TONE then do
      let fileno_tu := n.connfd
      let w ← w.upd tu (fun h => { h with state := TU_ERROR })
      pure (-1, Rio_writen w fileno_tu (tu_state_names TU_ERROR ++ "\n"))
    else if n.state ≠ TU_DIAL_TONE then do
      let fileno_tu := n.connfd
      let fileno_peer_tu ← read_peer_fileno w n
      let text ← dial_notice n fileno_tu fileno_peer_tu
      pure (0, Rio_writen w fileno_tu text)
    else
      pure (-1, w)
  | some target =>
    if n.state ≠ TU_DIAL_TONE then do
      let fileno_tu := n.connfd
      let fileno_peer_tu ← read_peer_fileno w n
      let text ← dial_notice n fileno_tu fileno_peer_tu
      let fd ← tu_fileno w tu
      pure (0, Rio_writen w fd text)
    else if target = tu then do
      let fileno_tu := n.connfd
      let w ← w.upd tu (fun h => { h with state := TU_BUSY_SIGNAL })
      pure (0, Rio_writen w fileno_tu (tu_state_names TU_BUSY_SIGNAL ++ "\n"))
    else do
      let m ← w.tus target
      if m.peer ≠ none ∨ m.state ≠ TU_ON_HOOK then do
        let fileno_tu := n.connfd
        let w ← w.upd tu (fun h => { h with state := TU_BUSY_SIGNAL })
        pure (0, Rio_writen w fileno_tu (tu_state_names TU_BUSY_SIGNAL ++ "\n"))
      else if m.peer = none ∧ m.state = TU_ON_HOOK then do
        let fileno_tu := n.connfd
        let fileno_target := m.connfd
        let _ ← lock_pair tu target
        let w ← w.upd tu (fun h => { h with state := TU_RING_BACK })
        let w ← w.upd target (fun h => { h with state := TU_RINGING })
        let w ← w.upd tu (fun h => { h with peer := some target })
        let w ← w.upd target (fun h => { h with peer := some tu })
        let w := Rio_writen w fileno_tu (tu_state_names TU_RING_BACK ++ "\n")
        pure (0, Rio_writen w fileno_target (tu_state_names TU_RINGING ++ "\n"))
      else
        pure (-1, w)

/-- The C `tu_pickup`. -/
def tu_pickup (w : World) (tu : Nat) : Option (Int × World) := do
  let n ← w.tus tu
  if n.state ≠ TU_ON_HOOK ∧ n.state ≠ TU_RINGING then do
    let text ←
      if n.state = TU_CONNECTED then do
        let p ← n.peer
        let fd ← tu_fileno w p
        pure (tu_state_names n.state ++ " " ++ toString fd ++ "\n")
      else if n.state = TU_ON_HOOK then do
        let fd ← tu_fileno w tu
        pure (tu_state_names n.state ++ " " ++ toString fd ++ "\n")
      else
        pure (tu_state_names n.state ++ "\n")
    let fd ← tu_fileno w tu
    pure (0, Rio_writen w fd text)
  else if n.state = TU_ON_HOOK then do
    let w ← w.upd tu (fun h => { h with state := TU_DIAL_TONE })
    let fd ← tu_fileno w tu
    pure (0, Rio_writen w fd (tu_state_names TU_DIAL_TONE ++ "\n"))
  else if n.state = TU_RINGING then do
    let p ← n.peer
    let _ ← w.tus p
    let _ ← lock_pair tu p
    let w ← w.upd tu (fun h => { h with state := TU_CONNECTED })
    let w ← w.upd p (fun h => { h with state := TU_CONNECTED })
    let fd_peer ← tu_fileno w p
    let fd ← tu_fileno w tu
    let w := Rio_writen w fd (tu_state_names TU_CONNECTED ++ " " ++ toString fd_peer ++ "\n")
    let w := Rio_writen w fd_peer (tu_state_names TU_CONNECTED ++ " " ++ toString fd ++ "\n")
    let w ← tu_ref w tu
    let w ← tu_ref w p
    pure (0, w)
  else
    pure (-1, w)

/-- The C `free(tu->head)`: the TU at `tu` cannot be used any more.  What the
head held is appended to `released`. -/
def free_head (w : World) (tu : Nat) : World :=
  match w.tus tu with
  | some n =>
    { w with tus := Function.update w.tus tu none, released := w.released ++ [(tu, n)] }
  | none => { w with tus := Function.update w.tus tu none }

/-- The C `tu_hangup`. -/
def tu_hangup (w : World) (tu : Nat) : Option (Int × World) := do
  let n ← w.tus tu
  if n.connfd = -1 then
    match n.peer with
    | some p => do
      let np ← w.tus p
      let tu_peer_fileno := np.connfd
      let w ← tu_unref w p
      let w ← tu_unref w tu
      let _ ← lock_pair tu p
      let w ← w.upd p (fun h => { h with state := TU_DIAL_TONE })
      let w ← w.upd p (fun h => { h with peer := none })
      let w ← w.upd tu (fun h => { h with peer := none })
      let w := Rio_writen w tu_peer_fileno (tu_state_names TU_DIAL_TONE ++ "\n")
      pure (0, free_head w tu)
    | none => do
      let w ← tu_unref w tu
      pure (0, free_head w tu)
  else if n.state = TU_CONNECTED ∨ n.state = TU_RINGING then do
    let fileno_tu := n.connfd
    let p ← n.peer
    let np ← w.tus p
    let fileno_peer_tu := np.connfd
    let w ←
      if n.state = TU_CONNECTED then do
        let w ← tu_unref w tu
        tu_unref w p
      else
        pure w
    let _ ← lock_pair tu p
    let w ← w.upd tu (fun h => { h with state := TU_ON_HOOK })
    let w ← w.upd p (fun h => { h with state := TU_DIAL_TONE })
    let w ← w.upd p (fun h => { h with peer := none })
    let w ← w.upd tu (fun h => { h with peer := none })
    let w := Rio_writen w fileno_tu (tu_state_names TU_ON_HOOK ++ " " ++ toString fileno_tu ++ "\n")
    pure (0, Rio_writen w fileno_peer_tu (tu_state_names TU_DIAL_TONE ++ "\n"))
  else if n.state = TU_RING_BACK then do
    let fileno_tu := n.connfd
    let p ← n.peer
    let np ← w.tus p
    let fileno_peer_tu := np.connfd
    let _ ← lock_pair tu p
    let w ← w.upd tu (fun h => { h with state := TU_ON_HOOK })
    let w ← w.upd p (fun h => { h with state := TU_ON_HOOK })
    let w := Rio_writen w fileno_tu (tu_state_names TU_ON_HOOK ++ " " ++ toString fileno_tu ++ "\n")
    pure (0, Rio_writen w fileno_peer_tu
      (tu_state_names TU_ON_HOOK ++ " " ++ toString fileno_peer_tu ++ "\n"))
  else if n.state = TU_DIAL_TONE ∨ n.state = TU_BUSY_SIGNAL ∨ n.state = TU_ERROR then do
    let fileno_tu := n.connfd
    let w ← w.upd tu (fun h => { h with state := TU_ON_HOOK })
    let fd ← tu_fileno w tu
    pure (0, Rio_writen w fd (tu_state_names TU_ON_HOOK ++ " " ++ toString fileno_tu ++ "\n"))
  else do
    let fileno_tu := n.connfd
    pure (-1, Rio_writen w fileno_tu (tu_state_names n.state ++ " " ++ toString fileno_tu ++ "\n"))

/-- The C `tu_chat`. -/
def tu_chat (w : World) (tu : Nat) (msg : String) : Option (Int × World) := do
  let n ← w.tus tu
  let fileno_tu := n.connfd
  if n.state ≠ TU_CONNECTED then
    if n.state = TU_ON_HOOK then
      pure (-1, Rio_writen w fileno_tu (tu_state_names n.state ++ " " ++ toString fileno_tu ++ "\n"))
    else
      pure (-1, Rio_writen w fileno_tu (tu_state_names n.state ++ "\n"))
  else do
    let p ← n.peer
    let np ← w.tus p
    let fileno_peer_tu := np.connfd
    let w := Rio_writen w fileno_peer_tu ("CHAT" ++ " " ++ msg)
    pure (0, Rio_writen w fileno_tu (tu_state_names n.state ++ " " ++ toString fileno_peer_tu ++ "\n"))

/-- The search loop of `pbx_dial`: the first node whose `ext` is the one asked
for, walking the list from `pbx->head`. -/
def pbx_find_ext : List pbx_node → Int → Option pbx_node
  | [], _ => none
  | curr_node :: next, ext =>
    if curr_node.ext = ext then some curr_node else pbx_find_ext next ext

/-- The C `pbx_dial`: the result of `tu_dial` is dropped; the return value only
tells whether a node with this `ext` was found. -/
def pbx_dial (w : World) (tu : Nat) (ext : Int) : Option (Int × World) :=
  match pbx_find_ext w.pbx.head ext with
  | some curr_node => do
    let r ← tu_dial w tu (some curr_node.tu)
    pure (0, r.2)
  | none => do
    let r ← tu_dial w tu none
    pure (-1, r.2)

/-- The C `tu_init`.  `tu_mem` is what `malloc(sizeof(struct tu))` returns (the
address of unused memory, or `NULL`), `head_mem` tells whether the second
`malloc`, for `tu->head`, succeeds.  The result is the returned pointer and the
world; nothing is written to any descriptor. -/
def tu_init (w : World) (tu_mem : Option Nat) (head_mem : Bool) (fd : Int) :
    Option Nat × World :=
  match tu_mem with
  | none => (none, w)
  | some tu =>
    if head_mem then
      (some tu, { w with tus := Function.update w.tus tu (some ⟨0, fd, TU_ON_HOOK, none⟩) })
    else
      (none, w)

/-- The tail walk of `pbx_register`: the new node becomes the head of an empty
list, and the `next` of the last node otherwise. -/
def pbx_append : List pbx_node → pbx_node → List pbx_node
  | [], new_node => [new_node]
  | curr_node :: next, new_node => curr_node :: pbx_append next new_node

/-- The C `pbx_register`.  `calloc_ok` tells whether `calloc` delivers the new
node. -/
def pbx_register (w : World) (tu : Nat) (ext : Int) (calloc_ok : Bool) :
    Option (Int × World) :=
  if calloc_ok = false then
    pure (-1, w)
  else do
    let w ← tu_ref w tu
    let r ← tu_set_extension w tu ext
    let w := r.2
    pure (0, { w with
      pbx := { head := pbx_append w.pbx.head ⟨tu, ext⟩, node_count := w.pbx.node_count + 1 } })

/-- The search loop of `pbx_unregister`: the first node whose `tu` pointer is
the one asked for. -/
def pbx_find_tu : List pbx_node → Nat → Option pbx_node
  | [], _ => none
  | curr_node :: next, tu =>
    if curr_node.tu = tu then some curr_node else pbx_find_tu next tu

/-- The store `curr_node->ext = -1` of `pbx_unregister`, on the node its loop
stopped at (the first one whose `tu` pointer matches). -/
def pbx_mark_unregistered : List pbx_node → Nat → List pbx_node
  | [], _ => []
  | curr_node :: next, tu =>
    if curr_node.tu = tu then { curr_node with ext := -1 } :: next
    else curr_node :: pbx_mark_unregistered next tu

/-- The C `free(curr_node->tu)`: the TU structure itself is released.  When its
head has not been freed before (as in `pbx_shutdown`, which leaves the head
allocated), what the head held is appended to `released`. -/
def free_tu (w : World) (tu : Nat) : World :=
  match w.tus tu with
  | some n =>
    { w with tus := Function.update w.tus tu none, released := w.released ++ [(tu, n)] }
  | none => { w with tus := Function.update w.tus tu none }

/-- The C `pbx_unregister`.  The node stays in the list, with `ext` set to -1
and its `tu` pointer left as it was. -/
def pbx_unregister (w : World) (tu : Nat) : Option (Int × World) :=
  match pbx_find_tu w.pbx.head tu with
  | some _ => do
    let r ← tu_set_extension w tu (-1)
    let r ← tu_hangup r.2 tu
    let w := free_tu r.2 tu
    pure (0, { w with
      pbx := { head := pbx_mark_unregistered w.pbx.head tu,
               node_count := w.pbx.node_count - 1 } })
  | none => pure (-1, w)

/-- The first loop of `pbx_shutdown`, from `curr_node` on.  `shutdown_ok fd`
tells whether the system call `shutdown(fd, SHUT_RD)` succeeds.  The result is
the world and whether the loop ran to the end of the list (`true`) or left
through the early `return` after a failed `shutdown` (`false`). -/
def pbx_shutdown_loop (shutdown_ok : Int → Bool) : List pbx_node → World → Option (Bool × World)
  | [], w => some (true, w)
  | curr_node :: next, w =>
    if curr_node.ext ≠ -1 then do
      let w ← tu_unref w curr_node.tu
      if shutdown_ok curr_node.ext = false then
        pure (false, w)
      else do
        let r ← tu_hangup w curr_node.tu
        let w := free_tu r.2 curr_node.tu
        pbx_shutdown_loop shutdown_ok next w
    else
      pbx_shutdown_loop shutdown_ok next w

/-- The C `pbx_shutdown`.  After the first loop every node and the `pbx`
structure are freed: no entry is left.  (The second loop reads
`curr_node->next` just after `free(tmp_node)`; it is embedded as the walk over
the whole list that it is written to be.) -/
def pbx_shutdown (w : World) (shutdown_ok : Int → Bool) : Option World := do
  let r ← pbx_shutdown_loop shutdown_ok w.pbx.head w
  if r.1 then
    pure { r.2 with pbx := { head := [], node_count := r.2.pbx.node_count } }
  else
    pure r.2

/-! ### `tu_dial` in two parts

On the way to its ring branch `tu_dial` first reads both TUs while it holds
them as a reader (`tu_reader_enters`, up to the `tu_reader_leaves` of lines
397 and 399), then takes the two write locks and stores the new states and
peers.  Between the two parts the thread holds no semaphore, so another
thread can run there. -/

/-- The first part of `tu_dial(tu, target)` with a target: the tests of lines
305, 343, 366 and 389, made as a reader.  The result is `some (fileno_tu,
fileno_target)` when they lead to the ring branch, `none` when they lead
elsewhere. -/
def tu_dial_ring_check (w : World) (tu target : Nat) : Option (Option (Int × Int)) := do
  let n ← w.tus tu
  if n.state ≠ TU_DIAL_TONE then
    pure none
  else if target = tu then
    pure none
  else do
    let m ← w.tus target
    if m.peer ≠ none ∨ m.state ≠ TU_ON_HOOK then
      pure none
    else if m.peer = none ∧ m.state = TU_ON_HOOK then
      pure (some (n.connfd, m.connfd))
    else
      pure none

/-- The second part of the ring branch of `tu_dial` (lines 402 to 438): the two
write locks, the four stores, the two notifications. -/
def tu_dial_ring_commit (w : World) (tu target : Nat) (fileno_tu fileno_target : Int) :
    Option (Int × World) := do
  let _ ← lock_pair tu target
  let w ← w.upd tu (fun h => { h with state := TU_RING_BACK })
  let w ← w.upd target (fun h => { h with state := TU_RINGING })
  let w ← w.upd tu (fun h => { h with peer := some target })
  let w ← w.upd target (fun h => { h with peer := some tu })
  let w := Rio_writen w fileno_tu (tu_state_names TU_RING_BACK ++ "\n")
  pure (0, Rio_writen w fileno_target (tu_state_names TU_RINGING ++ "\n"))

/-- Two threads dial the same target `b`, one for the TU `a` and one for the
TU `c`, and each finishes the first part of `tu_dial` (both read `w`) before
either runs the second: `a` stores first, then `c`.  `none` when one of the
two calls does not go to the ring branch. -/
def dial_race (w : World) (a c b : Nat) : Option World := do
  let plan_a ← tu_dial_ring_check w a b
  let plan_c ← tu_dial_ring_check w c b
  match plan_a, plan_c with
  | some fds_a, some fds_c => do
    let r ← tu_dial_ring_commit w a b fds_a.1 fds_a.2
    let r ← tu_dial_ring_commit r.2 c b fds_c.1 fds_c.2
    pure r.2
  | _, _ => none

/-! ### The semaphores of the TUs

Which thread waits for which semaphore does not show when every operation runs
alone.  Here an operation is followed on one path through its code as the
list of the statements that touch a semaphore or a reader count; threads run
such lists one statement at a time, in any order that the semaphores allow. -/

/-- The two semaphores of a TU. -/
inductive Sem where
  | tu_lock (tu : Nat)
  | tu_read_cnt_mutex (tu : Nat)
deriving DecidableEq, Repr

/-- A statement of `tu.c` that touches a semaphore or a reader count: `P`, `V`,
`tu->tu_read_cnt += 1`, `tu->tu_read_cnt -= 1`,
`if (tu->tu_read_cnt == 1) P(&(tu->tu_lock))` and
`if (tu->tu_read_cnt == 0) V(&(tu->tu_lock))`. -/
inductive LockOp where
  | P (s : Sem)
  | V (s : Sem)
  | read_cnt_incr (tu : Nat)
  | read_cnt_decr (tu : Nat)
  | P_if_first (tu : Nat)
  | V_if_last (tu : Nat)
deriving DecidableEq, Repr

/-- The value of every semaphore and the reader count of every TU. -/
structure Sems where
  value : Sem → Nat
  tu_read_cnt : Nat → Int

/-- The semaphores as `tu_init` leaves them (`Sem_init(..., 0, 1)`, and
`tu_read_cnt = 0`). -/
def Sems.fresh : Sems :=
  { value := fun _ => 1
    tu_read_cnt := fun _ => 0 }

/-- One statement run by a thread: `none` when the thread has to wait (a `P`
on a semaphore whose value is 0). -/
def LockOp.exec (s : Sems) : LockOp → Option Sems
  | LockOp.P x =>
    if s.value x = 0 then none else some { s with value := Function.update s.value x (s.value x - 1) }
  | LockOp.V x => some { s with value := Function.update s.value x (s.value x + 1) }
  | LockOp.read_cnt_incr tu =>
    some { s with tu_read_cnt := Function.update s.tu_read_cnt tu (s.tu_read_cnt tu + 1) }
  | LockOp.read_cnt_decr tu =>
    some { s with tu_read_cnt := Function.update s.tu_read_cnt tu (s.tu_read_cnt tu - 1) }
  | LockOp.P_if_first tu =>
    if s.tu_read_cnt tu = 1 then
      if s.value (Sem.tu_lock tu) = 0 then none
      else some { s with
        value := Function.update s.value (Sem.tu_lock tu) (s.value (Sem.tu_lock tu) - 1) }
    else some s
  | LockOp.V_if_last tu =>
    if s.tu_read_cnt tu = 0 then
      some { s with
        value := Function.update s.value (Sem.tu_lock tu) (s.value (Sem.tu_lock tu) + 1) }
    else some s

/-- The C `tu_reader_enters`. -/
def tu_reader_enters (tu : Nat) : List LockOp :=
  [LockOp.P (Sem.tu_read_cnt_mutex tu), LockOp.read_cnt_incr tu, LockOp.P_if_first tu,
    LockOp.V (Sem.tu_read_cnt_mutex tu)]

/-- The C `tu_reader_leaves`. -/
def tu_reader_leaves (tu : Nat) : List LockOp :=
  [LockOp.P (Sem.tu_read_cnt_mutex tu), LockOp.read_cnt_decr tu, LockOp.V_if_last tu,
    LockOp.V (Sem.tu_read_cnt_mutex tu)]

/-- The two `P` of an operation that writes to `tu` and to `other` (the
`if (tu < ...)` of `tu_dial`, `tu_pickup` and `tu_hangup`). -/
def write_lock_pair (tu other : Nat) : List LockOp :=
  if tu < other then [LockOp.P (Sem.tu_lock tu), LockOp.P (Sem.tu_lock other)]
  else [LockOp.P (Sem.tu_lock other), LockOp.P (Sem.tu_lock tu)]

/-- The path of `tu_pickup` for a TU that is ON_HOOK (lines 479 to 516,
`tu_fileno` included). -/
def tu_pickup_on_hook_locks (tu : Nat) : List LockOp :=
  tu_reader_enters tu ++ tu_reader_leaves tu ++
    [LockOp.P (Sem.tu_lock tu), LockOp.V (Sem.tu_lock tu)] ++
    (tu_reader_enters tu ++ tu_reader_leaves tu)

/-- The path of `tu_dial` through its ring branch (lines 234, 364, 397 to
422). -/
def tu_dial_ring_locks (tu target : Nat) : List LockOp :=
  tu_reader_enters tu ++ tu_reader_enters target ++ tu_reader_leaves target ++
    tu_reader_leaves tu ++ write_lock_pair tu target ++
    [LockOp.V (Sem.tu_lock target), LockOp.V (Sem.tu_lock tu)]

/-- The start of every path of `tu_dial` on which the TU is at DIAL_TONE and
the target is another TU: lines 234 and 364. -/
def tu_dial_read_locks (tu target : Nat) : List LockOp :=
  tu_reader_enters tu ++ tu_reader_enters target

/-- Thread `i` runs its next statement; `none` when it has none left or has to
wait. -/
def sched_step (s : Sems) (threads : List (List LockOp)) (i : Nat) :
    Option (Sems × List (List LockOp)) :=
  match threads.get? i with
  | some (op :: rest) => (op.exec s).map (fun s1 => (s1, threads.set i rest))
  | _ => none

/-- The threads run in the order given by the schedule, one statement per
entry. -/
def sched_run (s : Sems) (threads : List (List LockOp)) :
    List Nat → Option (Sems × List (List LockOp))
  | [] => some (s, threads)
  | i :: is => (sched_step s threads i).bind (fun r => sched_run r.1 r.2 is)

/-- The thread has a statement left and has to wait with it. -/
def waiting (s : Sems) : List LockOp → Bool
  | [] => false
  | op :: _ => (op.exec s).isNone

/-- No thread can run: each one is finished or waits, and one at least waits.
Nothing changes any more from here on. -/
def deadlocked (s : Sems) (threads : List (List LockOp)) : Bool :=
  threads.all (fun th => th.isEmpty || waiting s th) && threads.any (waiting s)

/-! ## Harness: operation sequences, concrete worlds, the words of the spec -/

/-- One client command, as the service loop of `server.c` issues them:
`dial` goes through `pbx_dial`, the other three straight to the TU. -/
inductive Op where
  | dial (t : Nat) (ext : Int)
  | pickup (t : Nat)
  | hangup (t : Nat)
  | chat (t : Nat) (msg : String)
deriving DecidableEq, Repr

/-- The world after one command (the return value is dropped, as the service
loop drops it). -/
def step (w : World) : Op → Option World
  | Op.dial t ext => (pbx_dial w t ext).map Prod.snd
  | Op.pickup t => (tu_pickup w t).map Prod.snd
  | Op.hangup t => (tu_hangup w t).map Prod.snd
  | Op.chat t msg => (tu_chat w t msg).map Prod.snd

/-- The world after a sequence of commands, run one after the other. -/
def run (w : World) : List Op → Option World
  | [] => some w
  | op :: ops => (step w op).bind (fun w1 => run w1 ops)

/-- Two TUs on the heap: `a` at address 1 and `b` at address 2, registered in
this order under their descriptors; nothing written yet. -/
def two_tus (a b : tu_node) : World :=
  { tus := fun x => if x = 1 then some a else if x = 2 then some b else none
    pbx := { head := [⟨1, a.connfd⟩, ⟨2, b.connfd⟩], node_count := 2 }
    out := [] }

/-- TU A (address 1, extension 4) and TU B (address 2, extension 5), as
`tu_init` and `pbx_register` leave them: ON_HOOK, no peer, one reference. -/
def idle_AB : World :=
  two_tus ⟨1, 4, TU_ON_HOOK, none⟩ ⟨1, 5, TU_ON_HOOK, none⟩

/-- A world of freshly registered TUs: every live TU is ON_HOOK without peer,
holds the registry's reference only, and is listed in the registry under its
extension, which is not the sentinel -1. -/
def freshly_registered (w : World) : Prop :=
  ∀ a n, w.tus a = some n →
    n.state = TU_ON_HOOK ∧ n.peer = none ∧ n.ref_cnt = 1 ∧ n.connfd ≠ -1 ∧
      pbx_node.mk a n.connfd ∈ w.pbx.head

/-- The first invariant of section 8 of the spec, for one TU: it has a peer
exactly when its state is RINGING, RING_BACK or CONNECTED. -/
def peer_iff_engaged (n : tu_node) : Prop :=
  n.peer ≠ none ↔ (n.state = TU_RINGING ∨ n.state = TU_RING_BACK ∨ n.state = TU_CONNECTED)

/-- The allowed state pairs of two TUs that are each other's peer. -/
def pair_states_ok (a b : TU_STATE) : Prop :=
  (a = TU_RING_BACK ∧ b = TU_RINGING) ∨ (a = TU_RINGING ∧ b = TU_RING_BACK) ∨
    (a = TU_CONNECTED ∧ b = TU_CONNECTED)

/-- The second invariant of section 8 of the spec: whenever `A.peer = B`, also
`B.peer = A` and the two states form an allowed pair. -/
def pair_invariant (w : World) : Prop :=
  ∀ a b na, w.tus a = some na → na.peer = some b →
    ∃ nb, w.tus b = some nb ∧ nb.peer = some a ∧ pair_states_ok na.state nb.state

/-- The notification of a TU's state in the words of the spec (section 4.3,
"Notification format"): `CONNECTED <peer_ext>`, `ON_HOOK <self_ext>`, and the
bare state name otherwise, each ended by a newline. -/
def state_notification (s : TU_STATE) (self_ext peer_ext : Int) : String :=
  match s with
  | TU_CONNECTED => "CONNECTED " ++ toString peer_ext ++ "\n"
  | TU_ON_HOOK => "ON_HOOK " ++ toString self_ext ++ "\n"
  | TU_RINGING => "RINGING\n"
  | TU_DIAL_TONE => "DIAL_TONE\n"
  | TU_RING_BACK => "RING_BACK\n"
  | TU_BUSY_SIGNAL => "BUSY_SIGNAL\n"
  | TU_ERROR => "ERROR\n"

/-- The extension of the peer of `n`, when `n` has a live peer (0 otherwise;
the value is only looked at for a CONNECTED TU). -/
def peer_ext (w : World) (n : tu_node) : Int :=
  match n.peer.bind w.tus with
  | some np => np.connfd
  | none => 0

/-- What a trace holds for one descriptor: the texts written to `fd`, in the
order they were written. -/
def writes_to (fd : Int) (out : List (Int × String)) : List String :=
  (out.filter (fun e => e.1 = fd)).map Prod.snd

/-- The states in which a TU takes part in a call (ringing, rung back, or
connected). -/
def engaged (s : TU_STATE) : Prop :=
  s = TU_RINGING ∨ s = TU_RING_BACK ∨ s = TU_CONNECTED

/-- The TU a command is issued by. -/
def Op.tu : Op → Nat
  | Op.dial t _ => t
  | Op.pickup t => t
  | Op.hangup t => t
  | Op.chat t _ => t

/-- The TU that the registry hands to `tu_dial` for a `dial` command (none for
the other commands, and when no node carries the extension). -/
def dial_target (w : World) : Op → Option Nat
  | Op.dial _ ext => (pbx_find_ext w.pbx.head ext).map (fun nd => nd.tu)
  | _ => none

/-- A well-formed world, as the four commands find it and leave it when no TU
is unregistered: every TU is registered (extension not -1), no two TUs share
an extension, every node of the registry and every peer link points at a live
TU, and a TU that takes part in a call has a partner, another TU, whose peer
it is in turn, the two states matching. -/
structure call_inv (w : World) : Prop where
  registered : ∀ t nt, w.tus t = some nt → nt.connfd ≠ -1
  distinct : ∀ a b na nb, w.tus a = some na → w.tus b = some nb →
    na.connfd = nb.connfd → a = b
  listed_live : ∀ nd ∈ w.pbx.head, ∃ n, w.tus nd.tu = some n
  peer_live : ∀ t nt p, w.tus t = some nt → nt.peer = some p → ∃ np, w.tus p = some np
  paired : ∀ t nt, w.tus t = some nt → engaged nt.state →
    ∃ p np, nt.peer = some p ∧ p ≠ t ∧ w.tus p = some np ∧ np.peer = some t ∧
      pair_states_ok nt.state np.state

/-- The four ways in which a command by the TU `op.tu` (holding `nt` before)
turns the world `w` into `w'`: nothing but a notification of the unchanged
state (`quiet`); a chat line to the peer and that notification (`chat`); a
change of the TU alone, outside any call (`solo`); a change of the TU and of
one other TU `o`, its peer or its dial target, with one notification to each
(`duo`). -/
inductive step_shape (w : World) (op : Op) (nt : tu_node) (w' : World) : Prop where
  | quiet :
      w'.tus = w.tus →
      w'.out = w.out ++
        [(nt.connfd, state_notification nt.state nt.connfd (peer_ext w nt))] →
      step_shape w op nt w'
  | chat (p : Nat) (np : tu_node) (msg : String) :
      op = Op.chat op.tu msg → nt.state = TU_CONNECTED → nt.peer = some p → p ≠ op.tu →
      w.tus p = some np →
      w'.tus = w.tus →
      w'.out = w.out ++ [(np.connfd, "CHAT " ++ msg),
        (nt.connfd, state_notification nt.state nt.connfd np.connfd)] →
      step_shape w op nt w'
  | solo (nt' : tu_node) :
      w'.tus = Function.update w.tus op.tu (some nt') →
      nt'.connfd = nt.connfd → nt'.peer = nt.peer → nt'.ref_cnt = nt.ref_cnt →
      ¬ engaged nt.state → ¬ engaged nt'.state → nt'.state ≠ nt.state →
      w'.out = w.out ++ [(nt.connfd, state_notification nt'.state nt.connfd 0)] →
      step_shape w op nt w'
  | duo (o : Nat) (no nt' no' : tu_node) :
      o ≠ op.tu → w.tus o = some no →
      (nt.peer = some o ∨ dial_target w op = some o) →
      w'.tus = Function.update (Function.update w.tus op.tu (some nt')) o (some no') →
      nt'.connfd = nt.connfd → no'.connfd = no.connfd →
      (engaged nt.state → nt.peer = some o) → (engaged no.state → no.peer = some op.tu) →
      (engaged nt'.state ∨ engaged no'.state →
        nt'.peer = some o ∧ no'.peer = some op.tu ∧ pair_states_ok nt'.state no'.state) →
      (∀ q, nt'.peer = some q → ∃ nq, w.tus q = some nq) →
      (∀ q, no'.peer = some q → ∃ nq, w.tus q = some nq) →
      w'.out = w.out ++ [(nt.connfd, state_notification nt'.state nt.connfd no.connfd),
        (no.connfd, state_notification no'.state no.connfd nt.connfd)] →
      step_shape w op nt w'

/-- The registry invariants of the data model, for a world of live TUs: no two
TUs share an extension, and every node of the registry points at a live TU. -/
def registry_sound (w : World) : Prop :=
  (∀ a b na nb, w.tus a = some na → w.tus b = some nb → na.connfd = nb.connfd → a = b) ∧
  (∀ nd ∈ w.pbx.head, ∃ n, w.tus nd.tu = some n)

/-- TU A (address 1, extension 4) and TU B (address 2, extension 5) in a call:
both CONNECTED, each the peer of the other, two references each. -/
def connected_AB : World :=
  two_tus ⟨2, 4, TU_CONNECTED, some 2⟩ ⟨2, 5, TU_CONNECTED, some 1⟩

/-- What happens at the exchange, beyond the four commands: a TU is created
(`tu_init` at the address the allocator hands out), registered, unregistered. -/
inductive Ev where
  | init (addr : Nat) (fd : Int)
  | register (t : Nat) (ext : Int)
  | unregister (t : Nat)
  | command (op : Op)

/-- The world after one event; allocations succeed, and `tu_init` is only
handed memory that is not in use. -/
def ev_step (w : World) : Ev → Option World
  | Ev.init addr fd =>
    match w.tus addr with
    | some _ => none
    | none => some (tu_init w (some addr) true fd).2
  | Ev.register t ext => (pbx_register w t ext true).map Prod.snd
  | Ev.unregister t => (pbx_unregister w t).map Prod.snd
  | Ev.command op => step w op

/-- The world after a sequence of events. -/
def ev_run (w : World) : List Ev → Option World
  | [] => some w
  | ev :: evs => (ev_step w ev).bind (fun w1 => ev_run w1 evs)

/-- The exchange before any connection: no TU, an empty registry. -/
def empty_world : World :=
  { tus := fun _ => none
    pbx := { head := [], node_count := 0 }
    out := [] }

/-- Three clients connect, as `pbx_client_service` does it: A at address 1 on
descriptor 4, B at address 2 on descriptor 5, C at address 3 on descriptor 6,
each created by `tu_init` and registered under its descriptor. -/
def connect_ABC : List Ev :=
  [Ev.init 1 4, Ev.register 1 4, Ev.init 2 5, Ev.register 2 5, Ev.init 3 6, Ev.register 3 6]

/-- The extensions under which the registry currently offers a TU: those of
the nodes whose `ext` is not the sentinel -1, in list order. -/
def registered_exts (l : List pbx_node) : List Int :=
  (l.filter (fun nd => nd.ext ≠ -1)).map (fun nd => nd.ext)

/-- The discipline of the accept loop, for a sequence of `tu_init`,
`pbx_register` and `pbx_unregister` events run from `w`: every registration
is given an extension that is not -1 and that no node of the registry carries
at that moment. -/
def fresh_registrations (w : World) : List Ev → Prop
  | [] => True
  | ev :: evs =>
    (match ev with
      | Ev.register _ ext => ext ≠ -1 ∧ ∀ nd ∈ w.pbx.head, nd.ext ≠ ext
      | Ev.command _ => False
      | _ => True) ∧
    ∀ w1, ev_step w ev = some w1 → fresh_registrations w1 evs

/-- The frame of an operation run by the TU `t` (holding `nt` before) that may
involve one other TU `o`, its peer or its dial target: every TU other than
`t` and `o` is what it was (state, peer, extension, reference count), and
what is written is written to the descriptor of `t` or of `o`. -/
def changes_only (w w' : World) (t : Nat) (nt : tu_node) (o : Option Nat) : Prop :=
  (∀ a, a ≠ t → o ≠ some a → w'.tus a = w.tus a) ∧
  ∃ new, w'.out = w.out ++ new ∧
    ∀ e ∈ new, e.1 = nt.connfd ∨ ∃ p np, o = some p ∧ w.tus p = some np ∧ e.1 = np.connfd

/-- No TU that was in another state is in ERROR afterwards. -/
def no_new_error (w w' : World) : Prop :=
  ∀ a n n', w.tus a = some n → w'.tus a = some n' → n'.state = TU_ERROR → n.state = TU_ERROR

/-- Three clients A (address 1, descriptor 4), B (address 2, descriptor 5) and
C (address 3, descriptor 6) connect.  A calls B and hangs up before B answers
(the RING_BACK branch of `tu_hangup` leaves both peer fields set), A calls C
and C answers, then B disconnects and A disconnects.  Unregistering B detaches
A, the TU that B still names as its peer, so unregistering A finds A without
peer and frees it while C is still in the call with it. -/
def released_peer_events : List Ev :=
  connect_ABC ++ [Ev.command (Op.pickup 1), Ev.command (Op.dial 1 5),
    Ev.command (Op.hangup 1), Ev.command (Op.pickup 1), Ev.command (Op.dial 1 6),
    Ev.command (Op.pickup 3), Ev.unregister 2, Ev.unregister 1]

/-- A calls B and hangs up before B answers, then picks up again: A is at
DIAL_TONE, and the RING_BACK branch of `tu_hangup` has left the peer fields of
A and B set. -/
def abandoned_call_ops : List Op :=
  [Op.pickup 1, Op.dial 1 5, Op.hangup 1, Op.pickup 1]

/-! ## The command dispatcher of `server.c`

A line is the list of bytes that `Rio_readlineb` stored in `buf` (the newline
included when the client sent one); the terminating NUL stands behind the
last element.  Each byte is a `Char`. -/

/-- The NUL byte. -/
def NUL : Char := Char.ofNat 0

/-- The C string that starts at `buf + i`: the bytes up to the next NUL. -/
def c_str (buf : List Char) (i : Nat) : List Char :=
  (buf.drop i).takeWhile (fun c => c ≠ NUL)

/-- The C `strtok_r(s, " ", &save)` on the buffer, with `s` not `NULL` (the
service loop always passes `rest`): skip spaces, return `NULL` (`none`) at the
end of the string, otherwise end the token at the next space by writing NUL
over it.  The result is the token pointer, the buffer as it is afterwards, and
the saved pointer. -/
def strtok_r (buf : List Char) (s : Nat) : Option (Nat × List Char × Nat) :=
  let s1 := s + ((buf.drop s).takeWhile (fun c => c = ' ')).length
  let len := ((buf.drop s1).takeWhile (fun c => c ≠ ' ' ∧ c ≠ NUL)).length
  if len = 0 then
    none
  else
    match buf.get? (s1 + len) with
    | some c =>
      if c = NUL then some (s1, buf, s1 + len)
      else some (s1, buf.set (s1 + len) NUL, s1 + len + 1)
    | none => some (s1, buf, s1 + len)

/-- The C `isspace` in the "C" locale. -/
def is_c_space (c : Char) : Bool :=
  c = ' ' ∨ c = '\t' ∨ c = '\n' ∨ c = Char.ofNat 11 ∨ c = Char.ofNat 12 ∨ c = '\r'

/-- The value of a run of decimal digits, most significant first. -/
def digits_value (ds : List Char) : Nat :=
  ds.foldl (fun acc c => 10 * acc + (c.toNat - 48)) 0

/-- The sign that `atoi` reads, and what follows it. -/
def atoi_sign : List Char → Bool × List Char
  | '-' :: r => (true, r)
  | '+' :: r => (false, r)
  | s => (false, s)

/-- The C `atoi`: white space is skipped, then an optional sign and the
longest run of decimal digits are read; without digits the value is 0.  The
behaviour is undefined (`none`) when the value does not fit an `int`. -/
def atoi (s : List Char) : Option Int :=
  let r := atoi_sign (s.dropWhile is_c_space)
  let v : Int := digits_value (r.2.takeWhile Char.isDigit)
  let v := if r.1 then -v else v
  if -2147483648 ≤ v ∧ v ≤ 2147483647 then some v else none

/-- The token loop of `pbx_client_service` on one line, from `rest` on: the
calls it makes for the TU `tu`, in order.  `fuel` bounds the number of rounds
(every round consumes at least one byte).  `none`: `atoi(NULL)` after a `dial`
that ends the line, or `buf + 5` lying behind the terminating NUL. -/
def service_loop (tu : Nat) : Nat → List Char → Nat → Option (List Op)
  | 0, _, _ => none
  | fuel + 1, buf, rest =>
    match strtok_r buf rest with
    | none => some []
    | some (token, buf, rest) =>
      if c_str buf token = "pickup\r\n".toList then
        (service_loop tu fuel buf rest).map (fun calls => Op.pickup tu :: calls)
      else if c_str buf token = "hangup\r\n".toList then
        (service_loop tu fuel buf rest).map (fun calls => Op.hangup tu :: calls)
      else if c_str buf token = "dial".toList then
        match strtok_r buf rest with
        | none => none
        | some (token, buf, rest) =>
          match atoi (c_str buf token) with
          | none => none
          | some ext =>
            (service_loop tu fuel buf rest).map (fun calls => Op.dial tu ext :: calls)
      else if c_str buf token = "chat".toList then
        if 5 ≤ buf.length then
          (service_loop tu fuel buf rest).map
            (fun calls => Op.chat tu (String.mk (c_str buf 5)) :: calls)
        else
          none
      else
        service_loop tu fuel buf rest

/-- The body of the read loop of `pbx_client_service` for one line: the calls
made for the TU `tu`. -/
def service_line (tu : Nat) (line : List Char) : Option (List Op) :=
  service_loop tu (line.length + 1) line 0

/-- The world after the service thread of `tu` has handled one line. -/
def serve_line (w : World) (tu : Nat) (line : List Char) : Option World :=
  (service_line tu line).bind (fun calls => run w calls)

/-! ## The option handling of `main.c`

`main` is embedded up to the point where it starts the server.  The library
routine `getopt(argc, argv, "p:")` is followed as the GNU C library runs it
(arguments that are no options are passed over; `--` ends the options);
its own diagnostic on standard error is not recorded, the lines that `main`
prints with `fprintf(stderr, ...)` are. -/

/-- The C `EXIT_SUCCESS`. -/
def EXIT_SUCCESS : Int := 0

/-- The C `EXIT_FAILURE`. -/
def EXIT_FAILURE : Int := 1

/-- How the option handling of `main` ends: the process exits, with the lines
written to standard error and the exit status, or the server is started on
`port` (`none`: the variable was never assigned). -/
inductive MainOutcome where
  | exited (stderr : List String) (status : Int)
  | serving (port : Option String)
deriving DecidableEq, Repr

/-- The loop `while ((option = getopt(argc, argv, "p:")) != -1)` of `main`,
over the arguments not yet looked at.  `optind` counts the arguments that
`getopt` has taken as options (it starts at 1).  The result is either the exit
taken inside the loop (case `'?'`), or `optind` and `port` after the loop. -/
def main_getopt_loop : List (List Char) → Nat → Option String →
    MainOutcome ⊕ (Nat × Option String)
  | [], optind, port => Sum.inr (optind, port)
  | ['-', '-'] :: _, optind, port => Sum.inr (optind + 1, port)
  | ['-', 'p'] :: [], _, _ =>
    Sum.inl (MainOutcome.exited ["Option -p requires a port.\n"] EXIT_SUCCESS)
  | ['-', 'p'] :: optarg :: rest, optind, _ =>
    main_getopt_loop rest (optind + 2) (some (String.mk optarg))
  | ('-' :: 'p' :: c :: optarg) :: rest, optind, _ =>
    main_getopt_loop rest (optind + 1) (some (String.mk (c :: optarg)))
  | ('-' :: optopt :: _) :: _, _, _ =>
    Sum.inl (MainOutcome.exited
      ["Unknown option character " ++ String.mk [optopt] ++ ".\n"] EXIT_SUCCESS)
  | _ :: rest, optind, port => main_getopt_loop rest optind port

/-- The C `main`, up to the call of `pbx_init`: `argv` holds the program name
and the arguments. -/
def main (argv : List String) : MainOutcome :=
  match main_getopt_loop ((argv.drop 1).map String.toList) 1 none with
  | Sum.inl out => out
  | Sum.inr (optind, port) =>
    if optind = 1 then MainOutcome.exited ["Usage: pbx <port>.\n"] EXIT_SUCCESS
    else MainOutcome.serving port

/-! ## Lemmas shared by the proofs -/

theorem tu_state_names_injective : Function.Injective tu_state_names := by
  intro a b h
  cases a <;> cases b <;> first | rfl | (exact absurd h (by decide))

theorem pbx_find_ext_eq_none (l : List pbx_node) (ext : Int) :
    pbx_find_ext l ext = none ↔ ∀ nd ∈ l, nd.ext ≠ ext := by
  induction l with
  | nil => simp [pbx_find_ext]
  | cons x xs ih =>
    by_cases hx : x.ext = ext
    · simp [pbx_find_ext, hx]
    · simp [pbx_find_ext, hx, ih]

theorem pbx_find_ext_mem (l : List pbx_node) (ext : Int) (nd : pbx_node)
    (h : pbx_find_ext l ext = some nd) : nd ∈ l ∧ nd.ext = ext := by
  induction l with
  | nil => simp [pbx_find_ext] at h
  | cons x xs ih =>
    by_cases hx : x.ext = ext
    · simp [pbx_find_ext, hx] at h
      subst h
      simp [hx]
    · simp [pbx_find_ext, hx] at h
      exact ⟨List.mem_cons_of_mem _ (ih h).1, (ih h).2⟩

theorem idle_AB_fresh : freshly_registered idle_AB := by
  intro a n h
  simp only [idle_AB, two_tus] at h
  split_ifs at h with h1 h2
  · cases h; subst h1; simp [idle_AB, two_tus]
  · cases h; subst h2; simp [idle_AB, two_tus]

/-- The text built by the "no effect" branches of `tu_dial` is the state
notification of the spec, provided the peer of the TU (if it has one) is a live
TU and a CONNECTED TU has a peer. -/
theorem dial_notice_eq_state_notification (w : World) (nt : tu_node)
    (hpeer : ∀ p, nt.peer = some p → ∃ np, w.tus p = some np)
    (hconn : nt.state = TU_CONNECTED → nt.peer ≠ none) :
    (read_peer_fileno w nt).bind (dial_notice nt nt.connfd) =
      some (state_notification nt.state nt.connfd (peer_ext w nt)) := by
  obtain ⟨r, c, s, p⟩ := nt
  cases p with
  | none =>
    cases s <;>
      simp_all [read_peer_fileno, dial_notice, state_notification, peer_ext, tu_state_names]
  | some q =>
    obtain ⟨np, hq⟩ := hpeer q rfl
    cases s <;>
      simp [read_peer_fileno, dial_notice, state_notification, peer_ext, tu_state_names, hq]

theorem pbx_append_eq (l : List pbx_node) (nd : pbx_node) : pbx_append l nd = l ++ [nd] := by
  induction l with
  | nil => rfl
  | cons x xs ih => simp [pbx_append, ih]

/-! ### The effect of each branch, as an equation for the world afterwards -/

theorem eff_pickup_on_hook (w : World) (t : Nat) (nt : tu_node)
    (ht : w.tus t = some nt) (hst : nt.state = TU_ON_HOOK) :
    tu_pickup w t = some (0,
      { tus := Function.update w.tus t (some { nt with state := TU_DIAL_TONE })
        pbx := w.pbx
        released := w.released
        out := w.out ++ [(nt.connfd, "DIAL_TONE\n")] }) := by
  simp [tu_pickup, ht, hst, World.upd, Rio_writen, tu_state_names, tu_fileno]

theorem eff_pickup_ringing (w : World) (t p : Nat) (nt np : tu_node)
    (ht : w.tus t = some nt) (hp : w.tus p = some np) (hne : p ≠ t)
    (hst : nt.state = TU_RINGING) (hpeer : nt.peer = some p) :
    tu_pickup w t = some (0,
      { tus := Function.update
          (Function.update w.tus t
            (some { nt with state := TU_CONNECTED, ref_cnt := nt.ref_cnt + 1 }))
          p (some { np with state := TU_CONNECTED, ref_cnt := np.ref_cnt + 1 })
        pbx := w.pbx
        released := w.released
        out := w.out ++ [(nt.connfd, "CONNECTED " ++ toString np.connfd ++ "\n"),
          (np.connfd, "CONNECTED " ++ toString nt.connfd ++ "\n")] }) := by
  simp [tu_pickup, ht, hp, hne, hst, hpeer, World.upd, lock_pair, Rio_writen, Ne.symm hne,
    tu_state_names, tu_fileno, tu_ref]
  funext v
  by_cases h1 : v = p <;> by_cases h2 : v = t <;> simp_all [Function.update]

theorem eff_pickup_other (w : World) (t : Nat) (nt : tu_node)
    (ht : w.tus t = some nt) (hs1 : nt.state ≠ TU_ON_HOOK) (hs2 : nt.state ≠ TU_RINGING)
    (hconn : nt.state = TU_CONNECTED → ∃ p np, nt.peer = some p ∧ w.tus p = some np) :
    tu_pickup w t = some (0,
      { tus := w.tus
        pbx := w.pbx
        released := w.released
        out := w.out ++
          [(nt.connfd, state_notification nt.state nt.connfd (peer_ext w nt))] }) := by
  obtain ⟨r, c, s, p⟩ := nt
  cases s
  case TU_RINGING => exact absurd rfl hs2
  case TU_ON_HOOK => exact absurd rfl hs1
  case TU_CONNECTED =>
    obtain ⟨q, nq, hq, hlive⟩ := hconn rfl
    simp only at hq
    subst hq
    simp [tu_pickup, ht, hlive, Rio_writen, tu_state_names, tu_fileno, state_notification,
      peer_ext]
  all_goals
    simp [tu_pickup, ht, Rio_writen, tu_state_names, tu_fileno, state_notification]

theorem eff_dial_no_effect (w : World) (t : Nat) (target : Option Nat) (nt : tu_node)
    (ht : w.tus t = some nt) (hst : nt.state ≠ TU_DIAL_TONE)
    (hpeer : ∀ p, nt.peer = some p → ∃ np, w.tus p = some np)
    (hconn : nt.state = TU_CONNECTED → nt.peer ≠ none) :
    tu_dial w t target = some (0,
      { tus := w.tus
        pbx := w.pbx
        released := w.released
        out := w.out ++
          [(nt.connfd, state_notification nt.state nt.connfd (peer_ext w nt))] }) := by
  have hn := dial_notice_eq_state_notification w nt hpeer hconn
  rw [Option.bind_eq_some] at hn
  obtain ⟨pf, hpf, hdn⟩ := hn
  cases target <;> simp [tu_dial, ht, hst, hpf, hdn, Rio_writen, tu_fileno]

theorem eff_dial_null (w : World) (t : Nat) (nt : tu_node)
    (ht : w.tus t = some nt) (hst : nt.state = TU_DIAL_TONE) :
    tu_dial w t none = some (-1,
      { tus := Function.update w.tus t (some { nt with state := TU_ERROR })
        pbx := w.pbx
        released := w.released
        out := w.out ++ [(nt.connfd, "ERROR\n")] }) := by
  simp [tu_dial, ht, hst, World.upd, Rio_writen, tu_state_names]

theorem eff_dial_busy (w : World) (t u : Nat) (nt nu : tu_node)
    (ht : w.tus t = some nt) (hu : w.tus u = some nu) (hst : nt.state = TU_DIAL_TONE)
    (hbusy : u = t ∨ nu.peer ≠ none ∨ nu.state ≠ TU_ON_HOOK) :
    tu_dial w t (some u) = some (0,
      { tus := Function.update w.tus t (some { nt with state := TU_BUSY_SIGNAL })
        pbx := w.pbx
        released := w.released
        out := w.out ++ [(nt.connfd, "BUSY_SIGNAL\n")] }) := by
  by_cases hut : u = t
  · simp [tu_dial, ht, hst, hut, World.upd, Rio_writen, tu_state_names]
  · have hb : nu.peer ≠ none ∨ nu.state ≠ TU_ON_HOOK := by
      rcases hbusy with h | h
      · exact absurd h hut
      · exact h
    simp only [tu_dial, ht, hu, hst, hut, World.upd, Rio_writen, tu_state_names, hb,
      Option.bind_eq_bind, Option.some_bind, Option.pure_def, ne_eq, not_true_eq_false, if_false,
      if_true]
    rfl

theorem eff_dial_ring (w : World) (t u : Nat) (nt nu : tu_node)
    (ht : w.tus t = some nt) (hu : w.tus u = some nu) (hne : u ≠ t)
    (hst : nt.state = TU_DIAL_TONE) (hsu : nu.state = TU_ON_HOOK) (hpu : nu.peer = none) :
    tu_dial w t (some u) = some (0,
      { tus := Function.update
          (Function.update w.tus t (some { nt with state := TU_RING_BACK, peer := some u }))
          u (some { nu with state := TU_RINGING, peer := some t })
        pbx := w.pbx
        released := w.released
        out := w.out ++ [(nt.connfd, "RING_BACK\n"), (nu.connfd, "RINGING\n")] }) := by
  simp [tu_dial, ht, hu, hne, hst, hsu, hpu, World.upd, lock_pair, Rio_writen, Ne.symm hne,
    tu_state_names]
  funext v
  by_cases h1 : v = u <;> by_cases h2 : v = t <;> simp_all [Function.update]

theorem eff_hangup_engaged (w : World) (t p : Nat) (nt np : tu_node)
    (ht : w.tus t = some nt) (hp : w.tus p = some np) (hne : p ≠ t)
    (hreg : nt.connfd ≠ -1)
    (hst : nt.state = TU_CONNECTED ∨ nt.state = TU_RINGING) (hpeer : nt.peer = some p) :
    tu_hangup w t = some (0,
      { tus := Function.update
          (Function.update w.tus t (some { nt with
            state := TU_ON_HOOK
            peer := none
            ref_cnt := if nt.state = TU_CONNECTED then nt.ref_cnt - 1 else nt.ref_cnt }))
          p (some { np with
            state := TU_DIAL_TONE
            peer := none
            ref_cnt := if nt.state = TU_CONNECTED then np.ref_cnt - 1 else np.ref_cnt })
        pbx := w.pbx
        released := w.released
        out := w.out ++ [(nt.connfd, "ON_HOOK " ++ toString nt.connfd ++ "\n"),
          (np.connfd, "DIAL_TONE\n")] }) := by
  rcases hst with hst | hst
  · simp [tu_hangup, ht, hp, hne, hst, hpeer, hreg, World.upd, lock_pair, Rio_writen,
      Ne.symm hne, tu_state_names, tu_unref]
    funext v
    by_cases h1 : v = p <;> by_cases h2 : v = t <;> simp_all [Function.update]
  · simp [tu_hangup, ht, hp, hne, hst, hpeer, hreg, World.upd, lock_pair, Rio_writen,
      Ne.symm hne, tu_state_names, tu_unref]
    funext v
    by_cases h1 : v = p <;> by_cases h2 : v = t <;> simp_all [Function.update]

theorem eff_hangup_ring_back (w : World) (t p : Nat) (nt np : tu_node)
    (ht : w.tus t = some nt) (hp : w.tus p = some np) (hne : p ≠ t)
    (hreg : nt.connfd ≠ -1) (hst : nt.state = TU_RING_BACK) (hpeer : nt.peer = some p) :
    tu_hangup w t = some (0,
      { tus := Function.update
          (Function.update w.tus t (some { nt with state := TU_ON_HOOK }))
          p (some { np with state := TU_ON_HOOK })
        pbx := w.pbx
        released := w.released
        out := w.out ++ [(nt.connfd, "ON_HOOK " ++ toString nt.connfd ++ "\n"),
          (np.connfd, "ON_HOOK " ++ toString np.connfd ++ "\n")] }) := by
  simp [tu_hangup, ht, hp, hne, hst, hpeer, hreg, World.upd, lock_pair, Rio_writen,
    Ne.symm hne, tu_state_names]

theorem eff_hangup_idle (w : World) (t : Nat) (nt : tu_node)
    (ht : w.tus t = some nt) (hreg : nt.connfd ≠ -1)
    (hst : nt.state = TU_DIAL_TONE ∨ nt.state = TU_BUSY_SIGNAL ∨ nt.state = TU_ERROR) :
    tu_hangup w t = some (0,
      { tus := Function.update w.tus t (some { nt with state := TU_ON_HOOK })
        pbx := w.pbx
        released := w.released
        out := w.out ++ [(nt.connfd, "ON_HOOK " ++ toString nt.connfd ++ "\n")] }) := by
  rcases hst with hst | hst | hst <;>
    simp [tu_hangup, ht, hreg, hst, World.upd, Rio_writen, tu_state_names, tu_fileno]

theorem eff_hangup_on_hook (w : World) (t : Nat) (nt : tu_node)
    (ht : w.tus t = some nt) (hreg : nt.connfd ≠ -1) (hst : nt.state = TU_ON_HOOK) :
    tu_hangup w t = some (-1,
      { tus := w.tus
        pbx := w.pbx
        released := w.released
        out := w.out ++ [(nt.connfd, "ON_HOOK " ++ toString nt.connfd ++ "\n")] }) := by
  simp [tu_hangup, ht, hreg, hst, Rio_writen, tu_state_names]

theorem eff_chat_connected (w : World) (t p : Nat) (nt np : tu_node) (msg : String)
    (ht : w.tus t = some nt) (hp : w.tus p = some np)
    (hst : nt.state = TU_CONNECTED) (hpeer : nt.peer = some p) :
    tu_chat w t msg = some (0,
      { tus := w.tus
        pbx := w.pbx
        released := w.released
        out := w.out ++ [(np.connfd, "CHAT " ++ msg),
          (nt.connfd, "CONNECTED " ++ toString np.connfd ++ "\n")] }) := by
  simp [tu_chat, ht, hp, hst, hpeer, Rio_writen, tu_state_names]

theorem eff_chat_other (w : World) (t : Nat) (nt : tu_node) (msg : String)
    (ht : w.tus t = some nt) (hst : nt.state ≠ TU_CONNECTED) :
    tu_chat w t msg = some (-1,
      { tus := w.tus
        pbx := w.pbx
        released := w.released
        out := w.out ++
          [(nt.connfd, state_notification nt.state nt.connfd (peer_ext w nt))] }) := by
  obtain ⟨r, c, s, p⟩ := nt
  cases s <;> simp_all [tu_chat, Rio_writen, tu_state_names, state_notification]

/-! ### Every command has one of the four shapes -/

theorem pair_states_ok_engaged {a b : TU_STATE} (h : pair_states_ok a b) :
    engaged a ∧ engaged b := by
  rcases h with ⟨h1, h2⟩ | ⟨h1, h2⟩ | ⟨h1, h2⟩ <;> subst h1 <;> subst h2 <;>
    simp [engaged]

theorem tu_dial_target_live (w : World) (t u : Nat) (nt : tu_node) (r : Int × World)
    (ht : w.tus t = some nt) (hst : nt.state = TU_DIAL_TONE) (hne : u ≠ t)
    (h : tu_dial w t (some u) = some r) : ∃ nu, w.tus u = some nu := by
  cases hu : w.tus u with
  | some nu => exact ⟨nu, rfl⟩
  | none => simp [tu_dial, ht, hst, hne, hu] at h

theorem step_pickup_eq {w w' : World} {t : Nat} {r : Int}
    (h : tu_pickup w t = some (r, w')) : step w (Op.pickup t) = some w' := by
  simp [step, h]

theorem step_hangup_eq {w w' : World} {t : Nat} {r : Int}
    (h : tu_hangup w t = some (r, w')) : step w (Op.hangup t) = some w' := by
  simp [step, h]

theorem step_chat_eq {w w' : World} {t : Nat} {msg : String} {r : Int}
    (h : tu_chat w t msg = some (r, w')) : step w (Op.chat t msg) = some w' := by
  simp [step, h]

theorem step_dial_found {w w' : World} {t : Nat} {ext : Int} {nd : pbx_node} {r : Int}
    (hf : pbx_find_ext w.pbx.head ext = some nd)
    (h : tu_dial w t (some nd.tu) = some (r, w')) : step w (Op.dial t ext) = some w' := by
  simp [step, pbx_dial, hf, h]

theorem step_dial_missing {w w' : World} {t : Nat} {ext : Int} {r : Int}
    (hf : pbx_find_ext w.pbx.head ext = none)
    (h : tu_dial w t none = some (r, w')) : step w (Op.dial t ext) = some w' := by
  simp [step, pbx_dial, hf, h]

theorem step_has_shape (w : World) (op : Op) (nt : tu_node) (hinv : call_inv w)
    (ht : w.tus op.tu = some nt) :
    ∃ w', step w op = some w' ∧ w'.pbx = w.pbx ∧ step_shape w op nt w' := by
  have hreg := hinv.registered _ _ ht
  have hpl : ∀ p, nt.peer = some p → ∃ np, w.tus p = some np :=
    fun p hp => hinv.peer_live _ _ p ht hp
  have hconn : nt.state = TU_CONNECTED → nt.peer ≠ none := by
    intro hc
    obtain ⟨p, np, hp, _⟩ := hinv.paired _ _ ht (Or.inr (Or.inr hc))
    simp [hp]
  cases op with
  | pickup t =>
    simp only [Op.tu] at ht
    by_cases h1 : nt.state = TU_ON_HOOK
    · refine ⟨_, step_pickup_eq (eff_pickup_on_hook w t nt ht h1), rfl, ?_⟩
      exact step_shape.solo { nt with state := TU_DIAL_TONE } rfl rfl rfl rfl
        (by simp [engaged, h1]) (by simp [engaged]) (by simp [h1])
        (by simp [state_notification])
    · by_cases h2 : nt.state = TU_RINGING
      · obtain ⟨p, np, hp, hne, hlp, hpp, hok⟩ := hinv.paired t nt ht (Or.inl h2)
        refine ⟨_, step_pickup_eq (eff_pickup_ringing w t p nt np ht hlp hne h2 hp), rfl, ?_⟩
        exact step_shape.duo p np _ _ hne hlp (Or.inl hp) rfl rfl rfl (fun _ => hp)
          (fun _ => hpp) (fun _ => ⟨hp, hpp, Or.inr (Or.inr ⟨rfl, rfl⟩)⟩)
          (fun q hq => hpl q hq) (fun q hq => hinv.peer_live _ _ q hlp hq)
          (by simp [state_notification])
      · have hc : nt.state = TU_CONNECTED → ∃ p np, nt.peer = some p ∧ w.tus p = some np := by
          intro hc
          obtain ⟨p, np, hp, _, hlp, _⟩ := hinv.paired _ _ ht (Or.inr (Or.inr hc))
          exact ⟨p, np, hp, hlp⟩
        refine ⟨_, step_pickup_eq (eff_pickup_other w t nt ht h1 h2 hc), rfl, ?_⟩
        exact step_shape.quiet rfl rfl
  | hangup t =>
    simp only [Op.tu] at ht
    by_cases h1 : nt.state = TU_CONNECTED ∨ nt.state = TU_RINGING
    · have he : engaged nt.state := by
        rcases h1 with h | h <;> simp [engaged, h]
      obtain ⟨p, np, hp, hne, hlp, hpp, hok⟩ := hinv.paired t nt ht he
      refine ⟨_, step_hangup_eq (eff_hangup_engaged w t p nt np ht hlp hne hreg h1 hp), rfl, ?_⟩
      exact step_shape.duo p np _ _ hne hlp (Or.inl hp) rfl rfl rfl (fun _ => hp)
        (fun _ => hpp) (by simp [engaged]) (by simp) (by simp)
        (by simp [state_notification])
    · by_cases h2 : nt.state = TU_RING_BACK
      · obtain ⟨p, np, hp, hne, hlp, hpp, hok⟩ :=
          hinv.paired t nt ht (Or.inr (Or.inl h2))
        refine ⟨_, step_hangup_eq (eff_hangup_ring_back w t p nt np ht hlp hne hreg h2 hp),
          rfl, ?_⟩
        exact step_shape.duo p np _ _ hne hlp (Or.inl hp) rfl rfl rfl (fun _ => hp)
          (fun _ => hpp) (by simp [engaged]) (fun q hq => hpl q hq)
          (fun q hq => hinv.peer_live _ _ q hlp hq) (by simp [state_notification])
      · by_cases h3 : nt.state = TU_ON_HOOK
        · refine ⟨_, step_hangup_eq (eff_hangup_on_hook w t nt ht hreg h3), rfl, ?_⟩
          exact step_shape.quiet rfl (by simp [h3, state_notification])
        · have h4 : nt.state = TU_DIAL_TONE ∨ nt.state = TU_BUSY_SIGNAL ∨
              nt.state = TU_ERROR := by
            cases hs : nt.state <;> simp_all
          refine ⟨_, step_hangup_eq (eff_hangup_idle w t nt ht hreg h4), rfl, ?_⟩
          exact step_shape.solo { nt with state := TU_ON_HOOK } rfl rfl rfl rfl
            (by rcases h4 with h | h | h <;> simp [engaged, h]) (by simp [engaged])
            (by simpa using Ne.symm h3) (by simp [state_notification])
  | chat t msg =>
    simp only [Op.tu] at ht
    by_cases h1 : nt.state = TU_CONNECTED
    · obtain ⟨p, np, hp, hne, hlp, hpp, hok⟩ :=
        hinv.paired t nt ht (Or.inr (Or.inr h1))
      refine ⟨_, step_chat_eq (eff_chat_connected w t p nt np msg ht hlp h1 hp), rfl, ?_⟩
      exact step_shape.chat p np msg rfl h1 hp hne hlp rfl (by simp [h1, state_notification])
    · refine ⟨_, step_chat_eq (eff_chat_other w t nt msg ht h1), rfl, ?_⟩
      exact step_shape.quiet rfl rfl
  | dial t ext =>
    simp only [Op.tu] at ht
    by_cases h1 : nt.state = TU_DIAL_TONE
    · cases hf : pbx_find_ext w.pbx.head ext with
      | none =>
        refine ⟨_, step_dial_missing hf (eff_dial_null w t nt ht h1), rfl, ?_⟩
        exact step_shape.solo { nt with state := TU_ERROR } rfl rfl rfl rfl
          (by simp [engaged, h1]) (by simp [engaged]) (by simp [h1])
          (by simp [state_notification])
      | some nd =>
        obtain ⟨nu, hu⟩ := hinv.listed_live nd (pbx_find_ext_mem _ _ _ hf).1
        by_cases hb : nd.tu = t ∨ nu.peer ≠ none ∨ nu.state ≠ TU_ON_HOOK
        · refine ⟨_, step_dial_found hf (eff_dial_busy w t nd.tu nt nu ht hu h1 hb),
            rfl, ?_⟩
          exact step_shape.solo { nt with state := TU_BUSY_SIGNAL } rfl rfl rfl rfl
            (by simp [engaged, h1]) (by simp [engaged]) (by simp [h1])
            (by simp [state_notification])
        · simp only [not_or, not_not] at hb
          obtain ⟨hne, hpu, hsu⟩ := hb
          refine ⟨_, step_dial_found hf (eff_dial_ring w t nd.tu nt nu ht hu hne h1 hsu hpu), rfl, ?_⟩
          exact step_shape.duo nd.tu nu _ _ hne hu (Or.inr (by simp [dial_target, hf]))
            rfl rfl rfl (by simp [engaged, h1]) (by simp [engaged, hsu])
            (fun _ => ⟨rfl, rfl, Or.inl ⟨rfl, rfl⟩⟩)
            (by intro q hq; simp at hq; subst hq; exact ⟨nu, hu⟩)
            (by intro q hq; simp at hq; subst hq; exact ⟨nt, ht⟩)
            (by simp [state_notification])
    · cases hf : pbx_find_ext w.pbx.head ext with
      | none =>
        refine ⟨_, step_dial_missing hf (eff_dial_no_effect w t none nt ht h1 hpl hconn),
          rfl, ?_⟩
        exact step_shape.quiet rfl rfl
      | some nd =>
        refine ⟨_, step_dial_found hf (eff_dial_no_effect w t (some nd.tu) nt ht h1 hpl hconn), rfl, ?_⟩
        exact step_shape.quiet rfl rfl

/-! ### The four shapes keep the world well formed -/

theorem call_inv_of_same_heap (w w' : World) (hinv : call_inv w) (hp : w'.pbx = w.pbx)
    (hh : w'.tus = w.tus) : call_inv w' := by
  constructor
  · intro t nt h; rw [hh] at h; exact hinv.registered t nt h
  · intro a b na nb h1 h2; rw [hh] at h1 h2; exact hinv.distinct a b na nb h1 h2
  · intro nd hnd; rw [hp] at hnd; rw [hh]; exact hinv.listed_live nd hnd
  · intro t nt p h; rw [hh] at h ⊢; exact hinv.peer_live t nt p h
  · intro t nt h; rw [hh] at h ⊢; exact hinv.paired t nt h

theorem call_inv_of_solo (w w' : World) (t : Nat) (nt nt' : tu_node) (hinv : call_inv w)
    (ht : w.tus t = some nt) (hp : w'.pbx = w.pbx)
    (hh : w'.tus = Function.update w.tus t (some nt'))
    (hc : nt'.connfd = nt.connfd) (hpe : nt'.peer = nt.peer)
    (he : ¬ engaged nt.state) (he' : ¬ engaged nt'.state) : call_inv w' := by
  have live : ∀ v n, w.tus v = some n → ∃ n', w'.tus v = some n' := by
    intro v n hv
    rw [hh]
    by_cases hvt : v = t
    · subst hvt; exact ⟨nt', by simp⟩
    · exact ⟨n, by simp [Function.update, hvt, hv]⟩
  have back : ∀ v n', w'.tus v = some n' →
      ∃ n, w.tus v = some n ∧ n'.connfd = n.connfd ∧ n'.peer = n.peer ∧
        (v ≠ t → n' = n) := by
    intro v n' hv
    rw [hh] at hv
    by_cases hvt : v = t
    · subst hvt
      simp at hv
      subst hv
      exact ⟨nt, ht, hc, hpe, fun h => absurd rfl h⟩
    · simp [Function.update, hvt] at hv
      exact ⟨n', hv, rfl, rfl, fun _ => rfl⟩
  constructor
  · intro v n' hv
    obtain ⟨n, hn, hcc, _⟩ := back v n' hv
    rw [hcc]; exact hinv.registered v n hn
  · intro a b na nb h1 h2 hab
    obtain ⟨na0, hna, hca, _⟩ := back a na h1
    obtain ⟨nb0, hnb, hcb, _⟩ := back b nb h2
    exact hinv.distinct a b na0 nb0 hna hnb (by rw [← hca, ← hcb, hab])
  · intro nd hnd
    rw [hp] at hnd
    obtain ⟨n, hn⟩ := hinv.listed_live nd hnd
    exact live _ n hn
  · intro v n' p hv hpeer
    obtain ⟨n, hn, _, hpp, _⟩ := back v n' hv
    obtain ⟨np, hnp⟩ := hinv.peer_live v n p hn (by rw [← hpp, hpeer])
    exact live p np hnp
  · intro v n' hv heng
    by_cases hvt : v = t
    · subst hvt
      rw [hh] at hv
      simp at hv
      subst hv
      exact absurd heng he'
    · obtain ⟨n, hn, _, _, heq⟩ := back v n' hv
      have hnn := heq hvt
      subst hnn
      obtain ⟨p, np, hp1, hp2, hp3, hp4, hp5⟩ := hinv.paired v n' hn heng
      have hpt : p ≠ t := by
        intro hpt
        subst hpt
        rw [ht] at hp3
        cases hp3
        exact he (pair_states_ok_engaged hp5).2
      exact ⟨p, np, hp1, hp2, by rw [hh]; simp [Function.update, hpt, hp3], hp4, hp5⟩

theorem call_inv_of_duo (w w' : World) (t o : Nat) (nt no nt' no' : tu_node)
    (hinv : call_inv w) (ht : w.tus t = some nt) (ho : w.tus o = some no) (hne : o ≠ t)
    (hp : w'.pbx = w.pbx)
    (hh : w'.tus = Function.update (Function.update w.tus t (some nt')) o (some no'))
    (hct : nt'.connfd = nt.connfd) (hco : no'.connfd = no.connfd)
    (het : engaged nt.state → nt.peer = some o) (heo : engaged no.state → no.peer = some t)
    (hnew : engaged nt'.state ∨ engaged no'.state →
      nt'.peer = some o ∧ no'.peer = some t ∧ pair_states_ok nt'.state no'.state)
    (hlt : ∀ q, nt'.peer = some q → ∃ nq, w.tus q = some nq)
    (hlo : ∀ q, no'.peer = some q → ∃ nq, w.tus q = some nq) : call_inv w' := by
  have hto : t ≠ o := Ne.symm hne
  have at_t : w'.tus t = some nt' := by rw [hh]; simp [Function.update, hto]
  have at_o : w'.tus o = some no' := by rw [hh]; simp
  have other : ∀ v, v ≠ t → v ≠ o → w'.tus v = w.tus v := by
    intro v h1 h2; rw [hh]; simp [Function.update, h1, h2]
  have live : ∀ v n, w.tus v = some n → ∃ n', w'.tus v = some n' := by
    intro v n hv
    by_cases hvo : v = o
    · subst hvo; exact ⟨no', at_o⟩
    · by_cases hvt : v = t
      · subst hvt; exact ⟨nt', at_t⟩
      · exact ⟨n, by rw [other v hvt hvo, hv]⟩
  have back : ∀ v n', w'.tus v = some n' → ∃ n, w.tus v = some n ∧ n'.connfd = n.connfd := by
    intro v n' hv
    by_cases hvo : v = o
    · subst hvo
      rw [at_o] at hv; cases hv
      exact ⟨no, ho, hco⟩
    · by_cases hvt : v = t
      · subst hvt
        rw [at_t] at hv; cases hv
        exact ⟨nt, ht, hct⟩
      · rw [other v hvt hvo] at hv
        exact ⟨n', hv, rfl⟩
  constructor
  · intro v n' hv
    obtain ⟨n, hn, hcc⟩ := back v n' hv
    rw [hcc]; exact hinv.registered v n hn
  · intro a b na nb h1 h2 hab
    obtain ⟨na0, hna, hca⟩ := back a na h1
    obtain ⟨nb0, hnb, hcb⟩ := back b nb h2
    exact hinv.distinct a b na0 nb0 hna hnb (by rw [← hca, ← hcb, hab])
  · intro nd hnd
    rw [hp] at hnd
    obtain ⟨n, hn⟩ := hinv.listed_live nd hnd
    exact live _ n hn
  · intro v n' p hv hpeer
    by_cases hvo : v = o
    · subst hvo
      rw [at_o] at hv; cases hv
      obtain ⟨nq, hq⟩ := hlo p hpeer
      exact live p nq hq
    · by_cases hvt : v = t
      · subst hvt
        rw [at_t] at hv; cases hv
        obtain ⟨nq, hq⟩ := hlt p hpeer
        exact live p nq hq
      · rw [other v hvt hvo] at hv
        obtain ⟨np, hnp⟩ := hinv.peer_live v n' p hv hpeer
        exact live p np hnp
  · intro v n' hv heng
    by_cases hvo : v = o
    · subst hvo
      rw [at_o] at hv; cases hv
      obtain ⟨h1, h2, h3⟩ := hnew (Or.inr heng)
      refine ⟨t, nt', h2, hto, at_t, h1, ?_⟩
      rcases h3 with ⟨a, b⟩ | ⟨a, b⟩ | ⟨a, b⟩
      · exact Or.inr (Or.inl ⟨b, a⟩)
      · exact Or.inl ⟨b, a⟩
      · exact Or.inr (Or.inr ⟨b, a⟩)
    · by_cases hvt : v = t
      · subst hvt
        rw [at_t] at hv; cases hv
        obtain ⟨h1, h2, h3⟩ := hnew (Or.inl heng)
        exact ⟨o, no', h1, hne, at_o, h2, h3⟩
      · rw [other v hvt hvo] at hv
        obtain ⟨p, np, hp1, hp2, hp3, hp4, hp5⟩ := hinv.paired v n' hv heng
        have hpt : p ≠ t := by
          intro hpt
          subst hpt
          rw [ht] at hp3
          cases hp3
          have := het (pair_states_ok_engaged hp5).2
          rw [hp4] at this
          cases this
          exact hvo rfl
        have hpo : p ≠ o := by
          intro hpo
          subst hpo
          rw [ho] at hp3
          cases hp3
          have := heo (pair_states_ok_engaged hp5).2
          rw [hp4] at this
          cases this
          exact hvt rfl
        exact ⟨p, np, hp1, hp2, by rw [other p hpt hpo, hp3], hp4, hp5⟩

theorem call_inv_of_shape (w w' : World) (op : Op) (nt : tu_node) (hinv : call_inv w)
    (ht : w.tus op.tu = some nt) (hp : w'.pbx = w.pbx) (hs : step_shape w op nt w') :
    call_inv w' := by
  cases hs with
  | quiet hh _ => exact call_inv_of_same_heap w w' hinv hp hh
  | chat p np msg _ _ _ _ _ hh _ => exact call_inv_of_same_heap w w' hinv hp hh
  | solo nt' hh hc hpe _ he he' _ _ =>
    exact call_inv_of_solo w w' op.tu nt nt' hinv ht hp hh hc hpe he he'
  | duo o no nt' no' hne ho _ hh hct hco het heo hnew hlt hlo _ =>
    exact call_inv_of_duo w w' op.tu o nt no nt' no' hinv ht ho hne hp hh hct hco het heo hnew
      hlt hlo

theorem step_tu_live (w w' : World) (op : Op) (h : step w op = some w') :
    ∃ nt, w.tus op.tu = some nt := by
  cases hn : w.tus op.tu with
  | some nt => exact ⟨nt, rfl⟩
  | none =>
    cases op <;> simp only [Op.tu] at hn <;>
      simp [step, pbx_dial, tu_dial, tu_pickup, tu_hangup, tu_chat, hn] at h
    split at h <;> simp at h

theorem call_inv_step (w w' : World) (op : Op) (hinv : call_inv w)
    (h : step w op = some w') : call_inv w' := by
  obtain ⟨nt, ht⟩ := step_tu_live w w' op h
  obtain ⟨w2, h2, hp, hs⟩ := step_has_shape w op nt hinv ht
  rw [h] at h2
  cases h2
  exact call_inv_of_shape w w' op nt hinv ht hp hs

theorem call_inv_run (ops : List Op) (w w' : World) (hinv : call_inv w)
    (h : run w ops = some w') : call_inv w' := by
  induction ops generalizing w with
  | nil =>
    simp [run] at h
    subst h
    exact hinv
  | cons op ops ih =>
    simp only [run, Option.bind_eq_some] at h
    obtain ⟨w1, h1, h2⟩ := h
    exact ih w1 (call_inv_step w w1 op hinv h1) h2

/-! ### Fresh worlds, traces per descriptor -/

theorem call_inv_of_fresh (w : World) (hf : freshly_registered w) (hs : registry_sound w) :
    call_inv w := by
  constructor
  · intro t nt h; exact (hf t nt h).2.2.2.1
  · exact hs.1
  · exact hs.2
  · intro t nt p h hp
    rw [(hf t nt h).2.1] at hp
    cases hp
  · intro t nt h he
    rw [(hf t nt h).1] at he
    simp [engaged] at he

theorem idle_AB_sound : registry_sound idle_AB := by
  constructor
  · intro a b na nb h1 h2 hc
    simp only [idle_AB, two_tus] at h1 h2
    split_ifs at h1 h2 <;> cases h1 <;> cases h2 <;> simp_all
  · intro nd hnd
    simp [idle_AB, two_tus] at hnd
    rcases hnd with h | h <;> subst h <;> simp [idle_AB, two_tus]

theorem writes_to_append (fd : Int) (a b : List (Int × String)) :
    writes_to fd (a ++ b) = writes_to fd a ++ writes_to fd b := by
  simp [writes_to]

theorem writes_to_one_same (fd : Int) (s : String) : writes_to fd [(fd, s)] = [s] := by
  simp [writes_to]

theorem writes_to_one_other (fd fd' : Int) (s : String) (h : fd' ≠ fd) :
    writes_to fd [(fd', s)] = [] := by
  simp [writes_to, h]

theorem writes_to_two_first (fd fd' : Int) (s s' : String) (h : fd' ≠ fd) :
    writes_to fd [(fd, s), (fd', s')] = [s] := by
  simp [writes_to, h]

theorem writes_to_two_second (fd fd' : Int) (s s' : String) (h : fd' ≠ fd) :
    writes_to fd [(fd', s'), (fd, s)] = [s] := by
  simp [writes_to, h]

theorem writes_to_two_none (fd f1 f2 : Int) (s1 s2 : String) (h1 : f1 ≠ fd) (h2 : f2 ≠ fd) :
    writes_to fd [(f1, s1), (f2, s2)] = [] := by
  simp [writes_to, h1, h2]

theorem state_notification_congr (s : TU_STATE) (a x y : Int)
    (h : s = TU_CONNECTED → x = y) : state_notification s a x = state_notification s a y := by
  cases s <;> simp only [state_notification]
  rw [h rfl]

theorem peer_ext_of_live (w : World) (n np : tu_node) (p : Nat) (hp : n.peer = some p)
    (hl : w.tus p = some np) : peer_ext w n = np.connfd := by
  simp [peer_ext, hp, hl]

theorem connected_AB_inv : call_inv connected_AB := by
  have cases2 : ∀ t nt, connected_AB.tus t = some nt →
      (t = 1 ∧ nt = ⟨2, 4, TU_CONNECTED, some 2⟩) ∨
      (t = 2 ∧ nt = ⟨2, 5, TU_CONNECTED, some 1⟩) := by
    intro t nt h
    simp only [connected_AB, two_tus] at h
    split_ifs at h with h1 h2
    · cases h; exact Or.inl ⟨h1, rfl⟩
    · cases h; exact Or.inr ⟨h2, rfl⟩
  constructor
  · intro t nt h
    rcases cases2 t nt h with ⟨_, h2⟩ | ⟨_, h2⟩ <;> subst h2 <;> decide
  · intro a b na nb h1 h2 hc
    rcases cases2 a na h1 with ⟨e1, e2⟩ | ⟨e1, e2⟩ <;>
      rcases cases2 b nb h2 with ⟨e3, e4⟩ | ⟨e3, e4⟩ <;>
      subst e1 <;> subst e2 <;> subst e3 <;> subst e4 <;> simp_all
  · intro nd hnd
    simp [connected_AB, two_tus] at hnd
    rcases hnd with h | h <;> subst h <;> simp [connected_AB, two_tus]
  · intro t nt p h hp
    rcases cases2 t nt h with ⟨_, h2⟩ | ⟨_, h2⟩ <;> subst h2 <;> simp at hp <;> subst hp <;>
      simp [connected_AB, two_tus]
  · intro t nt h _
    rcases cases2 t nt h with ⟨h1, h2⟩ | ⟨h1, h2⟩ <;> subst h1 <;> subst h2
    · exact ⟨2, ⟨2, 5, TU_CONNECTED, some 1⟩, rfl, by decide, rfl, rfl,
        Or.inr (Or.inr ⟨rfl, rfl⟩)⟩
    · exact ⟨1, ⟨2, 4, TU_CONNECTED, some 2⟩, rfl, by decide, rfl, rfl,
        Or.inr (Or.inr ⟨rfl, rfl⟩)⟩

/-! ### The registry under registration and unregistration -/

theorem upd_pbx {w w' : World} {a : Nat} {f : tu_node → tu_node}
    (h : w.upd a f = some w') : w'.pbx = w.pbx := by
  unfold World.upd at h
  split at h
  · cases h; rfl
  · cases h

theorem free_head_pbx (w : World) (t : Nat) : (free_head w t).pbx = w.pbx := by
  unfold free_head
  split <;> rfl

theorem free_tu_pbx (w : World) (t : Nat) : (free_tu w t).pbx = w.pbx := by
  unfold free_tu
  split <;> rfl

theorem tu_set_extension_pbx {w : World} {t : Nat} {e : Int} {r : Int × World}
    (h : tu_set_extension w t e = some r) : r.2.pbx = w.pbx := by
  simp only [tu_set_extension, Option.bind_eq_bind, Option.bind_eq_some] at h
  obtain ⟨w1, h1, h2⟩ := h
  split at h2 <;> cases h2 <;> simp [Rio_writen, upd_pbx h1]

theorem tu_set_extension_minus_one {w : World} {t : Nat} {r : Int × World}
    (h : tu_set_extension w t (-1) = some r) :
    ∃ n, r.2.tus t = some n ∧ n.connfd = -1 := by
  cases hn : w.tus t with
  | none => simp [tu_set_extension, World.upd, hn] at h
  | some n =>
    simp [tu_set_extension, World.upd, hn] at h
    subst h
    exact ⟨{ n with connfd := -1 }, by simp, rfl⟩

theorem tu_hangup_closing_pbx {w : World} {t : Nat} {n : tu_node} {r : Int × World}
    (hn : w.tus t = some n) (hc : n.connfd = -1) (h : tu_hangup w t = some r) :
    r.2.pbx = w.pbx := by
  cases hp : n.peer with
  | none =>
    simp only [tu_hangup, hn, hc, hp, Option.bind_eq_bind, Option.some_bind, if_true,
      Option.bind_eq_some, tu_unref] at h
    obtain ⟨w1, h1, h2⟩ := h
    cases h2
    simp [free_head_pbx, upd_pbx h1]
  | some p =>
    simp only [tu_hangup, hn, hc, hp, Option.bind_eq_bind, Option.some_bind, if_true,
      Option.bind_eq_some, tu_unref] at h
    obtain ⟨np, _, w1, h1, w2, h2, _, _, w3, h3, w4, h4, w5, h5, h6⟩ := h
    cases h6
    simp [free_head_pbx, Rio_writen, upd_pbx h5, upd_pbx h4, upd_pbx h3, upd_pbx h2, upd_pbx h1]

theorem pbx_register_head {w : World} {t : Nat} {ext : Int} {r : Int × World}
    (h : pbx_register w t ext true = some r) :
    r.2.pbx.head = w.pbx.head ++ [⟨t, ext⟩] := by
  cases hn : w.tus t with
  | none => simp [pbx_register, tu_ref, World.upd, hn] at h
  | some n =>
    simp [pbx_register, tu_ref, tu_set_extension, World.upd, hn] at h
    split at h <;> (simp at h; subst h; simp [pbx_append_eq, Rio_writen])

theorem pbx_unregister_head {w : World} {t : Nat} {r : Int × World}
    (h : pbx_unregister w t = some r) :
    r.2.pbx.head = pbx_mark_unregistered w.pbx.head t ∨ r.2.pbx.head = w.pbx.head := by
  unfold pbx_unregister at h
  split at h
  · simp only [Option.bind_eq_bind, Option.bind_eq_some] at h
    obtain ⟨r1, h1, r2, h2, h3⟩ := h
    cases h3
    obtain ⟨n, hn, hc⟩ := tu_set_extension_minus_one h1
    left
    simp [free_tu_pbx, tu_hangup_closing_pbx hn hc h2, tu_set_extension_pbx h1]
  · cases h
    exact Or.inr rfl

theorem registered_exts_mark (l : List pbx_node) (t : Nat) :
    (registered_exts (pbx_mark_unregistered l t)).Sublist (registered_exts l) := by
  induction l with
  | nil => simp [pbx_mark_unregistered, registered_exts]
  | cons x xs ih =>
    by_cases hx : x.tu = t
    · simp only [pbx_mark_unregistered, hx, if_true]
      by_cases he : x.ext = -1
      · simp [registered_exts, he]
      · simp [registered_exts, he]
    · simp only [pbx_mark_unregistered, hx, if_false]
      by_cases he : x.ext = -1
      · simpa [registered_exts, he] using ih
      · simpa [registered_exts, he] using ih

theorem registered_exts_append (l : List pbx_node) (t : Nat) (ext : Int) (he : ext ≠ -1) :
    registered_exts (l ++ [⟨t, ext⟩]) = registered_exts l ++ [ext] := by
  simp [registered_exts, he]

theorem registered_exts_ne (l : List pbx_node) (e : Int) (h : e ∈ registered_exts l) :
    e ≠ -1 := by
  simp only [registered_exts, List.mem_map, List.mem_filter] at h
  obtain ⟨nd, ⟨_, h2⟩, h3⟩ := h
  subst h3
  simpa using h2

theorem registered_exts_fresh (l : List pbx_node) (e : Int)
    (h : ∀ nd ∈ l, nd.ext ≠ e) : e ∉ registered_exts l := by
  intro hm
  simp only [registered_exts, List.mem_map, List.mem_filter] at hm
  obtain ⟨nd, ⟨h1, _⟩, h3⟩ := hm
  exact h nd h1 h3

theorem registered_exts_nodup_run (evs : List Ev) (w0 w : World)
    (h0 : (registered_exts w0.pbx.head).Nodup) (hf : fresh_registrations w0 evs)
    (hrun : ev_run w0 evs = some w) : (registered_exts w.pbx.head).Nodup := by
  induction evs generalizing w0 with
  | nil =>
    simp [ev_run] at hrun
    subst hrun
    exact h0
  | cons ev evs ih =>
    simp only [ev_run, Option.bind_eq_some] at hrun
    obtain ⟨w1, h1, h2⟩ := hrun
    obtain ⟨hev, hrest⟩ := hf
    refine ih w1 ?_ (hrest w1 h1) h2
    cases ev with
    | init addr fd =>
      simp only [ev_step] at h1
      split at h1
      · cases h1
      · cases h1
        simpa [tu_init] using h0
    | register t ext =>
      simp only [ev_step, Option.map_eq_some'] at h1
      obtain ⟨r, hr, hw⟩ := h1
      subst hw
      rw [pbx_register_head hr, registered_exts_append _ _ _ hev.1]
      exact List.Nodup.append h0 (List.nodup_singleton _)
        (by simpa using registered_exts_fresh _ _ hev.2)
    | unregister t =>
      simp only [ev_step, Option.map_eq_some'] at h1
      obtain ⟨r, hr, hw⟩ := h1
      subst hw
      rcases pbx_unregister_head hr with h | h
      · rw [h]
        exact List.Nodup.sublist (registered_exts_mark _ _) h0
      · rw [h]
        exact h0
    | command op => exact absurd hev (by simp)

theorem ev_step_init_pbx {w w1 : World} {addr : Nat} {fd : Int}
    (h : ev_step w (Ev.init addr fd) = some w1) : w1.pbx = w.pbx := by
  simp only [ev_step] at h
  split at h
  · cases h
  · cases h
    simp [tu_init]

theorem ev_step_register_head {w w1 : World} {t : Nat} {ext : Int}
    (h : ev_step w (Ev.register t ext) = some w1) :
    w1.pbx.head = w.pbx.head ++ [⟨t, ext⟩] := by
  simp only [ev_step, Option.map_eq_some'] at h
  obtain ⟨r, hr, hw⟩ := h
  subst hw
  exact pbx_register_head hr

/-! ### The dispatcher on a `dial` line, and `atoi` on a decimal numeral -/

theorem takeWhile_all {p : Char → Bool} (l : List Char) (h : ∀ c ∈ l, p c = true) :
    l.takeWhile p = l := by
  induction l with
  | nil => rfl
  | cons x xs ih =>
    have hx := h x (List.mem_cons_self _ _)
    simp [List.takeWhile, hx, ih (fun c hc => h c (List.mem_cons_of_mem _ hc))]

theorem takeWhile_append_stop {p : Char → Bool} (l : List Char) (c : Char) (r : List Char)
    (h : ∀ x ∈ l, p x = true) (hc : p c = false) : (l ++ c :: r).takeWhile p = l := by
  induction l with
  | nil => simp [List.takeWhile, hc]
  | cons x xs ih =>
    have hx := h x (List.mem_cons_self _ _)
    simp [List.takeWhile, hx, ih (fun c hc => h c (List.mem_cons_of_mem _ hc))]

theorem service_loop_end (tu fuel : Nat) (buf : List Char) (rest : Nat)
    (h : strtok_r buf rest = none) : service_loop tu (fuel + 1) buf rest = some [] := by
  rw [service_loop]
  simp only [h]

theorem service_loop_dial (tu fuel : Nat) (buf buf1 buf2 : List Char)
    (rest tok rest1 tok2 rest2 : Nat) (k : Option Int)
    (h1 : strtok_r buf rest = some (tok, buf1, rest1))
    (h2 : c_str buf1 tok = "dial".toList)
    (h3 : strtok_r buf1 rest1 = some (tok2, buf2, rest2))
    (h4 : atoi (c_str buf2 tok2) = k) :
    service_loop tu (fuel + 1) buf rest =
      k.bind (fun ext => (service_loop tu fuel buf2 rest2).map (fun calls => Op.dial tu ext :: calls)) := by
  rw [service_loop]
  simp only [h1, h2]
  rw [if_pos trivial]
  simp only [h3, h4]
  cases k <;> rfl

theorem service_line_dial (t : Nat) (x : List Char) (c : Char) (r : List Char)
    (hx : x = c :: r) (hns : ∀ a ∈ x, a ≠ ' ' ∧ a ≠ NUL) :
    service_line t ('d' :: 'i' :: 'a' :: 'l' :: ' ' :: x) =
      (atoi x).map (fun k => [Op.dial t k]) := by
  have hc := hns c (by rw [hx]; exact List.mem_cons_self _ _)
  have h1 : x.takeWhile (fun a => decide (a = ' ')) = [] := by
    rw [hx]
    simp [List.takeWhile, hc.1]
  have h2 : x.takeWhile (fun a => decide (a ≠ ' ' ∧ a ≠ NUL)) = x :=
    takeWhile_all x (fun a ha => by simpa using hns a ha)
  have h3 : x.takeWhile (fun a => decide (a ≠ NUL)) = x :=
    takeWhile_all x (fun a ha => by simpa using (hns a ha).2)
  have hlen : x.length ≠ 0 := by rw [hx]; simp
  have hd5 : List.drop 5 ('d' :: 'i' :: 'a' :: 'l' :: NUL :: x) = x := rfl
  have tok1 : strtok_r ('d' :: 'i' :: 'a' :: 'l' :: ' ' :: x) 0 =
      some (0, 'd' :: 'i' :: 'a' :: 'l' :: NUL :: x, 5) := by
    simp [strtok_r, List.takeWhile, NUL]
  have tok2 : strtok_r ('d' :: 'i' :: 'a' :: 'l' :: NUL :: x) 5 =
      some (5, 'd' :: 'i' :: 'a' :: 'l' :: NUL :: x, 5 + x.length) := by
    have hg : ('d' :: 'i' :: 'a' :: 'l' :: NUL :: x).get? (5 + x.length) = none := by
      apply List.get?_eq_none.mpr
      simp
      omega
    simp only [strtok_r, hd5, h1, List.length_nil, Nat.add_zero, h2, hg, if_neg hlen]
  have tok3 : strtok_r ('d' :: 'i' :: 'a' :: 'l' :: NUL :: x) (5 + x.length) = none := by
    have hd : List.drop (5 + x.length) ('d' :: 'i' :: 'a' :: 'l' :: NUL :: x) = [] := by
      apply List.drop_eq_nil_of_le
      simp
      omega
    simp only [strtok_r, hd, List.takeWhile_nil, List.length_nil, Nat.add_zero, if_pos]
  have cs1 : c_str ('d' :: 'i' :: 'a' :: 'l' :: NUL :: x) 0 = "dial".toList := by
    simp [c_str, List.takeWhile, NUL]
  have cs2 : c_str ('d' :: 'i' :: 'a' :: 'l' :: NUL :: x) 5 = x := by
    simp only [c_str, hd5, h3]
  have hl : ('d' :: 'i' :: 'a' :: 'l' :: ' ' :: x).length = (x.length + 3) + 1 + 1 := by
    simp
  unfold service_line
  rw [hl, service_loop_dial t _ _ _ _ 0 0 5 5 (5 + x.length) (atoi x) tok1 cs1 tok2
    (by rw [cs2]), service_loop_end t _ _ _ tok3]
  cases atoi x <;> rfl

theorem digitChar_value (d : Nat) (h : d < 10) :
    (Nat.digitChar d).toNat - 48 = d ∧ (Nat.digitChar d).isDigit = true := by
  interval_cases d <;> decide

theorem digits_value_toDigitsCore (fuel : Nat) :
    ∀ (n : Nat) (ds : List Char), n < fuel →
      List.foldl (fun acc c => 10 * acc + (c.toNat - 48)) 0 (Nat.toDigitsCore 10 fuel n ds) =
        List.foldl (fun acc c => 10 * acc + (c.toNat - 48)) n ds := by
  induction fuel with
  | zero => intro n ds h; omega
  | succ fuel ih =>
    intro n ds h
    have hd := (digitChar_value (n % 10) (Nat.mod_lt _ (by decide))).1
    unfold Nat.toDigitsCore
    by_cases h0 : n / 10 = 0
    · simp only [h0, if_true, List.foldl_cons, hd]
      congr 1
      omega
    · simp only [h0, if_false]
      rw [ih (n / 10) _ (by omega)]
      simp only [List.foldl_cons, hd]
      congr 1
      omega

theorem isDigit_toDigitsCore (fuel : Nat) :
    ∀ (n : Nat) (ds : List Char), (∀ c ∈ ds, c.isDigit = true) →
      ∀ c ∈ Nat.toDigitsCore 10 fuel n ds, c.isDigit = true := by
  induction fuel with
  | zero => intro n ds h; simpa [Nat.toDigitsCore] using h
  | succ fuel ih =>
    intro n ds h
    have hd := (digitChar_value (n % 10) (Nat.mod_lt _ (by decide))).2
    have hcons : ∀ c ∈ Nat.digitChar (n % 10) :: ds, c.isDigit = true := by
      intro c hc
      rcases List.mem_cons.mp hc with hc | hc
      · rw [hc]; exact hd
      · exact h c hc
    unfold Nat.toDigitsCore
    by_cases h0 : n / 10 = 0
    · simpa only [h0, if_true] using hcons
    · simpa only [h0, if_false] using ih (n / 10) _ hcons

theorem toDigitsCore_ne_nil (fuel : Nat) :
    ∀ (n : Nat) (ds : List Char), (fuel ≠ 0 ∨ ds ≠ []) → Nat.toDigitsCore 10 fuel n ds ≠ [] := by
  induction fuel with
  | zero => intro n ds h; simpa [Nat.toDigitsCore] using h
  | succ fuel ih =>
    intro n ds _
    unfold Nat.toDigitsCore
    by_cases h0 : n / 10 = 0
    · simp only [h0, if_true]
      exact List.cons_ne_nil _ _
    · simp only [h0, if_false]
      exact ih (n / 10) _ (Or.inr (List.cons_ne_nil _ _))

/-- The decimal numeral of a natural number: non-empty, all digits, and read
back by `digits_value`. -/
theorem toDigits_numeral (m : Nat) :
    (∃ c r, Nat.toDigits 10 m = c :: r) ∧ (∀ c ∈ Nat.toDigits 10 m, c.isDigit = true) ∧
      digits_value (Nat.toDigits 10 m) = m := by
  refine ⟨?_, isDigit_toDigitsCore _ _ _ (by simp), ?_⟩
  · have h := toDigitsCore_ne_nil (m + 1) m [] (Or.inl (by omega))
    cases hx : Nat.toDigitsCore 10 (m + 1) m [] with
    | nil => exact absurd hx h
    | cons c r => exact ⟨c, r, hx⟩
  · have h := digits_value_toDigitsCore (m + 1) m [] (by omega)
    simpa [digits_value, Nat.toDigits] using h

theorem isDigit_plain (c : Char) (h : c.isDigit = true) :
    c ≠ ' ' ∧ c ≠ NUL ∧ c ≠ '-' ∧ c ≠ '+' ∧ is_c_space c = false := by
  refine ⟨?_, ?_, ?_, ?_, ?_⟩
  · rintro rfl; exact absurd h (by decide)
  · rintro rfl; exact absurd h (by decide)
  · rintro rfl; exact absurd h (by decide)
  · rintro rfl; exact absurd h (by decide)
  · cases hs : is_c_space c with
    | false => rfl
    | true =>
      simp only [is_c_space, decide_eq_true_eq] at hs
      rcases hs with rfl | rfl | rfl | rfl | rfl | rfl <;> exact absurd h (by decide)

theorem atoi_sign_plain (c : Char) (r : List Char) (h1 : c ≠ '-') (h2 : c ≠ '+') :
    atoi_sign (c :: r) = (false, c :: r) := by
  unfold atoi_sign
  split
  · rename_i heq; exact absurd (List.cons.inj heq).1 h1
  · rename_i heq; exact absurd (List.cons.inj heq).1 h2
  · rfl

theorem atoi_digits (x : List Char) (c : Char) (r : List Char) (hx : x ≠ [])
    (hd : ∀ a ∈ x, a.isDigit = true) (hc : c.isDigit = false)
    (hr : (digits_value x : Int) ≤ 2147483647) :
    atoi (x ++ c :: r) = some (digits_value x : Int) := by
  cases x with
  | nil => exact absurd rfl hx
  | cons a y =>
    have ha := isDigit_plain a (hd a (List.mem_cons_self _ _))
    have h1 : List.dropWhile is_c_space (a :: y ++ c :: r) = a :: y ++ c :: r := by
      simp [List.dropWhile, ha.2.2.2.2]
    have h2 : List.takeWhile Char.isDigit (a :: y ++ c :: r) = a :: y :=
      takeWhile_append_stop (a :: y) c r hd hc
    have h3 : atoi_sign (a :: (y ++ c :: r)) = (false, a :: (y ++ c :: r)) :=
      atoi_sign_plain a _ ha.2.2.1 ha.2.2.2.1
    unfold atoi
    rw [h1]
    simp only [List.cons_append] at h2 ⊢
    rw [h3]
    simp only [h2, Bool.false_eq_true, if_false]
    rw [if_pos ⟨by omega, hr⟩]

theorem atoi_minus_digits (x : List Char) (c : Char) (r : List Char)
    (hd : ∀ a ∈ x, a.isDigit = true) (hc : c.isDigit = false)
    (hr : -2147483648 ≤ -(digits_value x : Int)) :
    atoi ('-' :: x ++ c :: r) = some (-(digits_value x : Int)) := by
  have h1 : List.dropWhile is_c_space ('-' :: x ++ c :: r) = '-' :: (x ++ c :: r) := by
    simp [List.dropWhile, is_c_space]
  have h2 : List.takeWhile Char.isDigit (x ++ c :: r) = x := takeWhile_append_stop x c r hd hc
  unfold atoi
  rw [h1]
  simp only [atoi_sign, h2, if_true]
  rw [if_pos ⟨hr, by omega⟩]

/-- The C `atoi` reads back the decimal numeral of every `int`, whatever
non-digit follows it. -/
theorem atoi_numeral (k : Int) (c : Char) (r : List Char) (hc : c.isDigit = false)
    (hlo : -2147483648 ≤ k) (hhi : k ≤ 2147483647) :
    atoi ((toString k).toList ++ c :: r) = some k := by
  cases k with
  | ofNat m =>
    obtain ⟨⟨a, y, hne⟩, hd, hv⟩ := toDigits_numeral m
    have hs : (toString (Int.ofNat m)).toList = Nat.toDigits 10 m := rfl
    rw [hs]
    have := atoi_digits (Nat.toDigits 10 m) c r (by rw [hne]; exact List.cons_ne_nil _ _) hd hc
      (by rw [hv]; exact hhi)
    rw [this, hv]
    rfl
  | negSucc m =>
    obtain ⟨_, hd, hv⟩ := toDigits_numeral (m + 1)
    have hs : (toString (Int.negSucc m)).toList = '-' :: Nat.toDigits 10 (m + 1) := rfl
    rw [hs]
    have := atoi_minus_digits (Nat.toDigits 10 (m + 1)) c r hd hc
      (by rw [hv]; simpa [Int.negSucc_eq] using hlo)
    rw [this, hv]
    rfl

theorem atoi_non_numeric (c : Char) (r : List Char) (hs : is_c_space c = false)
    (h1 : c ≠ '-') (h2 : c ≠ '+') (hd : c.isDigit = false) : atoi (c :: r) = some 0 := by
  have e1 : List.dropWhile is_c_space (c :: r) = c :: r := by simp [List.dropWhile, hs]
  have e2 : List.takeWhile Char.isDigit (c :: r) = [] := by simp [List.takeWhile, hd]
  unfold atoi
  rw [e1, atoi_sign_plain c r h1 h2]
  simp only [e2, Bool.false_eq_true, if_false]
  rfl

theorem numeral_plain (k : Int) : (∃ c r, (toString k).toList = c :: r) ∧
    ∀ a ∈ (toString k).toList, a ≠ ' ' ∧ a ≠ NUL := by
  cases k with
  | ofNat m =>
    obtain ⟨hne, hd, _⟩ := toDigits_numeral m
    have hs : (toString (Int.ofNat m)).toList = Nat.toDigits 10 m := rfl
    rw [hs]
    exact ⟨hne, fun a ha => ⟨(isDigit_plain a (hd a ha)).1, (isDigit_plain a (hd a ha)).2.1⟩⟩
  | negSucc m =>
    obtain ⟨_, hd, _⟩ := toDigits_numeral (m + 1)
    have hs : (toString (Int.negSucc m)).toList = '-' :: Nat.toDigits 10 (m + 1) := rfl
    rw [hs]
    refine ⟨⟨_, _, rfl⟩, fun a ha => ?_⟩
    rcases List.mem_cons.mp ha with rfl | ha
    · exact ⟨by decide, by decide⟩
    · exact ⟨(isDigit_plain a (hd a ha)).1, (isDigit_plain a (hd a ha)).2.1⟩


/-! ### The two parts of `tu_dial` -/

/-- Run without interruption, the two parts of the ring branch are `tu_dial`. -/
theorem tu_dial_ring_split (w : World) (tu target : Nat) (fileno_tu fileno_target : Int)
    (h : tu_dial_ring_check w tu target = some (some (fileno_tu, fileno_target))) :
    tu_dial w tu (some target) = tu_dial_ring_commit w tu target fileno_tu fileno_target := by
  cases hn : w.tus tu with
  | none => simp [tu_dial_ring_check, hn] at h
  | some n =>
    cases hm : w.tus target with
    | none =>
      simp only [tu_dial_ring_check, hn, hm, Option.bind_eq_bind, Option.some_bind,
        Option.none_bind] at h
      split_ifs at h <;> simp_all
    | some m =>
      simp only [tu_dial_ring_check, hn, hm, Option.bind_eq_bind, Option.some_bind] at h
      split_ifs at h with h1 h2 h3 h4 <;> simp at h
      obtain ⟨rfl, rfl⟩ := h
      simp only [tu_dial, tu_dial_ring_commit, hn, hm, Option.bind_eq_bind, Option.some_bind]
      rw [if_neg h1, if_neg h2, if_neg h3, if_pos h4]

/-! ### What one operation can touch -/

theorem effect_same_heap (w w' : World) (t : Nat) (nt : tu_node) (o : Option Nat)
    (new : List (Int × String)) (hh : w'.tus = w.tus) (ho : w'.out = w.out ++ new)
    (hfd : ∀ e ∈ new, e.1 = nt.connfd ∨ ∃ p np, o = some p ∧ w.tus p = some np ∧ e.1 = np.connfd) :
    changes_only w w' t nt o ∧ no_new_error w w' := by
  refine ⟨⟨fun a _ _ => by rw [hh], new, ho, hfd⟩, ?_⟩
  intro a n n' h1 h2 h3
  rw [hh, h1] at h2
  cases h2
  exact h3

theorem effect_solo (w w' : World) (t : Nat) (nt nt' : tu_node) (o : Option Nat) (s : String)
    (ht : w.tus t = some nt)
    (hh : w'.tus = Function.update w.tus t (some nt')) (he : nt'.state ≠ TU_ERROR)
    (ho : w'.out = w.out ++ [(nt.connfd, s)]) :
    changes_only w w' t nt o ∧ no_new_error w w' := by
  refine ⟨⟨fun a h1 _ => by rw [hh]; simp [Function.update, h1], _, ho, ?_⟩, ?_⟩
  · intro e he
    simp at he
    exact Or.inl (by rw [he])
  · intro a n n' h1 h2 h3
    rw [hh] at h2
    by_cases hat : a = t
    · subst hat
      simp [Function.update] at h2
      subst h2
      exact absurd h3 he
    · simp [Function.update, hat, h1] at h2
      subst h2
      exact h3

theorem effect_duo (w w' : World) (t p : Nat) (nt nt' np np' : tu_node)
    (f1 f2 : Int) (s1 s2 : String) (hp : w.tus p = some np)
    (hh : w'.tus = Function.update (Function.update w.tus t (some nt')) p (some np'))
    (he : nt'.state ≠ TU_ERROR) (hep : np'.state ≠ TU_ERROR)
    (ho : w'.out = w.out ++ [(f1, s1), (f2, s2)])
    (h1 : f1 = nt.connfd ∨ f1 = np.connfd) (h2 : f2 = nt.connfd ∨ f2 = np.connfd) :
    changes_only w w' t nt (some p) ∧ no_new_error w w' := by
  refine ⟨⟨fun a ha hb => ?_, _, ho, ?_⟩, ?_⟩
  · have hap : a ≠ p := fun h => hb (by rw [h])
    rw [hh]
    simp [Function.update, ha, hap]
  · intro e he
    simp at he
    rcases he with rfl | rfl
    · rcases h1 with h | h
      · exact Or.inl h
      · exact Or.inr ⟨p, np, rfl, hp, h⟩
    · rcases h2 with h | h
      · exact Or.inl h
      · exact Or.inr ⟨p, np, rfl, hp, h⟩
  · intro a n n' g1 g2 g3
    rw [hh] at g2
    by_cases hap : a = p
    · subst hap
      simp [Function.update] at g2
      subst g2
      exact absurd g3 hep
    · by_cases hat : a = t
      · subst hat
        simp [Function.update, hap] at g2
        subst g2
        exact absurd g3 he
      · simp [Function.update, hap, hat, g1] at g2
        subst g2
        exact g3

theorem tu_pickup_effect (w w' : World) (t : Nat) (nt : tu_node) (r : Int)
    (ht : w.tus t = some nt) (h : tu_pickup w t = some (r, w')) :
    changes_only w w' t nt nt.peer ∧ no_new_error w w' := by
  by_cases h1 : nt.state = TU_ON_HOOK
  · rw [eff_pickup_on_hook w t nt ht h1] at h
    cases h
    exact effect_solo w _ t nt { nt with state := TU_DIAL_TONE } _ _ ht rfl (by simp) rfl
  · by_cases h2 : nt.state = TU_RINGING
    · cases hpe : nt.peer with
      | none => simp [tu_pickup, ht, h1, h2, hpe] at h
      | some p =>
        cases hp : w.tus p with
        | none => simp [tu_pickup, ht, h1, h2, hpe, hp] at h
        | some np =>
          by_cases hne : p = t
          · simp [tu_pickup, ht, h1, h2, hpe, hp, lock_pair, hne] at h
          · rw [eff_pickup_ringing w t p nt np ht hp hne h2 hpe] at h
            cases h
            exact effect_duo w _ t p nt _ np _ _ _ _ _ hp rfl (by simp) (by simp) rfl
              (Or.inl rfl) (Or.inr rfl)
    · by_cases hc : nt.state = TU_CONNECTED → ∃ p np, nt.peer = some p ∧ w.tus p = some np
      · rw [eff_pickup_other w t nt ht h1 h2 hc] at h
        cases h
        exact effect_same_heap w _ t nt _ _ rfl rfl (by simp)
      · simp only [not_forall, not_exists, not_and] at hc
        obtain ⟨hst, hno⟩ := hc
        cases hpe : nt.peer with
        | none => simp [tu_pickup, ht, hst, hpe] at h
        | some p =>
          cases hp : w.tus p with
          | none => simp [tu_pickup, ht, hst, hpe, hp, tu_fileno] at h
          | some np => exact absurd hp (hno p np hpe)

theorem tu_chat_effect (w w' : World) (t : Nat) (nt : tu_node) (msg : String) (r : Int)
    (ht : w.tus t = some nt) (h : tu_chat w t msg = some (r, w')) :
    changes_only w w' t nt nt.peer ∧ no_new_error w w' := by
  by_cases h1 : nt.state = TU_CONNECTED
  · cases hpe : nt.peer with
    | none => simp [tu_chat, ht, h1, hpe] at h
    | some p =>
      cases hp : w.tus p with
      | none => simp [tu_chat, ht, h1, hpe, hp] at h
      | some np =>
        rw [eff_chat_connected w t p nt np msg ht hp h1 hpe] at h
        cases h
        refine effect_same_heap w _ t nt _ _ rfl rfl ?_
        intro e he
        simp at he
        rcases he with rfl | rfl
        · exact Or.inr ⟨p, np, rfl, hp, rfl⟩
        · exact Or.inl rfl
  · rw [eff_chat_other w t nt msg ht h1] at h
    cases h
    exact effect_same_heap w _ t nt _ _ rfl rfl (by simp)

theorem tu_dial_effect (w w' : World) (t : Nat) (nt : tu_node) (target : Option Nat) (r : Int)
    (ht : w.tus t = some nt) (h : tu_dial w t target = some (r, w')) :
    changes_only w w' t nt target ∧
      (¬ (target = none ∧ nt.state = TU_DIAL_TONE) → no_new_error w w') := by
  by_cases h1 : nt.state = TU_DIAL_TONE
  · cases target with
    | none =>
      rw [eff_dial_null w t nt ht h1] at h
      cases h
      refine ⟨⟨fun a ha _ => by simp [Function.update, ha], _, rfl, by simp⟩, ?_⟩
      intro hn
      exact absurd ⟨rfl, h1⟩ hn
    | some u =>
      cases hu : w.tus u with
      | none =>
        have hut : u ≠ t := by
          intro e
          rw [e, ht] at hu
          cases hu
        simp [tu_dial, ht, h1, hu, hut] at h
      | some nu =>
        by_cases hb : u = t ∨ nu.peer ≠ none ∨ nu.state ≠ TU_ON_HOOK
        · rw [eff_dial_busy w t u nt nu ht hu h1 hb] at h
          cases h
          suffices hh : changes_only w _ t nt (some u) ∧ no_new_error w _ from
            ⟨hh.1, fun _ => hh.2⟩
          exact effect_solo w _ t nt { nt with state := TU_BUSY_SIGNAL } (some u) _ ht rfl
            (by simp) rfl
        · simp only [not_or, not_not] at hb
          obtain ⟨hne, hpu, hsu⟩ := hb
          rw [eff_dial_ring w t u nt nu ht hu hne h1 hsu hpu] at h
          cases h
          suffices hh : changes_only w _ t nt (some u) ∧ no_new_error w _ from
            ⟨hh.1, fun _ => hh.2⟩
          exact effect_duo w _ t u nt _ nu _ _ _ _ _ hu rfl (by simp) (by simp) rfl
            (Or.inl rfl) (Or.inr rfl)
  · by_cases hpl : ∀ p, nt.peer = some p → ∃ np, w.tus p = some np
    · by_cases hconn : nt.state = TU_CONNECTED → nt.peer ≠ none
      · rw [eff_dial_no_effect w t target nt ht h1 hpl hconn] at h
        cases h
        suffices hh : changes_only w _ t nt target ∧ no_new_error w _ from
          ⟨hh.1, fun _ => hh.2⟩
        exact effect_same_heap w _ t nt target _ rfl rfl (by simp)
      · simp only [not_forall, not_not] at hconn
        obtain ⟨hst, hpe⟩ := hconn
        cases target <;>
          simp [tu_dial, ht, hst, hpe, read_peer_fileno, dial_notice] at h
    · simp only [not_forall, not_exists] at hpl
      obtain ⟨p, hpe, hno⟩ := hpl
      have hp : w.tus p = none := by
        cases hp : w.tus p with
        | none => rfl
        | some np => exact absurd hp (hno np)
      cases target <;>
        simp [tu_dial, ht, h1, hpe, read_peer_fileno, hp] at h

theorem tu_hangup_closing_effect (w w' : World) (t : Nat) (nt : tu_node) (r : Int)
    (ht : w.tus t = some nt) (hc : nt.connfd = -1) (h : tu_hangup w t = some (r, w')) :
    changes_only w w' t nt nt.peer ∧ no_new_error w w' := by
  cases hpe : nt.peer with
  | none =>
    simp [tu_hangup, ht, hc, hpe, tu_unref, World.upd, free_head] at h
    obtain ⟨_, rfl⟩ := h
    refine ⟨⟨fun a ha _ => by simp [Function.update, ha], [], by simp, by simp⟩, ?_⟩
    intro a n n' g1 g2 g3
    by_cases hat : a = t
    · subst hat
      simp [Function.update] at g2
    · simp [Function.update, hat, g1] at g2
      subst g2
      exact g3
  | some p =>
    cases hp : w.tus p with
    | none => simp [tu_hangup, ht, hc, hpe, hp] at h
    | some np =>
      by_cases hne : p = t
      · subst hne
        simp [tu_hangup, ht, hc, hpe, tu_unref, World.upd, lock_pair] at h
      · have hne2 : t ≠ p := fun e => hne e.symm
        simp [tu_hangup, ht, hc, hpe, hp, tu_unref, World.upd, lock_pair, hne, hne2,
          Function.update, free_head, Rio_writen] at h
        obtain ⟨_, rfl⟩ := h
        refine ⟨⟨fun a ha hb => ?_, [(np.connfd, "DIAL_TONE\n")], by simp [tu_state_names],
          ?_⟩, ?_⟩
        · have hap : a ≠ p := fun e => hb (by rw [e])
          simp [ha, hap]
        · intro e he
          simp at he
          exact Or.inr ⟨p, np, rfl, hp, by rw [he]⟩
        · intro a n n' g1 g2 g3
          by_cases hat : a = t
          · subst hat
            simp at g2
          · by_cases hap : a = p
            · subst hap
              simp [hat] at g2
              subst g2
              simp at g3
            · simp [hat, hap, g1] at g2
              subst g2
              exact g3

theorem tu_hangup_self_peer (w : World) (t : Nat) (nt : tu_node)
    (ht : w.tus t = some nt) (hc : nt.connfd ≠ -1) (hst : engaged nt.state)
    (hpe : nt.peer = some t) : tu_hangup w t = none := by
  have hl : lock_pair t t = none := by simp [lock_pair]
  unfold tu_hangup
  simp only [ht, Option.bind_eq_bind, Option.some_bind, if_neg hc, hpe, hl, Option.none_bind]
  rcases hst with h | h | h
  · simp only [h]
    simp
  · simp only [h]
    simp
  · simp only [h]
    simp [tu_unref, World.upd, ht]

theorem tu_hangup_lost_peer (w : World) (t : Nat) (nt : tu_node)
    (ht : w.tus t = some nt) (hc : nt.connfd ≠ -1) (hst : engaged nt.state)
    (hbad : nt.peer.bind w.tus = none) : tu_hangup w t = none := by
  unfold tu_hangup
  simp only [ht, Option.bind_eq_bind, Option.some_bind, if_neg hc]
  cases hpe : nt.peer with
  | none =>
    rcases hst with h | h | h
    · simp only [h]
      simp
    · simp only [h]
      simp
    · simp only [h]
      simp
  | some p =>
    have hp : w.tus p = none := by simpa [hpe] using hbad
    rcases hst with h | h | h
    · simp only [h, Option.some_bind]
      simp [hp]
    · simp only [h, Option.some_bind]
      simp [hp]
    · simp only [h, Option.some_bind]
      simp [hp]

theorem tu_hangup_effect (w w' : World) (t : Nat) (nt : tu_node) (r : Int)
    (ht : w.tus t = some nt) (h : tu_hangup w t = some (r, w')) :
    changes_only w w' t nt nt.peer ∧ no_new_error w w' := by
  by_cases hc : nt.connfd = -1
  · exact tu_hangup_closing_effect w w' t nt r ht hc h
  · by_cases he : engaged nt.state
    · cases hpe : nt.peer with
      | none =>
        rw [tu_hangup_lost_peer w t nt ht hc he (by simp [hpe])] at h
        cases h
      | some p =>
        cases hp : w.tus p with
        | none =>
          rw [tu_hangup_lost_peer w t nt ht hc he (by simp [hpe, hp])] at h
          cases h
        | some np =>
          by_cases hne : p = t
          · subst hne
            rw [tu_hangup_self_peer w p nt ht hc he hpe] at h
            cases h
          · rcases he with h1 | h1 | h1
            · rw [eff_hangup_engaged w t p nt np ht hp hne hc (Or.inr h1) hpe] at h
              cases h
              exact effect_duo w _ t p nt _ np _ _ _ _ _ hp rfl (by simp) (by simp) rfl
                (Or.inl rfl) (Or.inr rfl)
            · rw [eff_hangup_ring_back w t p nt np ht hp hne hc h1 hpe] at h
              cases h
              exact effect_duo w _ t p nt _ np _ _ _ _ _ hp rfl (by simp) (by simp) rfl
                (Or.inl rfl) (Or.inr rfl)
            · rw [eff_hangup_engaged w t p nt np ht hp hne hc (Or.inl h1) hpe] at h
              cases h
              exact effect_duo w _ t p nt _ np _ _ _ _ _ hp rfl (by simp) (by simp) rfl
                (Or.inl rfl) (Or.inr rfl)
    · by_cases h3 : nt.state = TU_ON_HOOK
      · rw [eff_hangup_on_hook w t nt ht hc h3] at h
        cases h
        exact effect_same_heap w _ t nt _ _ rfl rfl (by simp)
      · have h4 : nt.state = TU_DIAL_TONE ∨ nt.state = TU_BUSY_SIGNAL ∨
            nt.state = TU_ERROR := by
          cases hs : nt.state <;> simp_all [engaged]
        rw [eff_hangup_idle w t nt ht hc h4] at h
        cases h
        exact effect_solo w _ t nt { nt with state := TU_ON_HOOK } _ _ ht rfl (by simp) rfl

theorem step_dial_inv (w w' : World) (t : Nat) (ext : Int)
    (h : step w (Op.dial t ext) = some w') :
    ∃ r, tu_dial w t ((pbx_find_ext w.pbx.head ext).map (fun nd => nd.tu)) = some (r, w') := by
  cases hf : pbx_find_ext w.pbx.head ext with
  | none =>
    cases hd : tu_dial w t none with
    | none => simp [step, pbx_dial, hf, hd] at h
    | some rw1 =>
      obtain ⟨r, w1⟩ := rw1
      simp [step, pbx_dial, hf, hd] at h
      subst h
      exact ⟨r, hd⟩
  | some nd =>
    cases hd : tu_dial w t (some nd.tu) with
    | none => simp [step, pbx_dial, hf, hd] at h
    | some rw1 =>
      obtain ⟨r, w1⟩ := rw1
      simp [step, pbx_dial, hf, hd] at h
      subst h
      exact ⟨r, hd⟩


/-! ### A peer pointer into released memory -/

/-- The side conditions of the branches that only report the state are needed:
A calls B and hangs up before B answers, B calls C, B disconnects.  A is then
registered and ON_HOOK with the peer pointer that the RING_BACK branch of
`tu_hangup` left behind, and B has been freed; `pbx_dial` by A, whatever the
extension, reads the descriptor of the peer (lines 270 to 273 and 317 to 320
of `tu.c`) from released memory and does not return. -/
theorem pbx_dial_reads_released_peer :
    (ev_run empty_world (connect_ABC ++ [Ev.command (Op.pickup 1), Ev.command (Op.dial 1 5),
        Ev.command (Op.hangup 1), Ev.command (Op.pickup 2), Ev.command (Op.dial 2 6),
        Ev.unregister 2])).map
        (fun w => [w.tus 1, w.tus 2, w.tus 3].map
          (Option.map (fun n => (n.state, n.connfd, n.peer)))) =
        some [some (TU_ON_HOOK, 4, some 2), none, some (TU_DIAL_TONE, 6, none)] ∧
      (ev_run empty_world (connect_ABC ++ [Ev.command (Op.pickup 1), Ev.command (Op.dial 1 5),
        Ev.command (Op.hangup 1), Ev.command (Op.pickup 2), Ev.command (Op.dial 2 6),
        Ev.unregister 2])).map
        (fun w => ((pbx_dial w 1 6).isNone, (pbx_dial w 1 9).isNone)) =
        some (true, true) :=
  ⟨by decide, by decide⟩

/-! ## The claims -/

/-- C1: for a TU `t` in DIAL_TONE and a target `u` other than `t` that is
ON_HOOK and has no peer, `tu_dial t u` returns 0, leaves `t` in RING_BACK with
peer `u` and `u` in RINGING with peer `t`, touches no other TU, and writes
exactly `RING_BACK\n` to `t` and then `RINGING\n` to `u`. -/
theorem tu_dial_rings_idle_target (w : World) (t u : Nat) (nt nu : tu_node)
    (ht : w.tus t = some nt) (hu : w.tus u = some nu) (hne : u ≠ t)
    (hst : nt.state = TU_DIAL_TONE) (hsu : nu.state = TU_ON_HOOK) (hpu : nu.peer = none) :
    ∃ w', tu_dial w t (some u) = some (0, w') ∧
      w'.tus t = some { nt with state := TU_RING_BACK, peer := some u } ∧
      w'.tus u = some { nu with state := TU_RINGING, peer := some t } ∧
      (∀ v, v ≠ t → v ≠ u → w'.tus v = w.tus v) ∧
      w'.pbx = w.pbx ∧
      w'.out = w.out ++ [(nt.connfd, "RING_BACK\n"), (nu.connfd, "RINGING\n")] := by
  simp [tu_dial, ht, hu, hne, hst, hsu, hpu, World.upd, lock_pair, Rio_writen, Ne.symm hne,
    tu_state_names]
  intro v hvt hvu
  simp [Function.update, hvt, hvu]

theorem tu_dial_rings_idle_target_witness :
    (tu_dial (two_tus ⟨1, 4, TU_DIAL_TONE, none⟩ ⟨1, 5, TU_ON_HOOK, none⟩) 1 (some 2)).map
      (fun r => (r.1, r.2.tus 1, r.2.tus 2, r.2.out)) =
    some (0, some ⟨1, 4, TU_RING_BACK, some 2⟩, some ⟨1, 5, TU_RINGING, some 1⟩,
      [(4, "RING_BACK\n"), (5, "RINGING\n")]) := by
  obtain ⟨w', h, h1, h2, _, _, ho⟩ :=
    tu_dial_rings_idle_target (two_tus ⟨1, 4, TU_DIAL_TONE, none⟩ ⟨1, 5, TU_ON_HOOK, none⟩)
      1 2 ⟨1, 4, TU_DIAL_TONE, none⟩ ⟨1, 5, TU_ON_HOOK, none⟩ rfl rfl (by decide) rfl rfl rfl
  rw [h]
  simp [h1, h2, ho, two_tus]

/-- C2: for a TU `t` in RINGING whose peer is the TU `p`, `tu_pickup t` returns
0, puts both in CONNECTED, leaves both peer links as they were, adds one to the
reference count of each, touches no other TU, and writes exactly
`CONNECTED <p_ext>\n` to `t` and then `CONNECTED <t_ext>\n` to `p`. -/
theorem tu_pickup_answers_ringing (w : World) (t p : Nat) (nt np : tu_node)
    (ht : w.tus t = some nt) (hp : w.tus p = some np) (hne : p ≠ t)
    (hst : nt.state = TU_RINGING) (hpeer : nt.peer = some p) :
    ∃ w', tu_pickup w t = some (0, w') ∧
      w'.tus t = some { nt with state := TU_CONNECTED, ref_cnt := nt.ref_cnt + 1 } ∧
      w'.tus p = some { np with state := TU_CONNECTED, ref_cnt := np.ref_cnt + 1 } ∧
      (∀ v, v ≠ t → v ≠ p → w'.tus v = w.tus v) ∧
      w'.pbx = w.pbx ∧
      w'.out = w.out ++ [(nt.connfd, "CONNECTED " ++ toString np.connfd ++ "\n"),
        (np.connfd, "CONNECTED " ++ toString nt.connfd ++ "\n")] := by
  simp [tu_pickup, ht, hp, hne, hst, hpeer, World.upd, lock_pair, Rio_writen, Ne.symm hne,
    tu_state_names, tu_fileno, tu_ref]
  intro v hvt hvp
  simp [Function.update, hvt, hvp]

theorem tu_pickup_answers_ringing_witness :
    (tu_pickup (two_tus ⟨1, 4, TU_RING_BACK, some 2⟩ ⟨1, 5, TU_RINGING, some 1⟩) 2).map
      (fun r => (r.1, r.2.tus 1, r.2.tus 2, r.2.out)) =
    some (0, some ⟨2, 4, TU_CONNECTED, some 2⟩, some ⟨2, 5, TU_CONNECTED, some 1⟩,
      [(5, "CONNECTED 4\n"), (4, "CONNECTED 5\n")]) := by
  obtain ⟨w', h, h1, h2, _, _, ho⟩ :=
    tu_pickup_answers_ringing (two_tus ⟨1, 4, TU_RING_BACK, some 2⟩ ⟨1, 5, TU_RINGING, some 1⟩)
      2 1 ⟨1, 5, TU_RINGING, some 1⟩ ⟨1, 4, TU_RING_BACK, some 2⟩ rfl rfl (by decide) rfl rfl
  rw [h]
  simp [h1, h2, ho, two_tus]
  decide

/-- C3: for a registered TU `t` (extension not -1) in CONNECTED or RINGING
whose peer is the TU `p`, `tu_hangup t` returns 0, puts `t` in ON_HOOK and `p`
in DIAL_TONE, clears both peer links, lowers both reference counts by one when
`t` was CONNECTED and leaves them alone when it was RINGING, touches no other
TU, and writes exactly `ON_HOOK <t_ext>\n` to `t` and then `DIAL_TONE\n` to
`p`. -/
theorem tu_hangup_connected_or_ringing (w : World) (t p : Nat) (nt np : tu_node)
    (ht : w.tus t = some nt) (hp : w.tus p = some np) (hne : p ≠ t)
    (hreg : nt.connfd ≠ -1)
    (hst : nt.state = TU_CONNECTED ∨ nt.state = TU_RINGING) (hpeer : nt.peer = some p) :
    ∃ w', tu_hangup w t = some (0, w') ∧
      w'.tus t = some { nt with
        state := TU_ON_HOOK
        peer := none
        ref_cnt := if nt.state = TU_CONNECTED then nt.ref_cnt - 1 else nt.ref_cnt } ∧
      w'.tus p = some { np with
        state := TU_DIAL_TONE
        peer := none
        ref_cnt := if nt.state = TU_CONNECTED then np.ref_cnt - 1 else np.ref_cnt } ∧
      (∀ v, v ≠ t → v ≠ p → w'.tus v = w.tus v) ∧
      w'.pbx = w.pbx ∧
      w'.out = w.out ++ [(nt.connfd, "ON_HOOK " ++ toString nt.connfd ++ "\n"),
        (np.connfd, "DIAL_TONE\n")] := by
  rcases hst with hst | hst
  · simp [tu_hangup, ht, hp, hne, hst, hpeer, hreg, World.upd, lock_pair, Rio_writen,
      Ne.symm hne, tu_state_names, tu_unref]
    intro v hvt hvp
    simp [Function.update, hvt, hvp]
  · simp [tu_hangup, ht, hp, hne, hst, hpeer, hreg, World.upd, lock_pair, Rio_writen,
      Ne.symm hne, tu_state_names, tu_unref]
    intro v hvt hvp
    simp [Function.update, hvt, hvp]

theorem tu_hangup_connected_or_ringing_witness :
    (tu_hangup (two_tus ⟨2, 4, TU_CONNECTED, some 2⟩ ⟨2, 5, TU_CONNECTED, some 1⟩) 2).map
      (fun r => (r.1, r.2.tus 1, r.2.tus 2, r.2.out)) =
    some (0, some ⟨1, 4, TU_DIAL_TONE, none⟩, some ⟨1, 5, TU_ON_HOOK, none⟩,
      [(5, "ON_HOOK 5\n"), (4, "DIAL_TONE\n")]) := by
  obtain ⟨w', h, h1, h2, _, _, ho⟩ :=
    tu_hangup_connected_or_ringing
      (two_tus ⟨2, 4, TU_CONNECTED, some 2⟩ ⟨2, 5, TU_CONNECTED, some 1⟩)
      2 1 ⟨2, 5, TU_CONNECTED, some 1⟩ ⟨2, 4, TU_CONNECTED, some 2⟩ rfl rfl (by decide)
      (by decide) (Or.inl rfl) rfl
  rw [h]
  simp [h1, h2, ho, two_tus]
  decide

/-- C4 (the code departs from the claim): A at extension 4 is in RING_BACK and
B at extension 5 is RINGING, each the peer of the other.  `tu_hangup A` returns
0, puts both in ON_HOOK, keeps both reference counts and writes `ON_HOOK 4\n`
to A and `ON_HOOK 5\n` to B, but the pair is not detached: A still points at B
and B still points at A. -/
theorem tu_hangup_ring_back_keeps_peer_links :
    (tu_hangup (two_tus ⟨1, 4, TU_RING_BACK, some 2⟩ ⟨1, 5, TU_RINGING, some 1⟩) 1).map
      (fun r => (r.1, r.2.tus 1, r.2.tus 2, r.2.out)) =
    some (0, some ⟨1, 4, TU_ON_HOOK, some 2⟩, some ⟨1, 5, TU_ON_HOOK, some 1⟩,
      [(4, "ON_HOOK 4\n"), (5, "ON_HOOK 5\n")]) := by
  decide

/-- C5 (the code departs from the claim): from the freshly registered TUs A
and B, the commands `pickup` by A, `dial 5` by A, `hangup` by A lead to a
world in which A is ON_HOOK and yet has a peer, so "peer non-null iff state is
RINGING, RING_BACK or CONNECTED" fails for A. -/
theorem abandoned_call_breaks_peer_iff_engaged :
    freshly_registered idle_AB ∧
    ∃ w n, run idle_AB [Op.pickup 1, Op.dial 1 5, Op.hangup 1] = some w ∧
      w.tus 1 = some n ∧ ¬ peer_iff_engaged n := by
  refine ⟨idle_AB_fresh, ?_⟩
  have h : (run idle_AB [Op.pickup 1, Op.dial 1 5, Op.hangup 1]).bind (fun w => w.tus 1) =
      some ⟨1, 4, TU_ON_HOOK, some 2⟩ := by decide
  obtain ⟨w, hw, hn⟩ := Option.bind_eq_some.mp h
  refine ⟨w, _, hw, hn, ?_⟩
  simp [peer_iff_engaged]

/-- C6 (the code departs from the claim): from the freshly registered TUs A
and B, the commands `pickup` by A, `dial 5` by A, `hangup` by A lead to a
world in which A and B are each other's peer while both are ON_HOOK, which is
none of the allowed state pairs. -/
theorem abandoned_call_breaks_pair_invariant :
    freshly_registered idle_AB ∧
    ∃ w, run idle_AB [Op.pickup 1, Op.dial 1 5, Op.hangup 1] = some w ∧
      ¬ pair_invariant w := by
  refine ⟨idle_AB_fresh, ?_⟩
  have h : (run idle_AB [Op.pickup 1, Op.dial 1 5, Op.hangup 1]).bind (fun w => w.tus 1) =
      some ⟨1, 4, TU_ON_HOOK, some 2⟩ := by decide
  obtain ⟨w, hw, hn⟩ := Option.bind_eq_some.mp h
  refine ⟨w, hw, ?_⟩
  intro hinv
  obtain ⟨nb, _, _, hs⟩ := hinv 1 2 _ hn rfl
  simp [pair_states_ok] at hs

/-- The unmatched dial of a caller that has no peer.
For a TU `t` in DIAL_TONE (without peer, as the data model has it for
that state) and an extension that no registry node carries, `pbx_dial`
returns -1, leaves `t` in ERROR without peer, changes no other TU nor the
registry, and writes exactly `ERROR\n` to `t`. -/
theorem pbx_dial_unknown_extension (w : World) (t : Nat) (ext : Int) (nt : tu_node)
    (ht : w.tus t = some nt) (hst : nt.state = TU_DIAL_TONE) (hpt : nt.peer = none)
    (hno : ∀ nd ∈ w.pbx.head, nd.ext ≠ ext) :
    ∃ w', pbx_dial w t ext = some (-1, w') ∧
      w'.tus t = some { nt with state := TU_ERROR, peer := none } ∧
      (∀ v, v ≠ t → w'.tus v = w.tus v) ∧
      w'.pbx = w.pbx ∧
      w'.out = w.out ++ [(nt.connfd, "ERROR\n")] := by
  have hf := (pbx_find_ext_eq_none w.pbx.head ext).mpr hno
  simp [pbx_dial, hf, tu_dial, ht, hst, World.upd, Rio_writen, tu_state_names]
  refine ⟨?_, ?_⟩
  · rw [← hpt]
  · intro v hvt
    simp [Function.update, hvt]

theorem pbx_dial_unknown_extension_witness :
    (pbx_dial (two_tus ⟨1, 4, TU_DIAL_TONE, none⟩ ⟨1, 5, TU_ON_HOOK, none⟩) 1 6).map
      (fun r => (r.1, r.2.tus 1, r.2.tus 2, r.2.out)) =
    some (-1, some ⟨1, 4, TU_ERROR, none⟩, some ⟨1, 5, TU_ON_HOOK, none⟩,
      [(4, "ERROR\n")]) := by
  obtain ⟨w', h, h1, h2, _, ho⟩ :=
    pbx_dial_unknown_extension (two_tus ⟨1, 4, TU_DIAL_TONE, none⟩ ⟨1, 5, TU_ON_HOOK, none⟩)
      1 6 ⟨1, 4, TU_DIAL_TONE, none⟩ rfl rfl rfl (by decide)
  rw [h]
  simp [h1, h2 2 (by decide), ho, two_tus]

/-- The busy branches for a caller that has no peer.
For a TU `t` in DIAL_TONE (without peer, as the data model has it for
that state) and a target TU `u` that is `t` itself, or has a peer, or is not
ON_HOOK, `tu_dial t u` returns 0, leaves `t` in BUSY_SIGNAL without peer,
changes no other TU (so `u`, when it is not `t`, keeps its state, peer and
reference count), and writes exactly `BUSY_SIGNAL\n` to `t` and nothing else. -/
theorem tu_dial_busy_target (w : World) (t u : Nat) (nt nu : tu_node)
    (ht : w.tus t = some nt) (hu : w.tus u = some nu)
    (hst : nt.state = TU_DIAL_TONE) (hpt : nt.peer = none)
    (hbusy : u = t ∨ nu.peer ≠ none ∨ nu.state ≠ TU_ON_HOOK) :
    ∃ w', tu_dial w t (some u) = some (0, w') ∧
      w'.tus t = some { nt with state := TU_BUSY_SIGNAL, peer := none } ∧
      (∀ v, v ≠ t → w'.tus v = w.tus v) ∧
      w'.pbx = w.pbx ∧
      w'.out = w.out ++ [(nt.connfd, "BUSY_SIGNAL\n")] := by
  by_cases hut : u = t
  · simp [tu_dial, ht, hst, hut, World.upd, Rio_writen, tu_state_names]
    refine ⟨?_, ?_⟩
    · rw [← hpt]
    · intro v hvt
      simp [Function.update, hvt]
  · have hb : nu.peer ≠ none ∨ nu.state ≠ TU_ON_HOOK := by
      rcases hbusy with h | h
      · exact absurd h hut
      · exact h
    simp only [tu_dial, ht, hu, hst, hut, World.upd, Rio_writen, tu_state_names, hb,
      Option.bind_eq_bind, Option.some_bind, Option.pure_def, ne_eq, not_true_eq_false, if_false,
      if_true]
    refine ⟨_, rfl, ?_, ?_, rfl, rfl⟩
    · simp [← hpt]
    · intro v hvt
      simp [Function.update, hvt]

theorem tu_dial_busy_target_witness :
    (tu_dial (two_tus ⟨1, 4, TU_DIAL_TONE, none⟩ ⟨1, 5, TU_DIAL_TONE, none⟩) 1 (some 2)).map
      (fun r => (r.1, r.2.tus 1, r.2.tus 2, r.2.out)) =
    some (0, some ⟨1, 4, TU_BUSY_SIGNAL, none⟩, some ⟨1, 5, TU_DIAL_TONE, none⟩,
      [(4, "BUSY_SIGNAL\n")]) := by
  obtain ⟨w', h, h1, h2, _, ho⟩ :=
    tu_dial_busy_target (two_tus ⟨1, 4, TU_DIAL_TONE, none⟩ ⟨1, 5, TU_DIAL_TONE, none⟩)
      1 2 ⟨1, 4, TU_DIAL_TONE, none⟩ ⟨1, 5, TU_DIAL_TONE, none⟩ rfl rfl rfl rfl
      (Or.inr (Or.inr (by decide)))
  rw [h]
  simp [h1, h2 2 (by decide), ho, two_tus]

/-- C9, as the claim states it, fails: A is ON_HOOK (so not in DIAL_TONE) and
dials extension 6, which no registry node carries; `pbx_dial` returns -1, not
0 (and writes `ON_HOOK 4\n` to A). -/
theorem pbx_dial_unmatched_outside_dial_tone_returns_minus_one :
    idle_AB.tus 1 = some ⟨1, 4, TU_ON_HOOK, none⟩ ∧
    pbx_find_ext idle_AB.pbx.head 6 = none ∧
    (pbx_dial idle_AB 1 6).map (fun r => (r.1, r.2.out)) = some (-1, [(4, "ON_HOOK 4\n")]) := by
  decide

/-- C9, amended: for a TU `t` whose state is not DIAL_TONE (its peer, if any,
being a live TU, and a CONNECTED TU having a peer) and every extension,
`pbx_dial` returns 0 when some registry node carries the extension and -1
when none does; either way it changes no TU (state, peer, reference count)
nor the registry, and writes to `t` exactly the notification of its current
state. -/
theorem pbx_dial_outside_dial_tone (w : World) (t : Nat) (ext : Int) (nt : tu_node)
    (ht : w.tus t = some nt) (hst : nt.state ≠ TU_DIAL_TONE)
    (hpeer : ∀ p, nt.peer = some p → ∃ np, w.tus p = some np)
    (hconn : nt.state = TU_CONNECTED → nt.peer ≠ none) :
    ∃ w', pbx_dial w t ext =
        some (if ∃ nd ∈ w.pbx.head, nd.ext = ext then 0 else -1, w') ∧
      w'.tus = w.tus ∧
      w'.pbx = w.pbx ∧
      w'.out = w.out ++
        [(nt.connfd, state_notification nt.state nt.connfd (peer_ext w nt))] := by
  have hn := dial_notice_eq_state_notification w nt hpeer hconn
  rw [Option.bind_eq_some] at hn
  obtain ⟨pf, hpf, hdn⟩ := hn
  cases hf : pbx_find_ext w.pbx.head ext with
  | none =>
    have hno := (pbx_find_ext_eq_none w.pbx.head ext).mp hf
    have hex : ¬ ∃ nd ∈ w.pbx.head, nd.ext = ext := by
      rintro ⟨nd, hmem, he⟩
      exact hno nd hmem he
    simp [pbx_dial, hf, tu_dial, ht, hst, hpf, hdn, Rio_writen, hex]
  | some nd =>
    have hex : ∃ nd ∈ w.pbx.head, nd.ext = ext :=
      ⟨nd, (pbx_find_ext_mem _ _ _ hf).1, (pbx_find_ext_mem _ _ _ hf).2⟩
    simp [pbx_dial, hf, tu_dial, ht, hst, hpf, hdn, Rio_writen, hex, tu_fileno]

theorem pbx_dial_outside_dial_tone_witness :
    (pbx_dial (two_tus ⟨2, 4, TU_CONNECTED, some 2⟩ ⟨2, 5, TU_CONNECTED, some 1⟩) 1 5).map
      (fun r => (r.1, r.2.tus 1, r.2.tus 2, r.2.out)) =
    some (0, some ⟨2, 4, TU_CONNECTED, some 2⟩, some ⟨2, 5, TU_CONNECTED, some 1⟩,
      [(4, "CONNECTED 5\n")]) := by
  obtain ⟨w', h, h1, _, ho⟩ :=
    pbx_dial_outside_dial_tone
      (two_tus ⟨2, 4, TU_CONNECTED, some 2⟩ ⟨2, 5, TU_CONNECTED, some 1⟩)
      1 5 ⟨2, 4, TU_CONNECTED, some 2⟩ rfl (by decide)
      (by intro p hp; cases hp; exact ⟨_, rfl⟩) (by intro _; simp)
  rw [h]
  simp [h1, ho, two_tus]
  decide

/-- The branches of `tu_pickup` outside RINGING, on live memory.
For a TU `t` whose state is not RINGING (a CONNECTED TU having a live
peer), `tu_pickup t` returns 0, puts `t` in DIAL_TONE if it was ON_HOOK and
leaves its state alone otherwise, changes neither its peer link nor its
reference count nor any other TU, and writes to `t` exactly the notification
of the state it ends in. -/
theorem tu_pickup_not_ringing (w : World) (t : Nat) (nt : tu_node)
    (ht : w.tus t = some nt) (hst : nt.state ≠ TU_RINGING)
    (hconn : nt.state = TU_CONNECTED → ∃ p np, nt.peer = some p ∧ w.tus p = some np) :
    ∃ w', tu_pickup w t = some (0, w') ∧
      w'.tus t = some { nt with
        state := if nt.state = TU_ON_HOOK then TU_DIAL_TONE else nt.state } ∧
      (∀ v, v ≠ t → w'.tus v = w.tus v) ∧
      w'.pbx = w.pbx ∧
      w'.out = w.out ++
        [(nt.connfd, state_notification
          (if nt.state = TU_ON_HOOK then TU_DIAL_TONE else nt.state) nt.connfd
          (peer_ext w nt))] := by
  obtain ⟨r, c, s, p⟩ := nt
  cases s
  case TU_RINGING => exact absurd rfl hst
  case TU_CONNECTED =>
    obtain ⟨q, nq, hq, hlive⟩ := hconn rfl
    simp only at hq
    subst hq
    simp [tu_pickup, ht, hlive, Rio_writen, tu_state_names, tu_fileno, state_notification,
      peer_ext]
  case TU_ON_HOOK =>
    simp [tu_pickup, ht, World.upd, Rio_writen, tu_state_names, tu_fileno, state_notification]
    intro v hvt
    simp [Function.update, hvt]
  all_goals
    simp [tu_pickup, ht, Rio_writen, tu_state_names, tu_fileno, state_notification]

theorem tu_pickup_not_ringing_witness :
    (tu_pickup idle_AB 1).map (fun r => (r.1, r.2.tus 1, r.2.tus 2, r.2.out)) =
    some (0, some ⟨1, 4, TU_DIAL_TONE, none⟩, some ⟨1, 5, TU_ON_HOOK, none⟩,
      [(4, "DIAL_TONE\n")]) := by
  obtain ⟨w', h, h1, h2, _, ho⟩ :=
    tu_pickup_not_ringing idle_AB 1 ⟨1, 4, TU_ON_HOOK, none⟩ rfl (by decide)
      (by intro h; exact absurd h (by decide))
  rw [h]
  simp [h1, h2 2 (by decide), ho, idle_AB, two_tus, state_notification]

/-- C11: for a registered TU `t` (extension not -1) in DIAL_TONE, BUSY_SIGNAL
or ERROR, `tu_hangup t` returns 0, puts `t` in ON_HOOK (peer link and
reference count as they were), changes no other TU, and writes exactly
`ON_HOOK <t_ext>\n` to `t`. -/
theorem tu_hangup_idle_states (w : World) (t : Nat) (nt : tu_node)
    (ht : w.tus t = some nt) (hreg : nt.connfd ≠ -1)
    (hst : nt.state = TU_DIAL_TONE ∨ nt.state = TU_BUSY_SIGNAL ∨ nt.state = TU_ERROR) :
    ∃ w', tu_hangup w t = some (0, w') ∧
      w'.tus t = some { nt with state := TU_ON_HOOK } ∧
      (∀ v, v ≠ t → w'.tus v = w.tus v) ∧
      w'.pbx = w.pbx ∧
      w'.out = w.out ++ [(nt.connfd, "ON_HOOK " ++ toString nt.connfd ++ "\n")] := by
  rcases hst with hst | hst | hst <;>
  · simp [tu_hangup, ht, hreg, hst, World.upd, Rio_writen, tu_state_names, tu_fileno]
    intro v hvt
    simp [Function.update, hvt]

theorem tu_hangup_idle_states_witness :
    (tu_hangup (two_tus ⟨1, 4, TU_ERROR, none⟩ ⟨1, 5, TU_ON_HOOK, none⟩) 1).map
      (fun r => (r.1, r.2.tus 1, r.2.tus 2, r.2.out)) =
    some (0, some ⟨1, 4, TU_ON_HOOK, none⟩, some ⟨1, 5, TU_ON_HOOK, none⟩,
      [(4, "ON_HOOK 4\n")]) := by
  obtain ⟨w', h, h1, h2, _, ho⟩ :=
    tu_hangup_idle_states (two_tus ⟨1, 4, TU_ERROR, none⟩ ⟨1, 5, TU_ON_HOOK, none⟩)
      1 ⟨1, 4, TU_ERROR, none⟩ rfl (by decide) (Or.inr (Or.inr rfl))
  rw [h]
  simp [h1, h2 2 (by decide), ho, two_tus]
  decide

/-- C12 (the code departs from the claim): A at extension 4 is registered and
ON_HOOK.  `tu_hangup A` changes no TU and writes `ON_HOOK 4\n` to A, as
claimed, but it returns -1, not 0. -/
theorem tu_hangup_on_hook_returns_minus_one :
    (tu_hangup idle_AB 1).map (fun r => (r.1, r.2.tus 1, r.2.tus 2, r.2.out)) =
    some (-1, some ⟨1, 4, TU_ON_HOOK, none⟩, some ⟨1, 5, TU_ON_HOOK, none⟩,
      [(4, "ON_HOOK 4\n")]) := by
  decide

/-- C13: for a TU `t` in CONNECTED whose peer is the TU `p`, and every message
`msg`, `tu_chat t msg` returns 0, changes no TU at all (state, peer, reference
count), and writes exactly `CHAT ` followed by `msg` as it is to `p` and then
`CONNECTED <p_ext>\n` to `t`. -/
theorem tu_chat_connected (w : World) (t p : Nat) (nt np : tu_node) (msg : String)
    (ht : w.tus t = some nt) (hp : w.tus p = some np)
    (hst : nt.state = TU_CONNECTED) (hpeer : nt.peer = some p) :
    ∃ w', tu_chat w t msg = some (0, w') ∧
      w'.tus = w.tus ∧
      w'.pbx = w.pbx ∧
      w'.out = w.out ++ [(np.connfd, "CHAT " ++ msg),
        (nt.connfd, "CONNECTED " ++ toString np.connfd ++ "\n")] := by
  simp [tu_chat, ht, hp, hst, hpeer, Rio_writen, tu_state_names]

theorem tu_chat_connected_witness :
    (tu_chat (two_tus ⟨2, 4, TU_CONNECTED, some 2⟩ ⟨2, 5, TU_CONNECTED, some 1⟩) 1
      "hello\n").map (fun r => (r.1, r.2.tus 1, r.2.tus 2, r.2.out)) =
    some (0, some ⟨2, 4, TU_CONNECTED, some 2⟩, some ⟨2, 5, TU_CONNECTED, some 1⟩,
      [(5, "CHAT hello\n"), (4, "CONNECTED 5\n")]) := by
  obtain ⟨w', h, h1, _, ho⟩ :=
    tu_chat_connected (two_tus ⟨2, 4, TU_CONNECTED, some 2⟩ ⟨2, 5, TU_CONNECTED, some 1⟩)
      1 2 ⟨2, 4, TU_CONNECTED, some 2⟩ ⟨2, 5, TU_CONNECTED, some 1⟩ "hello\n" rfl rfl rfl rfl
  rw [h]
  simp [h1, ho, two_tus]
  decide

/-- C14: for a TU `t` whose state is not CONNECTED and every message,
`tu_chat t msg` returns -1, changes no TU, and writes one text only, to `t`:
the notification of its current state (`ON_HOOK <t_ext>\n` when ON_HOOK, the
bare state name and a newline otherwise). -/
theorem tu_chat_not_connected (w : World) (t : Nat) (nt : tu_node) (msg : String)
    (ht : w.tus t = some nt) (hst : nt.state ≠ TU_CONNECTED) :
    ∃ w', tu_chat w t msg = some (-1, w') ∧
      w'.tus = w.tus ∧
      w'.pbx = w.pbx ∧
      w'.out = w.out ++ [(nt.connfd,
        if nt.state = TU_ON_HOOK then "ON_HOOK " ++ toString nt.connfd ++ "\n"
        else tu_state_names nt.state ++ "\n")] ∧
      w'.out = w.out ++
        [(nt.connfd, state_notification nt.state nt.connfd (peer_ext w nt))] := by
  obtain ⟨r, c, s, p⟩ := nt
  cases s <;>
    simp_all [tu_chat, Rio_writen, tu_state_names, state_notification]

theorem tu_chat_not_connected_witness :
    (tu_chat (two_tus ⟨1, 4, TU_RING_BACK, some 2⟩ ⟨1, 5, TU_RINGING, some 1⟩) 1
      "hello\n").map (fun r => (r.1, r.2.tus 1, r.2.tus 2, r.2.out)) =
    some (-1, some ⟨1, 4, TU_RING_BACK, some 2⟩, some ⟨1, 5, TU_RINGING, some 1⟩,
      [(4, "RING_BACK\n")]) := by
  obtain ⟨w', h, h1, _, _, ho⟩ :=
    tu_chat_not_connected (two_tus ⟨1, 4, TU_RING_BACK, some 2⟩ ⟨1, 5, TU_RINGING, some 1⟩)
      1 ⟨1, 4, TU_RING_BACK, some 2⟩ "hello\n" rfl (by decide)
  rw [h]
  simp [h1, ho, two_tus, state_notification]

/-- C16: for two distinct registered TUs A and B, both ON_HOOK without peer,
with B the TU the registry finds under B's extension, the commands `pickup`
by A, `dial <ext_B>` by A, `pickup` by B leave both CONNECTED, each the peer
of the other, each with one reference more; `hangup` by A then leaves A in
ON_HOOK and B in DIAL_TONE, both without peer and with the reference counts
they had before the call (A is exactly as it was at the start, B differs from
its start only by its state). -/
theorem round_trip_call (w : World) (a b : Nat) (na nb : tu_node)
    (ha : w.tus a = some na) (hb : w.tus b = some nb) (hab : a ≠ b)
    (hreg : na.connfd ≠ -1)
    (hsa : na.state = TU_ON_HOOK) (hpa : na.peer = none)
    (hsb : nb.state = TU_ON_HOOK) (hpb : nb.peer = none)
    (hfind : ∃ nd, pbx_find_ext w.pbx.head nb.connfd = some nd ∧ nd.tu = b) :
    ∃ w1 w2,
      run w [Op.pickup a, Op.dial a nb.connfd, Op.pickup b] = some w1 ∧
      w1.tus a = some { na with
        state := TU_CONNECTED
        peer := some b
        ref_cnt := na.ref_cnt + 1 } ∧
      w1.tus b = some { nb with
        state := TU_CONNECTED
        peer := some a
        ref_cnt := nb.ref_cnt + 1 } ∧
      run w1 [Op.hangup a] = some w2 ∧
      w2.tus a = some na ∧
      w2.tus b = some { nb with state := TU_DIAL_TONE } := by
  obtain ⟨nd, hnd, hndb⟩ := hfind
  have hba : b ≠ a := Ne.symm hab
  obtain ⟨x1, h1, h1a, h1b, h1p⟩ : ∃ x1, tu_pickup w a = some (0, x1) ∧
      x1.tus a = some { na with state := TU_DIAL_TONE } ∧ x1.tus b = some nb ∧
      x1.pbx = w.pbx :=
    ⟨_, eff_pickup_on_hook w a na ha hsa, by simp, by simp [Function.update, hba, hb], rfl⟩
  obtain ⟨x2, h2, h2a, h2b⟩ : ∃ x2, tu_dial x1 a (some b) = some (0, x2) ∧
      x2.tus a = some { na with state := TU_RING_BACK, peer := some b } ∧
      x2.tus b = some { nb with state := TU_RINGING, peer := some a } :=
    ⟨_, eff_dial_ring x1 a b _ nb h1a h1b hba rfl hsb hpb, by simp [Function.update, hab],
      by simp⟩
  obtain ⟨x3, h3, h3a, h3b⟩ : ∃ x3, tu_pickup x2 b = some (0, x3) ∧
      x3.tus a = some { na with
        state := TU_CONNECTED
        peer := some b
        ref_cnt := na.ref_cnt + 1 } ∧
      x3.tus b = some { nb with
        state := TU_CONNECTED
        peer := some a
        ref_cnt := nb.ref_cnt + 1 } :=
    ⟨_, eff_pickup_ringing x2 b a _ _ h2b h2a hab rfl rfl, by simp,
      by simp [Function.update, hba]⟩
  obtain ⟨x4, h4, h4a, h4b⟩ : ∃ x4, tu_hangup x3 a = some (0, x4) ∧
      x4.tus a = some { na with state := TU_ON_HOOK, peer := none } ∧
      x4.tus b = some { nb with state := TU_DIAL_TONE, peer := none } :=
    ⟨_, eff_hangup_engaged x3 a b _ _ h3a h3b hba hreg (Or.inl rfl) rfl,
      by simp [Function.update, hab], by simp⟩
  refine ⟨x3, x4, ?_, h3a, h3b, ?_, ?_, ?_⟩
  · simp [run, step, pbx_dial, h1, h1p, hnd, hndb, h2, h3]
  · simp [run, step, h4]
  · rw [h4a]
    cases na
    simp_all
  · rw [h4b]
    cases nb
    simp_all

theorem round_trip_call_witness :
    (run idle_AB [Op.pickup 1, Op.dial 1 5, Op.pickup 2, Op.hangup 1]).map
      (fun w => (w.tus 1, w.tus 2)) =
    some (some ⟨1, 4, TU_ON_HOOK, none⟩, some ⟨1, 5, TU_DIAL_TONE, none⟩) := by
  obtain ⟨w1, w2, h1, _, _, h2, ha, hb⟩ :=
    round_trip_call idle_AB 1 2 ⟨1, 4, TU_ON_HOOK, none⟩ ⟨1, 5, TU_ON_HOOK, none⟩ rfl rfl
      (by decide) (by decide) rfl rfl rfl rfl ⟨⟨2, 5⟩, by decide, rfl⟩
  have h : run idle_AB [Op.pickup 1, Op.dial 1 5, Op.pickup 2, Op.hangup 1] = some w2 := by
    simp only [run] at h1 h2 ⊢
    simp only [Option.bind_eq_some] at h1 h2 ⊢
    obtain ⟨x1, e1, x2, e2, x3, e3, e4⟩ := h1
    obtain ⟨x4, e5, e6⟩ := h2
    cases e4
    cases e6
    exact ⟨x1, e1, x2, e2, w1, e3, w2, e5, rfl⟩
  rw [h]
  simp [ha, hb]

/-- C18: with A registered at extension 4 and B at extension 5, both ON_HOOK,
the commands `pickup` by A, `dial 5` by A, `pickup` by B, `chat hello\n` by A,
`hangup` by B write to A exactly `DIAL_TONE\n`, `RING_BACK\n`, `CONNECTED 5\n`,
`CONNECTED 5\n`, `DIAL_TONE\n`, and to B exactly `RINGING\n`, `CONNECTED 4\n`,
`CHAT hello\n`, `ON_HOOK 5\n`, in these orders, and to no other descriptor. -/
theorem scenario_call_chat_hangup_traces :
    (run idle_AB [Op.pickup 1, Op.dial 1 5, Op.pickup 2, Op.chat 1 "hello\n",
      Op.hangup 2]).map
      (fun w => (writes_to 4 w.out, writes_to 5 w.out, w.out.length)) =
    some (["DIAL_TONE\n", "RING_BACK\n", "CONNECTED 5\n", "CONNECTED 5\n", "DIAL_TONE\n"],
      ["RINGING\n", "CONNECTED 4\n", "CHAT hello\n", "ON_HOOK 5\n"], 9) := by
  decide

/-- Registration as the embedding runs it.
`tu_init` returns a TU in ON_HOOK without peer, with reference count
0, and writes nothing; for such a TU `t` and every extension `e ≥ 0`,
`pbx_register t e` (the node allocation succeeding) returns 0, appends the one
entry `(t, e)` behind the existing entries, which stay as they are, raises
the reference count of `t` from 0 to 1, records `e` as its extension, leaves
it ON_HOOK without peer, changes no other TU, and writes exactly
`ON_HOOK <e>\n` to descriptor `e` (the connection of `t` only when `e` is the
descriptor given to `tu_init`). -/
theorem pbx_register_after_tu_init (w0 : World) (t : Nat) (fd e : Int) (he : 0 ≤ e) :
    ∃ w, tu_init w0 (some t) true fd = (some t, w) ∧
      w.tus t = some ⟨0, fd, TU_ON_HOOK, none⟩ ∧ w.out = w0.out ∧
      ∃ w', pbx_register w t e true = some (0, w') ∧
        w'.pbx.head = w.pbx.head ++ [⟨t, e⟩] ∧
        w'.pbx.node_count = w.pbx.node_count + 1 ∧
        w'.tus t = some ⟨1, e, TU_ON_HOOK, none⟩ ∧
        (∀ v, v ≠ t → w'.tus v = w.tus v) ∧
        w'.out = w.out ++ [(e, "ON_HOOK " ++ toString e ++ "\n")] := by
  have hne : e ≠ -1 := by omega
  refine ⟨_, rfl, by simp, rfl, ?_⟩
  simp [pbx_register, tu_ref, tu_set_extension, World.upd, Rio_writen, tu_state_names, hne,
    pbx_append_eq]
  intro v hv
  simp [Function.update, hv]

theorem pbx_register_after_tu_init_witness :
    (pbx_register (tu_init idle_AB (some 3) true 6).2 3 6 true).map
      (fun r => (r.1, r.2.tus 3, r.2.pbx.head, r.2.out)) =
    some (0, some ⟨1, 6, TU_ON_HOOK, none⟩, [⟨1, 4⟩, ⟨2, 5⟩, ⟨3, 6⟩], [(6, "ON_HOOK 6\n")]) := by
  obtain ⟨w, hw, _, hwo, w', h, hh, _, ht, _, ho⟩ :=
    pbx_register_after_tu_init idle_AB 3 6 6 (by decide)
  have hw2 : (tu_init idle_AB (some 3) true 6).2 = w := by rw [hw]
  have hp : w.pbx.head = [⟨1, 4⟩, ⟨2, 5⟩] := by rw [← hw2]; rfl
  rw [hw2, h]
  simp [ht, hh, ho, hwo, hp, idle_AB, two_tus]
  decide

/-- C20 (the code departs from the claim): B at extension 5 is registered and
idle, A is at extension 4.  `pbx_unregister B` returns 0 and writes nothing,
B is released, but its node stays in the list with `ext = -1` and the old
pointer: the lookup for extension -1 finds this node, so a `dial -1` by A
selects B as target; with A in DIAL_TONE, `tu_dial` then reads the released
TU and the call does not return normally. -/
theorem dial_minus_one_selects_unregistered_tu :
    (pbx_unregister idle_AB 2).map (fun r => (r.1, r.2.tus 2, r.2.pbx.head, r.2.out)) =
      some (0, none, [⟨1, 4⟩, ⟨2, -1⟩], []) ∧
    (pbx_unregister idle_AB 2).bind (fun r => pbx_find_ext r.2.pbx.head (-1)) =
      some ⟨2, -1⟩ ∧
    ((pbx_unregister idle_AB 2).bind (fun r => tu_pickup r.2 1)).map
      (fun r => (r.1, r.2.tus 1)) = some (0, some ⟨1, 4, TU_DIAL_TONE, none⟩) ∧
    (((pbx_unregister idle_AB 2).bind (fun r => tu_pickup r.2 1)).bind
      (fun r => pbx_dial r.2 1 (-1))).isNone = true := by
  refine ⟨?_, ?_, ?_, ?_⟩
  · decide
  · decide
  · decide
  · decide

/-- Notifications in a well-formed world.
In a well-formed world (every TU registered under its own extension,
peers and registry nodes live, calls paired), every command `pickup`,
`hangup`, `dial`, `chat` issued by a TU `t`, whatever its state, returns and
writes exactly one text to `t`, the notification of the state `t` is left in;
every other TU whose state the command changes is the peer or the dial target
of `t` and is written exactly one text, the notification of its new state;
and nothing is written to a TU that is neither `t` nor its peer nor its dial
target. -/
theorem every_command_notifies (w : World) (op : Op) (nt : tu_node) (hinv : call_inv w)
    (ht : w.tus op.tu = some nt) :
    ∃ w' delta nt', step w op = some w' ∧ w'.out = w.out ++ delta ∧
      w'.tus op.tu = some nt' ∧
      writes_to nt.connfd delta =
        [state_notification nt'.state nt'.connfd (peer_ext w' nt')] ∧
      (∀ v nv nv', v ≠ op.tu → w.tus v = some nv → w'.tus v = some nv' →
        nv'.state ≠ nv.state →
        (nt.peer = some v ∨ dial_target w op = some v) ∧
        writes_to nv.connfd delta =
          [state_notification nv'.state nv'.connfd (peer_ext w' nv')]) ∧
      (∀ v nv, v ≠ op.tu → w.tus v = some nv → nt.peer ≠ some v →
        dial_target w op ≠ some v → writes_to nv.connfd delta = []) := by
  obtain ⟨w', hstep, _, hs⟩ := step_has_shape w op nt hinv ht
  have fd_ne : ∀ v nv, v ≠ op.tu → w.tus v = some nv → nv.connfd ≠ nt.connfd := by
    intro v nv hv hl hc
    exact hv (hinv.distinct v op.tu nv nt hl ht hc)
  cases hs with
  | quiet hh ho =>
    refine ⟨w', _, nt, hstep, ho, by rw [hh, ht], ?_, ?_, ?_⟩
    · rw [writes_to_one_same]
      simp [peer_ext, hh]
    · intro v nv nv' hv hl hl' hne
      rw [hh, hl] at hl'
      cases hl'
      exact absurd rfl hne
    · intro v nv hv hl _ _
      exact writes_to_one_other _ _ _ (Ne.symm (fd_ne v nv hv hl))
  | chat p np msg _ hst hp hpt hlp hh ho =>
    refine ⟨w', _, nt, hstep, ho, by rw [hh, ht], ?_, ?_, ?_⟩
    · rw [writes_to_two_second _ _ _ _ (fd_ne p np hpt hlp)]
      rw [peer_ext_of_live w' nt np p hp (by rw [hh, hlp])]
    · intro v nv nv' hv hl hl' hne
      rw [hh, hl] at hl'
      cases hl'
      exact absurd rfl hne
    · intro v nv hv hl hnp _
      have hvp : v ≠ p := by
        intro h; subst h; exact hnp hp
      have h1 : np.connfd ≠ nv.connfd := by
        intro hc
        exact hvp (hinv.distinct v p nv np hl hlp hc.symm)
      exact writes_to_two_none _ _ _ _ _ h1 (Ne.symm (fd_ne v nv hv hl))
  | solo nt' hh hc hpe _ _ he' _ ho =>
    refine ⟨w', _, nt', hstep, ho, by rw [hh]; simp, ?_, ?_, ?_⟩
    · rw [writes_to_one_same, hc]
      congr 1
      apply state_notification_congr
      intro hcon
      exact absurd (Or.inr (Or.inr hcon)) he'
    · intro v nv nv' hv hl hl' hne
      rw [hh] at hl'
      simp [Function.update, hv, hl] at hl'
      subst hl'
      exact absurd rfl hne
    · intro v nv hv hl _ _
      exact writes_to_one_other _ _ _ (Ne.symm (fd_ne v nv hv hl))
  | duo o no nt' no' hne hlo hrel hh hct hco _ _ hnew _ _ ho =>
    have hto : op.tu ≠ o := Ne.symm hne
    have at_t : w'.tus op.tu = some nt' := by rw [hh]; simp [Function.update, hto]
    have at_o : w'.tus o = some no' := by rw [hh]; simp
    have hfo : no.connfd ≠ nt.connfd := fd_ne o no hne hlo
    refine ⟨w', _, nt', hstep, ho, at_t, ?_, ?_, ?_⟩
    · rw [writes_to_two_first _ _ _ _ hfo, hct]
      congr 1
      apply state_notification_congr
      intro hcon
      obtain ⟨h1, _, _⟩ := hnew (Or.inl (Or.inr (Or.inr hcon)))
      rw [peer_ext_of_live w' nt' no' o h1 at_o, hco]
    · intro v nv nv' hv hl hl' hchg
      have hvo : v = o := by
        by_contra hvo
        rw [hh] at hl'
        simp [Function.update, hv, hvo, hl] at hl'
        subst hl'
        exact hchg rfl
      subst hvo
      rw [hlo] at hl
      cases hl
      rw [at_o] at hl'
      cases hl'
      refine ⟨hrel, ?_⟩
      rw [writes_to_two_second _ _ _ _ (Ne.symm hfo), hco]
      congr 1
      apply state_notification_congr
      intro hcon
      obtain ⟨_, h2, _⟩ := hnew (Or.inr (Or.inr (Or.inr hcon)))
      rw [peer_ext_of_live w' _ nt' op.tu h2 at_t, hct]
    · intro v nv hv hl hnp hnd
      have hvo : v ≠ o := by
        intro h
        subst h
        rcases hrel with h | h
        · exact hnp h
        · exact hnd h
      have h1 : no.connfd ≠ nv.connfd := by
        intro hc
        exact hvo (hinv.distinct v o nv no hl hlo hc.symm)
      exact writes_to_two_none _ _ _ _ _ (Ne.symm (fd_ne v nv hv hl)) h1

theorem every_command_notifies_witness :
    ∃ w' delta, step connected_AB (Op.hangup 2) = some w' ∧
      w'.out = connected_AB.out ++ delta ∧ (writes_to 5 delta).length = 1 := by
  obtain ⟨w', delta, nt', hstep, ho, _, h1, _, _⟩ :=
    every_command_notifies connected_AB (Op.hangup 2) ⟨2, 5, TU_CONNECTED, some 1⟩
      connected_AB_inv rfl
  exact ⟨w', delta, hstep, ho, by rw [h1]; rfl⟩

/-- Hanging up twice when no client has disconnected.
In every world reached from freshly registered TUs by commands
`dial`, `pickup`, `hangup`, `chat`, for every TU `t`: `tu_hangup t` run twice
in a row returns both times, leaves `t` in ON_HOOK, writes to `t` exactly two
texts, each `ON_HOOK <t_ext>\n`, and the second run changes no TU at all, so
every state is what it was after the first. -/
theorem hangup_twice (w0 w : World) (ops : List Op) (t : Nat) (nt : tu_node)
    (hfresh : freshly_registered w0) (hsound : registry_sound w0)
    (hrun : run w0 ops = some w) (ht : w.tus t = some nt) :
    ∃ r1 r2 w1 w2 n2 delta,
      tu_hangup w t = some (r1, w1) ∧ tu_hangup w1 t = some (r2, w2) ∧
      w2.tus t = some n2 ∧ n2.state = TU_ON_HOOK ∧ n2.connfd = nt.connfd ∧
      w2.out = w.out ++ delta ∧
      writes_to nt.connfd delta =
        ["ON_HOOK " ++ toString nt.connfd ++ "\n", "ON_HOOK " ++ toString nt.connfd ++ "\n"] ∧
      w2.tus = w1.tus := by
  have hinv : call_inv w := call_inv_run ops w0 w (call_inv_of_fresh w0 hfresh hsound) hrun
  have hreg := hinv.registered t nt ht
  -- the first hangup
  obtain ⟨r1, w1, n1, d1, h1, h1t, h1s, h1c, h1o, h1w⟩ :
      ∃ r1 w1 n1 d1, tu_hangup w t = some (r1, w1) ∧ w1.tus t = some n1 ∧
        n1.state = TU_ON_HOOK ∧ n1.connfd = nt.connfd ∧ w1.out = w.out ++ d1 ∧
        writes_to nt.connfd d1 = ["ON_HOOK " ++ toString nt.connfd ++ "\n"] := by
    by_cases c1 : nt.state = TU_CONNECTED ∨ nt.state = TU_RINGING
    · have he : engaged nt.state := by
        rcases c1 with h | h <;> simp [engaged, h]
      obtain ⟨p, np, hp, hne, hlp, _, _⟩ := hinv.paired t nt ht he
      have hfd : np.connfd ≠ nt.connfd := fun hc => hne (hinv.distinct p t np nt hlp ht hc)
      exact ⟨_, _, { nt with
          state := TU_ON_HOOK
          peer := none
          ref_cnt := if nt.state = TU_CONNECTED then nt.ref_cnt - 1 else nt.ref_cnt }, _,
        eff_hangup_engaged w t p nt np ht hlp hne hreg c1 hp,
        by simp [Function.update, Ne.symm hne], rfl, rfl, rfl,
        writes_to_two_first _ _ _ _ hfd⟩
    · by_cases c2 : nt.state = TU_RING_BACK
      · obtain ⟨p, np, hp, hne, hlp, _, _⟩ := hinv.paired t nt ht (Or.inr (Or.inl c2))
        have hfd : np.connfd ≠ nt.connfd :=
          fun hc => hne (hinv.distinct p t np nt hlp ht hc)
        exact ⟨_, _, { nt with state := TU_ON_HOOK }, _,
          eff_hangup_ring_back w t p nt np ht hlp hne hreg c2 hp,
          by simp [Function.update, Ne.symm hne], rfl, rfl, rfl,
          writes_to_two_first _ _ _ _ hfd⟩
      · by_cases c3 : nt.state = TU_ON_HOOK
        · exact ⟨_, _, nt, _, eff_hangup_on_hook w t nt ht hreg c3, ht, c3, rfl, rfl,
            writes_to_one_same _ _⟩
        · have c4 : nt.state = TU_DIAL_TONE ∨ nt.state = TU_BUSY_SIGNAL ∨
              nt.state = TU_ERROR := by
            cases hs : nt.state <;> simp_all
          exact ⟨_, _, { nt with state := TU_ON_HOOK }, _,
            eff_hangup_idle w t nt ht hreg c4, by simp, rfl, rfl, rfl,
            writes_to_one_same _ _⟩
  -- the second hangup finds `t` ON_HOOK
  have hreg1 : n1.connfd ≠ -1 := by rw [h1c]; exact hreg
  have h2 := eff_hangup_on_hook w1 t n1 h1t hreg1 h1s
  refine ⟨r1, -1, w1, _, n1, d1 ++ [(n1.connfd, "ON_HOOK " ++ toString n1.connfd ++ "\n")],
    h1, h2, h1t, h1s, h1c, ?_, ?_, rfl⟩
  · simp [h1o]
  · rw [writes_to_append, h1w, h1c, writes_to_one_same]
    rfl

theorem hangup_twice_witness :
    ∃ r1 r2 w1 w2, tu_hangup idle_AB 1 = some (r1, w1) ∧ tu_hangup w1 1 = some (r2, w2) ∧
      writes_to 4 w2.out = ["ON_HOOK 4\n", "ON_HOOK 4\n"] := by
  obtain ⟨r1, r2, w1, w2, n2, delta, h1, h2, _, _, _, ho, hw, _⟩ :=
    hangup_twice idle_AB idle_AB [] 1 ⟨1, 4, TU_ON_HOOK, none⟩ idle_AB_fresh idle_AB_sound
      rfl rfl
  refine ⟨r1, r2, w1, w2, h1, h2, ?_⟩
  rw [ho, writes_to_append, hw]
  decide

/-- C21 (the code departs from the claim): A at extension 4 is in RING_BACK
and B at extension 5 is RINGING, each the peer of the other.  `tu_hangup A`
would put B in ON_HOOK and write `ON_HOOK 5\n` to it; `pbx_unregister A`
instead puts B in DIAL_TONE, writes `DIAL_TONE\n` to it, and takes one
reference from it (B ends without peer, as claimed). -/
theorem pbx_unregister_ring_back_sends_peer_to_dial_tone :
    (tu_hangup (two_tus ⟨1, 4, TU_RING_BACK, some 2⟩ ⟨1, 5, TU_RINGING, some 1⟩) 1).map
      (fun r => (r.1, r.2.tus 2, writes_to 5 r.2.out)) =
      some (0, some ⟨1, 5, TU_ON_HOOK, some 1⟩, ["ON_HOOK 5\n"]) ∧
    (pbx_unregister (two_tus ⟨1, 4, TU_RING_BACK, some 2⟩ ⟨1, 5, TU_RINGING, some 1⟩) 1).map
      (fun r => (r.1, r.2.tus 2, writes_to 5 r.2.out)) =
      some (0, some ⟨0, 5, TU_DIAL_TONE, none⟩, ["DIAL_TONE\n"]) := by
  constructor <;> decide

/-- C22 (the code departs from the claim): A and B connect and register, A
picks up and dials B, B picks up, so A is CONNECTED with two references; then
A is unregistered.  When the storage of A is released its reference count is
1, not 0: only one reference has been dropped. -/
theorem pbx_unregister_connected_leaves_one_reference :
    (ev_run empty_world (connect_ABC ++ [Ev.command (Op.pickup 1), Ev.command (Op.dial 1 5),
      Ev.command (Op.pickup 2)])).map (fun w => w.tus 1) =
      some (some ⟨2, 4, TU_CONNECTED, some 2⟩) ∧
    (ev_run empty_world (connect_ABC ++ [Ev.command (Op.pickup 1), Ev.command (Op.dial 1 5),
      Ev.command (Op.pickup 2), Ev.unregister 1])).map (fun w => (w.tus 1, w.released)) =
      some (none, [(1, ⟨1, -1, TU_CONNECTED, none⟩)]) := by
  constructor <;> decide

/-- C23 (the code departs from the claim): A, B and C connect and register,
then B is unregistered.  The node of B stays in the list with `ext = -1`, so
the lookup for extension -1 selects it although B is released; when A, in
DIAL_TONE, dials -1, `pbx_dial` passes the released B to `tu_dial`, which
reads it, and the call does not return normally. -/
theorem registry_lookup_finds_unregistered_node :
    (ev_run empty_world (connect_ABC ++ [Ev.unregister 2, Ev.command (Op.pickup 1)])).map
      (fun w => (w.tus 2, w.pbx.head, dial_target w (Op.dial 1 (-1)))) =
      some (none, [⟨1, 4⟩, ⟨2, -1⟩, ⟨3, 6⟩], some 2) ∧
    ((ev_run empty_world (connect_ABC ++ [Ev.unregister 2, Ev.command (Op.pickup 1)])).bind
      (fun w => pbx_dial w 1 (-1))).isNone = true := by
  constructor <;> decide

/-- No test for duplicates: `pbx_register` takes whatever extension
it is given.  Two TUs registered under extension 5 are both listed under 5
and both carry extension 5. -/
theorem pbx_register_accepts_duplicate_extension :
    (ev_run empty_world [Ev.init 1 4, Ev.register 1 5, Ev.init 2 6, Ev.register 2 5]).map
      (fun w => (w.tus 1, w.tus 2, w.pbx.head)) =
    some (some ⟨1, 5, TU_ON_HOOK, none⟩, some ⟨1, 5, TU_ON_HOOK, none⟩, [⟨1, 5⟩, ⟨2, 5⟩]) := by
  decide

/-- Uniqueness under fresh extensions.  In every registry state reached from the empty registry
through `tu_init`, `pbx_register` and `pbx_unregister`, when every
registration is given an extension that is not -1 and that no node carries at
that moment, every registered entry has an extension other than -1 and no two
registered entries have the same extension. -/
theorem registered_extensions_unique (evs : List Ev) (w : World)
    (hf : fresh_registrations empty_world evs) (hrun : ev_run empty_world evs = some w) :
    (∀ e ∈ registered_exts w.pbx.head, e ≠ -1) ∧ (registered_exts w.pbx.head).Nodup :=
  ⟨fun e he => registered_exts_ne _ e he,
    registered_exts_nodup_run evs empty_world w (by simp [registered_exts, empty_world]) hf hrun⟩

theorem registered_extensions_unique_witness :
    ∃ w, ev_run empty_world [Ev.init 1 4, Ev.register 1 4, Ev.init 2 5, Ev.register 2 5] =
        some w ∧
      (registered_exts w.pbx.head).Nodup := by
  have hsome : (ev_run empty_world
      [Ev.init 1 4, Ev.register 1 4, Ev.init 2 5, Ev.register 2 5]).isSome = true := by decide
  obtain ⟨w, hw⟩ := Option.isSome_iff_exists.mp hsome
  refine ⟨w, hw, (registered_extensions_unique _ w ?_ hw).2⟩
  refine ⟨trivial, fun w1 h1 => ⟨⟨by decide, ?_⟩, fun w2 h2 => ⟨trivial, fun w3 h3 =>
    ⟨⟨by decide, ?_⟩, fun _ _ => trivial⟩⟩⟩⟩
  · rw [ev_step_init_pbx h1]
    simp [empty_world]
  · rw [ev_step_init_pbx h3, ev_step_register_head h2, ev_step_init_pbx h1]
    simp [empty_world]

/-- C25 (the code departs from the claim): A, B, C connect and register.  A
picks up, dials B and is unregistered while B rings; B hangs up; C picks up,
dials B and is unregistered while B rings.  B is then a live, registered TU
with reference count -1. -/
theorem abandoned_callers_drive_reference_count_negative :
    (ev_run empty_world (connect_ABC ++ [Ev.command (Op.pickup 1), Ev.command (Op.dial 1 5),
      Ev.unregister 1, Ev.command (Op.hangup 2), Ev.command (Op.pickup 3),
      Ev.command (Op.dial 3 5), Ev.unregister 3])).map (fun w => (w.tus 2, w.pbx.head)) =
    some (some ⟨-1, 5, TU_DIAL_TONE, none⟩, [⟨1, -1⟩, ⟨2, 5⟩, ⟨3, -1⟩]) := by
  decide

/-- C26 (the code departs from the claim): A, B, C connect and register, A
picks up, dials B, and is unregistered while B rings.  B is then registered,
in DIAL_TONE (not CONNECTED), with reference count 0, not 1. -/
theorem unregistered_caller_takes_reference_from_callee :
    (ev_run empty_world (connect_ABC ++ [Ev.command (Op.pickup 1),
      Ev.command (Op.dial 1 5)])).map (fun w => w.tus 2) =
      some (some ⟨1, 5, TU_RINGING, some 1⟩) ∧
    (ev_run empty_world (connect_ABC ++ [Ev.command (Op.pickup 1), Ev.command (Op.dial 1 5),
      Ev.unregister 1])).map (fun w => (w.tus 2, w.pbx.head)) =
      some (some ⟨0, 5, TU_DIAL_TONE, none⟩, [⟨1, -1⟩, ⟨2, 5⟩, ⟨3, 6⟩]) := by
  constructor <;> decide

/-- C27 (the code departs from the claim): A, B, C connect and register, A
picks up and dials B; then `pbx_shutdown` runs, every `shutdown` call
succeeding.  The registry is empty afterwards and every TU was ON_HOOK when it
was released, but A was released with its peer link to B and B with its peer
link to A. -/
theorem pbx_shutdown_releases_ringing_pair_with_peer_links :
    ((ev_run empty_world (connect_ABC ++ [Ev.command (Op.pickup 1),
      Ev.command (Op.dial 1 5)])).bind (fun w => pbx_shutdown w (fun _ => true))).map
      (fun w => (w.pbx.head, w.released)) =
    some ([], [(1, ⟨0, 4, TU_ON_HOOK, some 2⟩), (2, ⟨0, 5, TU_ON_HOOK, some 1⟩),
      (3, ⟨0, 6, TU_ON_HOOK, none⟩)]) := by
  decide

/-- The store and the write of `tu_set_extension`.
For every TU `t` and every integer `e`, `tu_set_extension t e`
returns 0, makes `e` the extension of `t` (what `tu_extension t` returns
afterwards), leaves its state, peer and reference count and every other TU as
they were, and writes exactly `ON_HOOK <e>\n` to descriptor `e`, whatever
the connection of `t` is, when `e` is not -1, and nothing when it is. -/
theorem tu_set_extension_effect (w : World) (t : Nat) (e : Int) (nt : tu_node)
    (ht : w.tus t = some nt) :
    ∃ w', tu_set_extension w t e = some (0, w') ∧
      w'.tus t = some { nt with connfd := e } ∧
      tu_extension w' t = some e ∧
      (∀ v, v ≠ t → w'.tus v = w.tus v) ∧
      w'.pbx = w.pbx ∧
      w'.out = (if e = -1 then w.out else w.out ++ [(e, "ON_HOOK " ++ toString e ++ "\n")]) := by
  by_cases he : e = -1
  · simp [tu_set_extension, tu_extension, World.upd, ht, he]
    intro v hv
    simp [Function.update, hv]
  · simp [tu_set_extension, tu_extension, World.upd, ht, he, Rio_writen, tu_state_names]
    intro v hv
    simp [Function.update, hv]

theorem tu_set_extension_effect_witness :
    (tu_set_extension idle_AB 1 7).map (fun r => (r.1, r.2.tus 1, r.2.out)) =
    some (0, some ⟨1, 7, TU_ON_HOOK, none⟩, [(7, "ON_HOOK 7\n")]) := by
  obtain ⟨w', h, h1, _, _, _, ho⟩ :=
    tu_set_extension_effect idle_AB 1 7 ⟨1, 4, TU_ON_HOOK, none⟩ rfl
  rw [h]
  simp [h1, ho, idle_AB, two_tus]
  decide


/-- C29, counterexample: a `pickup` or `hangup` line that ends in a bare
newline invokes no operation at all; on two idle TUs nothing is written and
the TU stays ON_HOOK. -/
theorem lf_terminated_pickup_invokes_nothing :
    service_line 1 "pickup\n".toList = some [] ∧
      service_line 1 "hangup\n".toList = some [] ∧
      (serve_line idle_AB 1 "pickup\n".toList).map
        (fun w => (w.out, (w.tus 1).map (fun n => n.state))) = some ([], some TU_ON_HOOK) := by
  decide

/-- C29, amended: the one-token line `pickup` (respectively `hangup`)
terminated by a carriage return and a newline invokes pickup(t) (respectively
hangup(t)) exactly once and nothing else; terminated by a newline alone it
invokes no operation. -/
theorem crlf_terminated_pickup_hangup (t : Nat) :
    service_line t "pickup\r\n".toList = some [Op.pickup t] ∧
      service_line t "hangup\r\n".toList = some [Op.hangup t] ∧
      service_line t "pickup\n".toList = some [] ∧
      service_line t "hangup\n".toList = some [] :=
  ⟨rfl, rfl, rfl, rfl⟩

/-- C30, counterexample: the line `dial abc` is not ignored: `atoi` turns the
word into 0 and dial(t, 0) is invoked; a TU at DIAL_TONE is told ERROR and
moves to that state. -/
theorem non_numeric_dial_invokes_dial_zero :
    service_line 1 "dial abc\r\n".toList = some [Op.dial 1 0] ∧
      (((run idle_AB [Op.pickup 1]).bind
          (fun w => serve_line w 1 "dial abc\r\n".toList)).map
        (fun w => (w.out, (w.tus 1).map (fun n => n.state)))) =
        some ([(4, "DIAL_TONE\n"), (4, "ERROR\n")], some TU_ERROR) := by
  decide

/-- C30, amended: on a line `dial <n>` terminated by a newline, with or
without a carriage return before it, the dispatcher invokes exactly one
operation: dial(t, n) when n is the decimal numeral of an integer in the range
of `int`, and dial(t, 0) when n begins with a character that is neither white
space, a sign nor a digit (n holding no space and no NUL). -/
theorem dial_line_invokes_dial_of_atoi (t : Nat) (eol : List Char)
    (heol : eol = "\r\n".toList ∨ eol = "\n".toList) :
    (∀ k : Int, -2147483648 ≤ k → k ≤ 2147483647 →
        service_line t ("dial ".toList ++ (toString k).toList ++ eol) = some [Op.dial t k]) ∧
      (∀ (c : Char) (r : List Char), is_c_space c = false → c ≠ '-' → c ≠ '+' →
        c.isDigit = false → (∀ a ∈ c :: r ++ eol, a ≠ ' ' ∧ a ≠ NUL) →
        service_line t ("dial ".toList ++ (c :: r ++ eol)) = some [Op.dial t 0]) := by
  have heol2 : ∃ e r, eol = e :: r ∧ e.isDigit = false ∧ ∀ a ∈ eol, a ≠ ' ' ∧ a ≠ NUL := by
    rcases heol with rfl | rfl
    · exact ⟨'\r', ['\n'], rfl, by decide, by decide⟩
    · exact ⟨'\n', [], rfl, by decide, by decide⟩
  obtain ⟨e, r0, he, hed, hep⟩ := heol2
  constructor
  · intro k hlo hhi
    obtain ⟨⟨c, r, hx⟩, hp⟩ := numeral_plain k
    have hl : "dial ".toList ++ (toString k).toList ++ eol =
        'd' :: 'i' :: 'a' :: 'l' :: ' ' :: ((toString k).toList ++ eol) := rfl
    have hns : ∀ a ∈ (toString k).toList ++ eol, a ≠ ' ' ∧ a ≠ NUL := by
      intro a ha
      rcases List.mem_append.mp ha with ha | ha
      · exact hp a ha
      · exact hep a ha
    rw [hl, service_line_dial t _ c (r ++ eol) (by rw [hx]; rfl) hns, he,
      atoi_numeral k e r0 hed hlo hhi]
    rfl
  · intro c r hs h1 h2 hd hns
    have hl : "dial ".toList ++ (c :: r ++ eol) =
        'd' :: 'i' :: 'a' :: 'l' :: ' ' :: (c :: r ++ eol) := rfl
    have ha : atoi (c :: r ++ eol) = some 0 := atoi_non_numeric c (r ++ eol) hs h1 h2 hd
    rw [hl, service_line_dial t (c :: r ++ eol) c (r ++ eol) rfl hns, ha]
    rfl

theorem dial_line_invokes_dial_of_atoi_witness :
    ("\r\n".toList = "\r\n".toList ∨ "\r\n".toList = "\n".toList) ∧
      service_line 1 ("dial ".toList ++ (toString (5 : Int)).toList ++ "\r\n".toList) =
        some [Op.dial 1 5] ∧
      service_line 1 ("dial ".toList ++ ('a' :: "bc".toList ++ "\r\n".toList)) =
        some [Op.dial 1 0] :=
  ⟨Or.inl rfl,
    (dial_line_invokes_dial_of_atoi 1 "\r\n".toList (Or.inl rfl)).1 5 (by decide) (by decide),
    (dial_line_invokes_dial_of_atoi 1 "\r\n".toList (Or.inl rfl)).2 'a' "bc".toList
      (by decide) (by decide) (by decide) (by decide) (by decide)⟩


/-- C31, at the failing input: after `chat` has been handed the rest of the
line, the service loop goes on splitting that same text into tokens and
dispatches them; `chat pickup` also invokes pickup, `chat dial 5` also dials,
and `chat hangup` sent during a call delivers the text and then ends the
call. -/
theorem chat_text_is_dispatched_as_commands :
    service_line 1 "chat pickup\r\n".toList = some [Op.chat 1 "pickup\r\n", Op.pickup 1] ∧
      service_line 1 "chat dial 5\r\n".toList = some [Op.chat 1 "dial 5\r\n", Op.dial 1 5] ∧
      (serve_line connected_AB 1 "chat hangup\r\n".toList).map
        (fun w => (w.out, (w.tus 1).map (fun n => n.state), (w.tus 2).map (fun n => n.state))) =
        some ([(5, "CHAT hangup\r\n"), (4, "CONNECTED 5\n"), (4, "ON_HOOK 4\n"),
            (5, "DIAL_TONE\n")],
          some TU_ON_HOOK, some TU_DIAL_TONE) := by
  decide

/-- C32, at the failing input: a line whose first token is no command is not
dropped as a whole; the service loop passes over the unknown token and
dispatches the next one, so `foo pickup` takes the TU off hook and a
notification is written. -/
theorem unknown_first_token_does_not_end_the_line :
    service_line 1 "foo pickup\r\n".toList = some [Op.pickup 1] ∧
      (serve_line idle_AB 1 "foo pickup\r\n".toList).map
        (fun w => (w.out, (w.tus 1).map (fun n => n.state))) =
        some ([(4, "DIAL_TONE\n")], some TU_DIAL_TONE) := by
  decide

/-- C33: whenever a command `dial`, `pickup`, `hangup` or `chat` returns and a
TU that was not in ERROR before is in ERROR afterwards, the command was a
`dial` issued by that TU at DIAL_TONE with an extension that no node of the
registry carries; and ERROR is left again: `hangup` on that TU (registered,
extension not -1) returns and puts it ON_HOOK. -/
theorem error_only_from_unmatched_dial (w w' : World) (op : Op) (a : Nat) (n n' : tu_node)
    (hstep : step w op = some w') (ha : w.tus a = some n) (ha' : w'.tus a = some n')
    (hn : n.state ≠ TU_ERROR) (hn' : n'.state = TU_ERROR) (hreg : n'.connfd ≠ -1) :
    (∃ ext, op = Op.dial a ext ∧ n.state = TU_DIAL_TONE ∧
        pbx_find_ext w.pbx.head ext = none ∧ ∀ nd ∈ w.pbx.head, nd.ext ≠ ext) ∧
      (∃ w'', step w' (Op.hangup a) = some w'' ∧
        (w''.tus a).map (fun m => m.state) = some TU_ON_HOOK) := by
  constructor
  · obtain ⟨nt, ht⟩ := step_tu_live w w' op hstep
    cases op with
    | pickup t =>
      simp only [Op.tu] at ht
      simp only [step, Option.map_eq_some', Prod.exists, exists_eq_right] at hstep
      obtain ⟨r, h⟩ := hstep
      exact absurd ((tu_pickup_effect w w' t nt r ht h).2 a n n' ha ha' hn') hn
    | hangup t =>
      simp only [Op.tu] at ht
      simp only [step, Option.map_eq_some', Prod.exists, exists_eq_right] at hstep
      obtain ⟨r, h⟩ := hstep
      exact absurd ((tu_hangup_effect w w' t nt r ht h).2 a n n' ha ha' hn') hn
    | chat t msg =>
      simp only [Op.tu] at ht
      simp only [step, Option.map_eq_some', Prod.exists, exists_eq_right] at hstep
      obtain ⟨r, h⟩ := hstep
      exact absurd ((tu_chat_effect w w' t nt msg r ht h).2 a n n' ha ha' hn') hn
    | dial t ext =>
      simp only [Op.tu] at ht
      obtain ⟨r, h⟩ := step_dial_inv w w' t ext hstep
      by_cases hbad : (pbx_find_ext w.pbx.head ext).map (fun nd => nd.tu) = none ∧
          nt.state = TU_DIAL_TONE
      · obtain ⟨hf, hst⟩ := hbad
        have hf : pbx_find_ext w.pbx.head ext = none := by simpa using hf
        rw [hf, Option.map_none', eff_dial_null w t nt ht hst] at h
        cases h
        by_cases hat : a = t
        · subst hat
          rw [ha] at ht
          cases ht
          exact ⟨ext, rfl, hst, hf, (pbx_find_ext_eq_none _ _).mp hf⟩
        · simp [Function.update, hat, ha] at ha'
          subst ha'
          exact absurd hn' hn
      · exact absurd ((tu_dial_effect w w' t nt _ r ht h).2 hbad a n n' ha ha' hn') hn
  · exact ⟨_, step_hangup_eq (eff_hangup_idle w' a n' ha' hreg (Or.inr (Or.inr hn'))),
      by simp [Function.update]⟩

theorem error_only_from_unmatched_dial_witness :
    (∃ ext, Op.dial 1 9 = Op.dial 1 ext ∧
        (⟨1, 4, TU_DIAL_TONE, none⟩ : tu_node).state = TU_DIAL_TONE ∧
        pbx_find_ext (two_tus ⟨1, 4, TU_DIAL_TONE, none⟩ ⟨1, 5, TU_ON_HOOK, none⟩).pbx.head ext
          = none ∧
        ∀ nd ∈ (two_tus ⟨1, 4, TU_DIAL_TONE, none⟩ ⟨1, 5, TU_ON_HOOK, none⟩).pbx.head,
          nd.ext ≠ ext) ∧
      (∃ w'', step (Rio_writen (two_tus ⟨1, 4, TU_ERROR, none⟩ ⟨1, 5, TU_ON_HOOK, none⟩)
          4 "ERROR\n") (Op.hangup 1) = some w'' ∧
        (w''.tus 1).map (fun m => m.state) = some TU_ON_HOOK) :=
  error_only_from_unmatched_dial
    (two_tus ⟨1, 4, TU_DIAL_TONE, none⟩ ⟨1, 5, TU_ON_HOOK, none⟩)
    (Rio_writen (two_tus ⟨1, 4, TU_ERROR, none⟩ ⟨1, 5, TU_ON_HOOK, none⟩) 4 "ERROR\n")
    (Op.dial 1 9) 1 ⟨1, 4, TU_DIAL_TONE, none⟩ ⟨1, 4, TU_ERROR, none⟩
    (by
      simp [step, pbx_dial, pbx_find_ext, two_tus, tu_dial, World.upd, Rio_writen,
        tu_state_names]
      funext x
      by_cases h1 : x = 1 <;> simp [Function.update, h1])
    rfl rfl (by decide) rfl (by decide)

/-- C34, at the failing input: started without any argument, or with `-p` and
no port behind it, `main` prints its line to standard error and leaves through
`exit(EXIT_SUCCESS)`: the exit status is 0, not a failure status.  (With a
port given the server is started.) -/
theorem main_usage_error_exits_with_success :
    main ["pbx"] = MainOutcome.exited ["Usage: pbx <port>.\n"] 0 ∧
      main ["pbx", "-p"] = MainOutcome.exited ["Option -p requires a port.\n"] 0 ∧
      main ["pbx", "-p", "3333"] = MainOutcome.serving (some "3333") := by
  decide

/-- C35, at the failing schedule: the two write locks are taken in the order
of the addresses, but `tu_dial` holds its own TU as a reader, which is holding
`tu_lock`, while it enters the target as a reader.  A (address 1) has dialled
B (address 2) up to the write locks; B picks up and dials A.  When B's thread
holds `tu_lock` of B as a reader and A's thread has taken `tu_lock` of A, A's
thread waits for `tu_lock` of B and B's thread waits for `tu_lock` of A: no
thread can run any more. -/
theorem dial_reader_and_writer_deadlock :
    (∀ a b : Nat, write_lock_pair a b =
        [LockOp.P (Sem.tu_lock (min a b)), LockOp.P (Sem.tu_lock (max a b))]) ∧
      (run idle_AB [Op.pickup 1]).bind (fun w => tu_dial_ring_check w 1 2) =
        some (some (4, 5)) ∧
      ((run idle_AB [Op.pickup 1, Op.pickup 2]).bind (fun w => w.tus 2)).map
        (fun n => n.state) = some TU_DIAL_TONE ∧
      (sched_run Sems.fresh [tu_dial_ring_locks 1 2] (List.replicate 20 0)).map
        (fun r => r.2) = some [[]] ∧
      (sched_run Sems.fresh
          [tu_dial_ring_locks 1 2, tu_pickup_on_hook_locks 2 ++ tu_dial_read_locks 2 1]
          (List.replicate 16 0 ++ List.replicate 22 1 ++ [0] ++ [1, 1])).map
        (fun r => (deadlocked r.1 r.2, r.2.map List.head?)) =
        some (true, [some (LockOp.P (Sem.tu_lock 2)), some (LockOp.P_if_first 1)]) := by
  refine ⟨?_, by decide, by decide, by decide, by decide⟩
  intro a b
  unfold write_lock_pair
  by_cases h : a < b
  · rw [if_pos h, min_eq_left (le_of_lt h), max_eq_right (le_of_lt h)]
  · rw [if_neg h, min_eq_right (not_lt.mp h), max_eq_left (not_lt.mp h)]

/-- C36, at the failing schedule: A (address 1) and C (address 3), both at
DIAL_TONE, dial the idle B (address 2).  Both threads test B while they hold
it as readers, both find it ON_HOOK without peer, and nothing is tested again
once the write locks are held: both dialers end in RING_BACK with B as peer
and both are told so, B is rung twice and keeps C as peer only.  (Run one
after the other, the second dial ends in BUSY_SIGNAL.) -/
theorem racing_dials_both_ring_back :
    (((ev_run empty_world connect_ABC).bind
        (fun w => run w [Op.pickup 1, Op.pickup 3])).bind
        (fun w => dial_race w 1 3 2)).map
      (fun w => [w.tus 1, w.tus 2, w.tus 3].map (Option.map (fun n => (n.state, n.peer)))) =
      some [some (TU_RING_BACK, some 2), some (TU_RINGING, some 3),
        some (TU_RING_BACK, some 2)] ∧
      (((ev_run empty_world connect_ABC).bind
        (fun w => run w [Op.pickup 1, Op.pickup 3])).bind
        (fun w => dial_race w 1 3 2)).map
      (fun w => [writes_to 4 w.out, writes_to 5 w.out, writes_to 6 w.out]) =
      some [["ON_HOOK 4\n", "DIAL_TONE\n", "RING_BACK\n"],
        ["ON_HOOK 5\n", "RINGING\n", "RINGING\n"],
        ["ON_HOOK 6\n", "DIAL_TONE\n", "RING_BACK\n"]] ∧
      ((ev_run empty_world connect_ABC).bind
        (fun w => run w [Op.pickup 1, Op.pickup 3, Op.dial 1 5, Op.dial 3 5])).map
      (fun w => [w.tus 1, w.tus 2, w.tus 3].map (Option.map (fun n => (n.state, n.peer)))) =
      some [some (TU_RING_BACK, some 2), some (TU_RINGING, some 1),
        some (TU_BUSY_SIGNAL, none)] :=
  ⟨by decide, by decide, by decide⟩

/-- Return values in a well-formed world.
In a well-formed world, for a live TU `t` in any state and any
target (null or a live TU), `tu_dial` returns, with 0 or -1; it returns -1
exactly when the target is null and `t` was at DIAL_TONE, which is exactly
when the call moves `t` into ERROR, and the ERROR notification is then
written (the trailing `return -1` statements, which write nothing, are never
reached); `tu_pickup` returns 0. -/
theorem tu_dial_tu_pickup_return_values (w : World) (t : Nat) (nt : tu_node)
    (target : Option Nat) (hinv : call_inv w) (ht : w.tus t = some nt)
    (htg : ∀ u, target = some u → ∃ nu, w.tus u = some nu) :
    (∃ r w', tu_dial w t target = some (r, w') ∧ (r = 0 ∨ r = -1) ∧
        (r = -1 ↔ (target = none ∧ nt.state = TU_DIAL_TONE)) ∧
        (r = -1 ↔ (nt.state ≠ TU_ERROR ∧
          (w'.tus t).map (fun n => n.state) = some TU_ERROR)) ∧
        (r = -1 → w'.out = w.out ++ [(nt.connfd, "ERROR\n")])) ∧
      (∃ w', tu_pickup w t = some (0, w')) := by
  have hpeer : ∀ p, nt.peer = some p → ∃ np, w.tus p = some np :=
    fun p hp => hinv.peer_live t nt p ht hp
  have hconn : nt.state = TU_CONNECTED → ∃ p np, nt.peer = some p ∧ w.tus p = some np := by
    intro hc
    obtain ⟨p, np, h1, _, h2, _, _⟩ := hinv.paired t nt ht (Or.inr (Or.inr hc))
    exact ⟨p, np, h1, h2⟩
  constructor
  · by_cases hst : nt.state = TU_DIAL_TONE
    · cases target with
      | none =>
        refine ⟨_, _, eff_dial_null w t nt ht hst, Or.inr rfl, ?_, ?_, ?_⟩
        · simp [hst]
        · simp [hst, Function.update]
        · intro _; rfl
      | some u =>
        obtain ⟨nu, hu⟩ := htg u rfl
        by_cases hbusy : u = t ∨ nu.peer ≠ none ∨ nu.state ≠ TU_ON_HOOK
        · refine ⟨_, _, eff_dial_busy w t u nt nu ht hu hst hbusy, Or.inl rfl, ?_, ?_, ?_⟩
          · simp
          · simp [Function.update]
          · intro h; exact absurd h (by decide)
        · have hne : u ≠ t := fun h => hbusy (Or.inl h)
          have hpu : nu.peer = none := by
            by_contra h; exact hbusy (Or.inr (Or.inl h))
          have hsu : nu.state = TU_ON_HOOK := by
            by_contra h; exact hbusy (Or.inr (Or.inr h))
          refine ⟨_, _, eff_dial_ring w t u nt nu ht hu hne hst hsu hpu, Or.inl rfl, ?_, ?_, ?_⟩
          · simp
          · simp [Function.update, Ne.symm hne]
          · intro h; exact absurd h (by decide)
    · refine ⟨_, _, eff_dial_no_effect w t target nt ht hst hpeer ?_, Or.inl rfl, ?_, ?_, ?_⟩
      · intro hc hn
        obtain ⟨p, _, h1, _⟩ := hconn hc
        rw [h1] at hn
        exact absurd hn (by simp)
      · simp [hst]
      · simp [ht]
      · intro h; exact absurd h (by decide)
  · by_cases h1 : nt.state = TU_ON_HOOK
    · exact ⟨_, eff_pickup_on_hook w t nt ht h1⟩
    · by_cases h2 : nt.state = TU_RINGING
      · obtain ⟨p, np, hp, hne, hlive, _, _⟩ := hinv.paired t nt ht (Or.inl h2)
        exact ⟨_, eff_pickup_ringing w t p nt np ht hlive hne h2 hp⟩
      · exact ⟨_, eff_pickup_other w t nt ht h1 h2 hconn⟩

theorem tu_dial_tu_pickup_return_values_witness :
    (∃ r w', tu_dial idle_AB 1 (some 2) = some (r, w') ∧ (r = 0 ∨ r = -1) ∧
        (r = -1 ↔ ((some 2 : Option Nat) = none ∧
          (⟨1, 4, TU_ON_HOOK, none⟩ : tu_node).state = TU_DIAL_TONE)) ∧
        (r = -1 ↔ ((⟨1, 4, TU_ON_HOOK, none⟩ : tu_node).state ≠ TU_ERROR ∧
          (w'.tus 1).map (fun n => n.state) = some TU_ERROR)) ∧
        (r = -1 → w'.out = idle_AB.out ++
          [((⟨1, 4, TU_ON_HOOK, none⟩ : tu_node).connfd, "ERROR\n")])) ∧
      (∃ w', tu_pickup idle_AB 1 = some (0, w')) :=
  tu_dial_tu_pickup_return_values idle_AB 1 ⟨1, 4, TU_ON_HOOK, none⟩ (some 2)
    (call_inv_of_fresh idle_AB idle_AB_fresh idle_AB_sound) rfl
    (fun u hu => ⟨⟨1, 5, TU_ON_HOOK, none⟩, by cases hu; rfl⟩)

/-- C38, at the failing input: A calls B and hangs up before B answers, then C
picks up and dials B.  The RING_BACK branch of `tu_hangup` left the peer
fields of A and B set, so `tu_dial` finds B with a peer: C is told
BUSY_SIGNAL, B stays ON_HOOK and is not rung. -/
theorem callee_stays_busy_after_abandoned_call :
    ((ev_run empty_world connect_ABC).bind (fun w => run w
        [Op.pickup 1, Op.dial 1 5, Op.hangup 1, Op.pickup 3, Op.dial 3 5])).map
      (fun w => ([w.tus 1, w.tus 2, w.tus 3].map (Option.map (fun n => (n.state, n.peer))),
        writes_to 6 w.out)) =
      some ([some (TU_ON_HOOK, some 2), some (TU_ON_HOOK, some 1), some (TU_BUSY_SIGNAL, none)],
        ["ON_HOOK 6\n", "DIAL_TONE\n", "BUSY_SIGNAL\n"]) := by
  decide

/-- C39: whenever `tu_dial`, `tu_pickup`, `tu_hangup` or `tu_chat`, applied to
a live TU `t`, returns, every TU other than `t` and the peer of `t` (for
`tu_dial`: other than `t` and the dial target) is exactly what it was, state,
peer, extension and reference count, and every text written goes to the
descriptor of `t` or of that one other TU. -/
theorem tu_operations_frame (w : World) (t : Nat) (nt : tu_node) (ht : w.tus t = some nt) :
    (∀ target r w', tu_dial w t target = some (r, w') → changes_only w w' t nt target) ∧
      (∀ r w', tu_pickup w t = some (r, w') → changes_only w w' t nt nt.peer) ∧
      (∀ r w', tu_hangup w t = some (r, w') → changes_only w w' t nt nt.peer) ∧
      (∀ msg r w', tu_chat w t msg = some (r, w') → changes_only w w' t nt nt.peer) :=
  ⟨fun target r w' h => (tu_dial_effect w w' t nt target r ht h).1,
    fun r w' h => (tu_pickup_effect w w' t nt r ht h).1,
    fun r w' h => (tu_hangup_effect w w' t nt r ht h).1,
    fun msg r w' h => (tu_chat_effect w w' t nt msg r ht h).1⟩

theorem tu_operations_frame_witness :
    ∃ r w', tu_hangup connected_AB 1 = some (r, w') ∧
      changes_only connected_AB w' 1 ⟨2, 4, TU_CONNECTED, some 2⟩ (some 2) :=
  ⟨_, _, eff_hangup_engaged connected_AB 1 2 ⟨2, 4, TU_CONNECTED, some 2⟩
      ⟨2, 5, TU_CONNECTED, some 1⟩ rfl rfl (by decide) (by decide) (Or.inl rfl) rfl,
    (tu_operations_frame connected_AB 1 ⟨2, 4, TU_CONNECTED, some 2⟩ rfl).2.2.1 _ _
      (eff_hangup_engaged connected_AB 1 2 ⟨2, 4, TU_CONNECTED, some 2⟩
        ⟨2, 5, TU_CONNECTED, some 1⟩ rfl rfl (by decide) (by decide) (Or.inl rfl) rfl)⟩

/-- C40, at the failing inputs: after a TU has been unregistered its node is
still in the list with the old `tu` pointer.  A second `pbx_unregister` of the
same TU finds that node and goes on with the released TU (the store of
`tu_set_extension` through the dangling pointer) instead of returning -1.
And when `malloc` hands the same address to a new TU, `pbx_unregister` of this
TU, which was never registered, finds the old node too: it returns 0, releases
the TU and lowers `node_count` to -1. -/
theorem pbx_unregister_finds_unregistered_node :
    (ev_run empty_world [Ev.init 1 4, Ev.register 1 4, Ev.unregister 1]).map
        (fun w => (pbx_find_tu w.pbx.head 1, w.pbx.node_count, (w.tus 1).isNone,
          (pbx_unregister w 1).isNone)) =
        some (some ⟨1, -1⟩, 0, true, true) ∧
      ((ev_run empty_world [Ev.init 1 4, Ev.register 1 4, Ev.unregister 1, Ev.init 1 7]).bind
        (fun w => pbx_unregister w 1)).map
        (fun r => (r.1, r.2.pbx.head, r.2.pbx.node_count, (r.2.tus 1).isNone)) =
        some (0, [⟨1, -1⟩], -1, true) :=
  ⟨by decide, by decide⟩


/-! ### What the peer fields left behind and the shared descriptor field break -/

/-- C7, at the failing input: A calls B, hangs up before B answers and picks up
again, so A is at DIAL_TONE with the peer field that the RING_BACK branch of
`tu_hangup` left set.  A then dials 9, which no registry node carries:
`pbx_dial` returns -1 and writes `ERROR\n` to A, but A is left in ERROR with
B as its peer, not without peer. -/
theorem pbx_dial_unknown_extension_keeps_stale_peer :
    (run idle_AB abandoned_call_ops).map
        (fun w => ((w.tus 1).map (fun n => (n.state, n.peer)), pbx_find_ext w.pbx.head 9)) =
        some (some (TU_DIAL_TONE, some 2), none) ∧
      ((run idle_AB abandoned_call_ops).bind (fun w => pbx_dial w 1 9)).map
        (fun r => (r.1, [r.2.tus 1, r.2.tus 2].map (Option.map (fun n => (n.state, n.peer))))) =
        some (-1, [some (TU_ERROR, some 2), some (TU_ON_HOOK, some 1)]) ∧
      ((run idle_AB abandoned_call_ops).bind (fun w => pbx_dial w 1 9)).map
        (fun r => writes_to 4 r.2.out) =
        some ["DIAL_TONE\n", "RING_BACK\n", "ON_HOOK 4\n", "DIAL_TONE\n", "ERROR\n"] :=
  ⟨by decide, by decide, by decide⟩

/-- C8, at the failing input: A calls B, hangs up before B answers and picks up
again, so A is at DIAL_TONE with the peer field that the RING_BACK branch of
`tu_hangup` left set.  `tu_dial` of A itself, and of B (which has a peer),
returns 0 and writes `BUSY_SIGNAL\n` to A, but A is left in BUSY_SIGNAL with
B as its peer, not without peer link. -/
theorem tu_dial_busy_keeps_stale_peer :
    (run idle_AB abandoned_call_ops).map
        (fun w => [w.tus 1, w.tus 2].map (Option.map (fun n => (n.state, n.peer)))) =
        some [some (TU_DIAL_TONE, some 2), some (TU_ON_HOOK, some 1)] ∧
      ((run idle_AB abandoned_call_ops).bind (fun w => tu_dial w 1 (some 1))).map
        (fun r => (r.1, [r.2.tus 1, r.2.tus 2].map (Option.map (fun n => (n.state, n.peer))))) =
        some (0, [some (TU_BUSY_SIGNAL, some 2), some (TU_ON_HOOK, some 1)]) ∧
      ((run idle_AB abandoned_call_ops).bind (fun w => tu_dial w 1 (some 2))).map
        (fun r => (r.1, [r.2.tus 1, r.2.tus 2].map (Option.map (fun n => (n.state, n.peer))))) =
        some (0, [some (TU_BUSY_SIGNAL, some 2), some (TU_ON_HOOK, some 1)]) ∧
      ((run idle_AB abandoned_call_ops).bind (fun w => tu_dial w 1 (some 1))).map
        (fun r => writes_to 4 r.2.out) =
        some ["DIAL_TONE\n", "RING_BACK\n", "ON_HOOK 4\n", "DIAL_TONE\n", "BUSY_SIGNAL\n"] :=
  ⟨by decide, by decide, by decide, by decide⟩

/-- C10, at the failing input: after `released_peer_events` C is registered
under extension 6 and CONNECTED, so not RINGING, and its peer A has been
freed by `pbx_unregister`.  `tu_pickup` of C reads the descriptor of the peer
for the notification `CONNECTED <peer_ext>` and so reads released memory: it
does not return 0. -/
theorem tu_pickup_connected_reads_released_peer :
    (ev_run empty_world released_peer_events).map
        (fun w => (w.tus 3).map (fun n => (n.state, n.connfd, n.peer))) =
        some (some (TU_CONNECTED, 6, some 1)) ∧
      (ev_run empty_world released_peer_events).map
        (fun w => ((w.tus 1).isNone, pbx_find_ext w.pbx.head 6)) =
        some (true, some ⟨3, 6⟩) ∧
      (ev_run empty_world released_peer_events).map (fun w => (tu_pickup w 3).isNone) =
        some true :=
  ⟨by decide, by decide, by decide⟩

/-- C15, at the failing input: after `released_peer_events` C is registered
(extension 6), CONNECTED, and its peer A has been freed.  Each of the four
commands issued by C reads the peer of C and so reads released memory: none
of them returns, and none writes the one notification to C. -/
theorem commands_of_tu_with_released_peer_do_not_return :
    (ev_run empty_world released_peer_events).map
        (fun w => ((w.tus 3).map (fun n => (n.state, n.connfd, n.peer)), (w.tus 1).isNone)) =
        some (some (TU_CONNECTED, 6, some 1), true) ∧
      (ev_run empty_world released_peer_events).map
        (fun w => [Op.pickup 3, Op.hangup 3, Op.dial 3 6, Op.dial 3 9, Op.chat 3 "hi\n"].map
          (fun op => (step w op).isNone)) =
        some [true, true, true, true, true] :=
  ⟨by decide, by decide⟩

/-- C17, at the failing input: `released_peer_events` is a sequence of
connections, commands and disconnections, and it leaves C registered
(extension 6) and CONNECTED with a peer that has been freed.  The first
`tu_hangup` of C reads the descriptor of that peer (line 657) and so reads
released memory: it does not return, C is not put ON_HOOK and is written
nothing. -/
theorem hangup_of_tu_with_released_peer_does_not_return :
    (ev_run empty_world released_peer_events).map
        (fun w => ((w.tus 3).map (fun n => (n.state, n.connfd, n.peer)), (w.tus 1).isNone)) =
        some (some (TU_CONNECTED, 6, some 1), true) ∧
      (ev_run empty_world released_peer_events).map
        (fun w => ((tu_hangup w 3).isNone, (step w (Op.hangup 3)).isNone)) =
        some (true, true) :=
  ⟨by decide, by decide⟩

/-- C19, at the failing input: A is connected on descriptor 4 and registered
under extension 4; a second TU is created by `tu_init` on descriptor 6 and
registered under extension 4.  `pbx_register` returns 0 and appends the node,
but `tu_set_extension` stores the extension over the descriptor of the TU and
writes the line to descriptor 4: the client of A is told `ON_HOOK 4` a second
time, nothing is written to the connection of the new TU, descriptor 6, and
`tu_fileno` of the new TU gives 4 from then on. -/
theorem pbx_register_writes_to_descriptor_of_extension :
    (ev_run empty_world [Ev.init 1 4, Ev.register 1 4, Ev.init 2 6]).map
        (fun w => ([w.tus 1, w.tus 2], w.out)) =
        some ([some ⟨1, 4, TU_ON_HOOK, none⟩, some ⟨0, 6, TU_ON_HOOK, none⟩],
          [(4, "ON_HOOK 4\n")]) ∧
      ((ev_run empty_world [Ev.init 1 4, Ev.register 1 4, Ev.init 2 6]).bind
        (fun w => pbx_register w 2 4 true)).map (fun r => (r.1, r.2.pbx.head, r.2.out)) =
        some (0, [⟨1, 4⟩, ⟨2, 4⟩], [(4, "ON_HOOK 4\n"), (4, "ON_HOOK 4\n")]) ∧
      ((ev_run empty_world [Ev.init 1 4, Ev.register 1 4, Ev.init 2 6]).bind
        (fun w => pbx_register w 2 4 true)).map
        (fun r => (writes_to 6 r.2.out, tu_fileno r.2 2, tu_extension r.2 2)) =
        some ([], some 4, some 4) :=
  ⟨by decide, by decide, by decide⟩

/-- C24, at the failing input: a client connects on descriptor 4 and
disconnects; a second client gets the same address from `malloc`, is
registered under its descriptor 7 and disconnects; a third client connects on
descriptor 7.  The second `pbx_unregister` stops at the first node with that
`tu` pointer, the node of the first client, and leaves the node of the second
client registered: two registered nodes carry extension 7, one of them for a
TU that has been freed. -/
theorem reused_address_leaves_duplicate_extension :
    (ev_run empty_world [Ev.init 1 4, Ev.register 1 4, Ev.unregister 1, Ev.init 1 7,
        Ev.register 1 7, Ev.unregister 1]).map
        (fun w => (w.pbx.head, registered_exts w.pbx.head, (w.tus 1).isNone)) =
        some ([⟨1, -1⟩, ⟨1, 7⟩], [7], true) ∧
      (ev_run empty_world [Ev.init 1 4, Ev.register 1 4, Ev.unregister 1, Ev.init 1 7,
        Ev.register 1 7, Ev.unregister 1, Ev.init 2 7, Ev.register 2 7]).map
        (fun w => (w.pbx.head, registered_exts w.pbx.head, (w.tus 1).isNone)) =
        some ([⟨1, -1⟩, ⟨1, 7⟩, ⟨2, 7⟩], [7, 7], true) :=
  ⟨by decide, by decide⟩

/-- C28, at the failing input: A is on descriptor 4, B on descriptor 5, and
`tu_set_extension` is called for A with 5.  It returns 0, but it stores 5
over the descriptor of A and writes `ON_HOOK 5\n` to descriptor 5, the
connection of B: nothing is written to A, and `tu_fileno` of A gives 5 from
then on. -/
theorem tu_set_extension_writes_to_descriptor_of_extension :
    (tu_fileno idle_AB 1, tu_fileno idle_AB 2) = (some 4, some 5) ∧
      (tu_set_extension idle_AB 1 5).map (fun r => (r.1, r.2.out)) =
        some (0, [(5, "ON_HOOK 5\n")]) ∧
      (tu_set_extension idle_AB 1 5).map
        (fun r => (writes_to 4 r.2.out, tu_fileno r.2 1, tu_extension r.2 1)) =
        some ([], some 5, some 5) :=
  ⟨by decide, by decide, by decide⟩

/-- C37, at the failing input: after `released_peer_events` C is CONNECTED and
its peer has been freed.  `tu_pickup` of C does not return 0, and `tu_dial`
of C, with a null target or with C itself as target, does not return 0
either: each reads the descriptor of the peer for its notification and so
reads released memory. -/
theorem tu_pickup_tu_dial_read_released_peer :
    (ev_run empty_world released_peer_events).map
        (fun w => ((w.tus 3).map (fun n => (n.state, n.peer)), (w.tus 1).isNone)) =
        some (some (TU_CONNECTED, some 1), true) ∧
      (ev_run empty_world released_peer_events).map
        (fun w => ((tu_pickup w 3).isNone, (tu_dial w 3 none).isNone,
          (tu_dial w 3 (some 3)).isNone)) =
        some (true, true, true) :=
  ⟨by decide, by decide⟩

end PbxSim
